import Mathlib

/-!
# Monster escape game: pathfinding core and turn step

A shallow embedding of `Monster_Game.cpp` (class `MonsterEscapeGame`).

* `int` values are `Int`; `pair<int,int>` is `Int × Int` (row, column). Signed overflow is
  undefined in the source, so `int` arithmetic has no wrap-around here: the distance
  tables never exceed `1e9`, and a coordinate or the move counter changes by one per step.
* `vector<vector<T>>` is a total map `Int → Int → T`; the source only indexes it at
  cells that passed `isValid`, at queued cells and at the player start. The player start
  lies in the grid as soon as the grid has a cell; with `rows = 0` or `cols = 0` the write
  `playerDistance[playerStart]` of `findEscapePath` is out of bounds in the source, so the
  theorems that assert a result of `findEscapePath` assume a non-empty grid or are stated
  for a returned value.
* `string` is `List Char`.
* The members of the class are the fields of `Game`; a member function becomes a
  function from `Game` to the new `Game` (and the returned value).
* `while` loops take a fuel argument and return `none` when it runs out.
* Console output and the "press Enter" prompts are not part of the state and are left out.
-/

namespace MonsterGame

/-- A grid coordinate `(row, col)`, the `pair<int,int>` of the source. -/
abbrev Cell := Int × Int

/-- The value `1e9` the distance tables are filled with. -/
def INF : Int := 1000000000

/-- Write `v` at `[i][j]` of a two-dimensional table. -/
def set2 {α : Type} (a : Int → Int → α) (i j : Int) (v : α) : Int → Int → α :=
  fun r c => if r = i ∧ c = j then v else a r c

/-- The data members of `MonsterEscapeGame`. -/
structure Game where
  rows : Int
  cols : Int
  originalGrid : Int → Int → Char
  currentGrid : Int → Int → Char
  playerPos : Cell
  playerStart : Cell
  originalMonsterPositions : List Cell
  currentMonsterPositions : List Cell
  monsterDistance : Int → Int → Int
  playerDistance : Int → Int → Int
  parent : Int → Int → Char
  optimalPath : List Char
  optimalPathLength : Int
  escapePoint : Cell
  moveCount : Int
  gameOver : Bool
  playerWon : Bool

def row_directions : List Int := [-1, 1, 0, 0]
def col_directions : List Int := [0, 0, 1, -1]
def dir : List Char := ['U', 'D', 'R', 'L']

/-- The constructor `MonsterEscapeGame(n, m)`: tables of `n` rows and `m` columns, the
distance tables filled with `1e9`, `parent` with `0`. A negative dimension makes
`vector::resize` throw before a game exists, so the dimensions are naturals here. -/
def MonsterEscapeGame (n m : Nat) : Game :=
  { rows := n
    cols := m
    originalGrid := fun _ _ => Char.ofNat 0
    currentGrid := fun _ _ => Char.ofNat 0
    playerPos := (0, 0)
    playerStart := (0, 0)
    originalMonsterPositions := []
    currentMonsterPositions := []
    monsterDistance := fun _ _ => INF
    playerDistance := fun _ _ => INF
    parent := fun _ _ => Char.ofNat 0
    optimalPath := []
    optimalPathLength := 0
    escapePoint := (0, 0)
    moveCount := 0
    gameOver := false
    playerWon := false }

/-- The body of the double loop of `readInput` at cell `(i, j)`: the next symbol of the
stream is stored in `originalGrid[i][j]` (a failed extraction stores nothing), then the
player start or a monster is recorded. -/
def readCell (i j : Int) (s : Game × List Char) : Game × List Char :=
  let ch := s.2.headD (s.1.originalGrid i j)
  let g := { s.1 with originalGrid := set2 s.1.originalGrid i j ch }
  let g :=
    if ch = 'A' then { g with playerStart := (i, j), playerPos := (i, j) }
    else if ch = 'M' then
      { g with originalMonsterPositions := g.originalMonsterPositions ++ [(i, j)]
               monsterDistance := set2 g.monsterDistance i j 0 }
    else g
  (g, s.2.tail)

/-- `readInput`: `stream` is the sequence of non-blank characters on standard input. -/
def readInput (g : Game) (stream : List Char) : Game :=
  let s := (List.range g.rows.toNat).foldl
    (fun (s : Game × List Char) (i : Nat) => (List.range g.cols.toNat).foldl
      (fun (s : Game × List Char) (j : Nat) => readCell (i : Int) (j : Int) s) s) (g, stream)
  { s.1 with currentGrid := s.1.originalGrid
             currentMonsterPositions := s.1.originalMonsterPositions }

def Game.isValid (g : Game) (row col : Int) : Bool :=
  decide (row ≥ 0) && decide (row < g.rows) && decide (col ≥ 0) && decide (col < g.cols)

def Game.isBoundary (g : Game) (row col : Int) : Bool :=
  if !g.isValid row col then false
  else decide (row = 0) || decide (row = g.rows - 1) || decide (col = 0) || decide (col = g.cols - 1)

def Game.isWalkable (g : Game) (row col : Int) : Bool :=
  g.isValid row col && g.originalGrid row col != '#'

/-- The `for k` loop of `computeMonsterDistances` for the dequeued cell `(row, col)`,
over the remaining values of `k`; the state is the game and the local queue. -/
def monsterScan (row col : Int) : List Nat → Game × List Cell → Game × List Cell
  | [], s => s
  | k :: ks, s =>
    let nr := row + row_directions.getD k 0
    let nc := col + col_directions.getD k 0
    if s.1.isWalkable nr nc then
      let newDist := s.1.monsterDistance row col + 1
      if newDist < s.1.monsterDistance nr nc then
        monsterScan row col ks
          ({ s.1 with monsterDistance := set2 s.1.monsterDistance nr nc newDist },
            s.2 ++ [(nr, nc)])
      else monsterScan row col ks s
    else monsterScan row col ks s

/-- The `while (!q.empty())` loop of `computeMonsterDistances`. -/
def monsterLoop : Nat → Game → List Cell → Option Game
  | _, g, [] => some g
  | 0, _, _ :: _ => none
  | fuel + 1, g, p :: q =>
    let s := monsterScan p.1 p.2 [0, 1, 2, 3] (g, q)
    monsterLoop fuel s.1 s.2

def computeMonsterDistances (fuel : Nat) (g : Game) : Option Game :=
  monsterLoop fuel g g.originalMonsterPositions

/-- The `for k` loop of `findEscapePath` for the dequeued cell `(row, col)`; the third
component is the cell returned from inside the loop, if any. -/
def escapeScan (row col : Int) : List Nat → Game × List Cell → Game × List Cell × Option Cell
  | [], s => (s.1, s.2, none)
  | k :: ks, s =>
    let nr := row + row_directions.getD k 0
    let nc := col + col_directions.getD k 0
    if s.1.isWalkable nr nc then
      let newPlayerDist := s.1.playerDistance row col + 1
      if newPlayerDist < s.1.playerDistance nr nc ∧ newPlayerDist < s.1.monsterDistance nr nc then
        let g : Game :=
          { s.1 with playerDistance := set2 s.1.playerDistance nr nc newPlayerDist
                     parent := set2 s.1.parent nr nc (dir.getD k (Char.ofNat 0)) }
        let q := s.2 ++ [(nr, nc)]
        if g.isBoundary nr nc then (g, q, some (nr, nc))
        else escapeScan row col ks (g, q)
      else escapeScan row col ks s
    else escapeScan row col ks s

/-- The `while (!q.empty())` loop of `findEscapePath`. -/
def escapeLoop : Nat → Game → List Cell → Option (Cell × Game)
  | _, g, [] => some ((-1, -1), g)
  | 0, _, _ :: _ => none
  | fuel + 1, g, p :: q =>
    match escapeScan p.1 p.2 [0, 1, 2, 3] (g, q) with
    | (g1, _, some e) => some (e, g1)
    | (g1, q1, none) => escapeLoop fuel g1 q1

/-- `findEscapePath`: the returned cell and the game it leaves behind. -/
def findEscapePath (fuel : Nat) (g : Game) : Option (Cell × Game) :=
  let q := [g.playerStart]
  let g := { g with playerDistance := set2 g.playerDistance g.playerStart.1 g.playerStart.2 0 }
  if g.isBoundary g.playerStart.1 g.playerStart.2 then some (g.playerStart, g)
  else escapeLoop fuel g q

/-- The `while` loop of `reconstructPath`; `path` is the string built so far. -/
def reconstructLoop (g : Game) : Nat → Int → Int → List Char → Option (List Char)
  | fuel, r, c, path =>
    if (r, c) = g.playerStart then some path
    else
      match fuel with
      | 0 => none
      | fuel + 1 =>
        let d := g.parent r c
        let path := path ++ [d]
        if d = 'U' then reconstructLoop g fuel (r + 1) c path
        else if d = 'D' then reconstructLoop g fuel (r - 1) c path
        else if d = 'L' then reconstructLoop g fuel r (c + 1) path
        else if d = 'R' then reconstructLoop g fuel r (c - 1) path
        else reconstructLoop g fuel r c path

def reconstructPath (fuel : Nat) (g : Game) (destination : Cell) : Option (List Char) :=
  (reconstructLoop g fuel destination.1 destination.2 []).map List.reverse

/-- `computeOptimalSolution`: the returned flag and the game it leaves behind. -/
def computeOptimalSolution (fuel : Nat) (g : Game) : Option (Bool × Game) :=
  match computeMonsterDistances fuel g with
  | none => none
  | some g1 =>
    match findEscapePath fuel g1 with
    | none => none
    | some (e, g2) =>
      let g3 := { g2 with escapePoint := e }
      if e = (-1, -1) then some (false, g3)
      else
        match reconstructPath fuel g3 e with
        | none => none
        | some path =>
          some (true, { g3 with optimalPath := path, optimalPathLength := path.length })

/-- The `abs` of `<cstdlib>`. -/
def iabs (x : Int) : Int := if x < 0 then -x else x

/-- The `for k` loop of `moveMonsters` for the monster at `(mr, mc)`; the state is
`(bestDist, bestR, bestC)`. -/
def pursuitScan (g : Game) (mr mc : Int) : List Nat → Int × Int × Int → Int × Int × Int
  | [], b => b
  | k :: ks, b =>
    let nr := mr + row_directions.getD k 0
    let nc := mc + col_directions.getD k 0
    if g.isWalkable nr nc ∧ (nr, nc) ≠ g.playerPos then
      let dist := iabs (g.playerPos.1 - nr) + iabs (g.playerPos.2 - nc)
      if dist < b.1 then pursuitScan g mr mc ks (dist, nr, nc)
      else pursuitScan g mr mc ks b
    else pursuitScan g mr mc ks b

/-- The body of the outer loop of `moveMonsters`: the new position of one monster. -/
def moveMonster (g : Game) (monster : Cell) : Cell :=
  let mr := monster.1
  let mc := monster.2
  let bestDist := iabs (g.playerPos.1 - mr) + iabs (g.playerPos.2 - mc)
  let b := pursuitScan g mr mc [0, 1, 2, 3] (bestDist, mr, mc)
  (b.2.1, b.2.2)

def moveMonsters (g : Game) : Game :=
  let newMonsterPositions :=
    g.currentMonsterPositions.foldl (fun acc monster => acc ++ [moveMonster g monster]) []
  { g with currentMonsterPositions := newMonsterPositions }

def updateGrid (g : Game) : Game :=
  let grid := (List.range g.rows.toNat).foldl
    (fun (grid : Int → Int → Char) (i : Nat) => (List.range g.cols.toNat).foldl
      (fun (grid : Int → Int → Char) (j : Nat) =>
        if g.originalGrid (i : Int) (j : Int) = '#' then set2 grid (i : Int) (j : Int) '#'
        else set2 grid (i : Int) (j : Int) '.') grid)
    g.currentGrid
  let grid := g.currentMonsterPositions.foldl
    (fun grid monster => set2 grid monster.1 monster.2 'M') grid
  { g with currentGrid := set2 grid g.playerPos.1 g.playerPos.2 'A' }

def isCaughtByMonster (g : Game) : Bool :=
  g.currentMonsterPositions.any (fun monster => monster = g.playerPos)

/-- The "convert move to direction" step of `processMove`: the cell the move points at,
`none` for a character that is not one of `U/D/L/R` in either case. -/
def moveTarget (playerPos : Cell) (move : Char) : Option Cell :=
  let newR := playerPos.1
  let newC := playerPos.2
  if move = 'U' ∨ move = 'u' then some (newR - 1, newC)
  else if move = 'D' ∨ move = 'd' then some (newR + 1, newC)
  else if move = 'L' ∨ move = 'l' then some (newR, newC - 1)
  else if move = 'R' ∨ move = 'r' then some (newR, newC + 1)
  else none

/-- `processMove`: the returned flag and the game it leaves behind. -/
def processMove (g : Game) (move : Char) : Bool × Game :=
  match moveTarget g.playerPos move with
  | none => (false, g)
  | some (newR, newC) =>
    if !g.isWalkable newR newC then (false, g)
    else
      let g := { g with playerPos := (newR, newC), moveCount := g.moveCount + 1 }
      let g := moveMonsters g
      let g := updateGrid g
      if isCaughtByMonster g then (true, { g with gameOver := true, playerWon := false })
      else if g.isBoundary g.playerPos.1 g.playerPos.2 then
        (true, { g with gameOver := true, playerWon := true })
      else (true, g)

/-- The `while (!gameOver)` loop of `playGame`: `moves` are the characters `cin >> move`
reads in turn (the loop also ends when they run out); the result is the game at the end. -/
def playGame : List Char → Game → Game
  | [], g => g
  | move :: rest, g =>
    if g.gameOver then g
    else if move = 'Q' ∨ move = 'q' then g
    else playGame rest (processMove g move).2

/-- The game after the constructor and `readInput`. -/
def initGame (n m : Nat) (stream : List Char) : Game :=
  readInput (MonsterEscapeGame n m) stream

/-! ## Specification-level definitions and the generic search used in the proofs -/

/-- Neighbour `k` of cell `c`: `c` shifted by `(row_directions[k], col_directions[k])`. -/
def nb (c : Cell) (k : Nat) : Cell :=
  (c.1 + row_directions.getD k 0, c.2 + col_directions.getD k 0)

/-- What distinguishes the two breadth-first searches of the source: `adm r c t` says
that cell `(r, c)` may be entered at distance `t`, `stop r c` that the search returns as soon
as `(r, c)` is entered. -/
structure Search where
  adm : Int → Int → Int → Bool
  stop : Int → Int → Bool

/-- The variables a search works on: the distance table, the parent table and the queue. -/
structure SState where
  dist : Int → Int → Int
  par : Int → Int → Char
  q : List Cell

/-- The common shape of `monsterScan` and `escapeScan` (see `monsterScan_eq` and
`escapeScan_eq`); it is used to prove the search invariants once for both. -/
def gScan (P : Search) (row col : Int) : List Nat → SState → SState × Option Cell
  | [], s => (s, none)
  | k :: ks, s =>
    let nr := row + row_directions.getD k 0
    let nc := col + col_directions.getD k 0
    let newDist := s.dist row col + 1
    if P.adm nr nc newDist = true ∧ newDist < s.dist nr nc then
      let s1 : SState :=
        ⟨set2 s.dist nr nc newDist, set2 s.par nr nc (dir.getD k (Char.ofNat 0)), s.q ++ [(nr, nc)]⟩
      if P.stop nr nc then (s1, some (nr, nc)) else gScan P row col ks s1
    else gScan P row col ks s

/-- The common shape of `monsterLoop` and `escapeLoop` (see `monsterLoop_eq` and
`escapeLoop_eq`). -/
def gLoop (P : Search) : Nat → SState → Option (SState × Option Cell)
  | 0, s =>
    match s.q with
    | [] => some (s, none)
    | _ :: _ => none
  | fuel + 1, s =>
    match s.q with
    | [] => some (s, none)
    | p :: rest =>
      match gScan P p.1 p.2 [0, 1, 2, 3] ⟨s.dist, s.par, rest⟩ with
      | (s1, some e) => some (s1, some e)
      | (s1, none) => gLoop P fuel s1

/-- `Reach P src t c`: cell `c` is the end of a walk of `t` steps that starts on a source
cell and enters its `i`-th cell, `i ≥ 1`, admissibly at distance `i`. -/
inductive Reach (P : Search) (src : Cell → Prop) : Nat → Cell → Prop
  | base {c : Cell} : src c → Reach P src 0 c
  | step {t : Nat} {c : Cell} (k : Nat) : k < 4 → Reach P src t c →
      P.adm (nb c k).1 (nb c k).2 ((t + 1 : Nat) : Int) = true → Reach P src (t + 1) (nb c k)

/-- Cell `c` is fully expanded: every neighbour it may hand its distance plus one to
already has a distance that small. -/
def Closed (P : Search) (d : Int → Int → Int) (c : Cell) : Prop :=
  ∀ k, k < 4 → P.adm (nb c k).1 (nb c k).2 (d c.1 c.2 + 1) = true →
    d (nb c k).1 (nb c k).2 ≤ d c.1 c.2 + 1

/-- The number of in-grid cells whose distance is below `INF`. -/
def finCount (rows cols : Nat) (d : Int → Int → Int) : Nat :=
  ((Finset.range rows ×ˢ Finset.range cols).filter
    (fun c => d (c.1 : Int) (c.2 : Int) < INF)).card

/-- The two properties of `adm` the invariants need: a cell admissible at distance `t` is
admissible at every smaller distance, and admissible cells lie inside the grid. -/
structure Good (P : Search) (rows cols : Nat) : Prop where
  mono : ∀ r c t t1, P.adm r c t = true → t1 ≤ t → P.adm r c t1 = true
  valid : ∀ r c t, P.adm r c t = true → 0 ≤ r ∧ r < rows ∧ 0 ≤ c ∧ c < cols

/-- The part of the search invariant that does not mention the queue: distances lie in
`[0, INF]`, a finite distance is the length of an admissible walk from a source, sources
have distance 0, a finite distance is below the number of reached cells, and the parent of
a reached non-source cell is the direction taken from a cell one step closer. -/
structure Base (P : Search) (src : Cell → Prop) (rows cols : Nat)
    (d : Int → Int → Int) (par : Int → Int → Char) : Prop where
  nonneg : ∀ r c, 0 ≤ d r c
  le_inf : ∀ r c, d r c ≤ INF
  sound : ∀ r c, d r c < INF → Reach P src (d r c).toNat (r, c)
  src0 : ∀ r c, src (r, c) → d r c = 0
  count : (∀ r c, src (r, c) → 0 ≤ r ∧ r < rows ∧ 0 ≤ c ∧ c < cols) →
    ∀ r c, d r c < INF → d r c < finCount rows cols d
  par_ok : ∀ r c, d r c < INF → ¬ src (r, c) → ∃ k, k < 4 ∧
    par r c = dir.getD k (Char.ofNat 0) ∧
    d (r - row_directions.getD k 0) (c - col_directions.getD k 0) + 1 = d r c ∧
    P.adm r c (d r c) = true

/-- The invariant inside the `for k` loop while cell `p` is being expanded; `done k` says
that neighbour `k` has been handled. -/
structure Mid (P : Search) (src : Cell → Prop) (rows cols : Nat) (s : SState) (p : Cell)
    (done : Nat → Prop) : Prop where
  base : Base P src rows cols s.dist s.par
  nostop : ∀ r c, s.dist r c < INF → P.stop r c = false
  pfin : s.dist p.1 p.2 < INF
  sorted : s.q.Pairwise (fun x y => s.dist x.1 x.2 ≤ s.dist y.1 y.2)
  qge : ∀ x ∈ s.q, s.dist p.1 p.2 ≤ s.dist x.1 x.2
  qfin : ∀ x ∈ s.q, s.dist x.1 x.2 < INF
  lvl : ∀ r c, s.dist r c < INF → s.dist r c ≤ s.dist p.1 p.2 + 1
  closed : ∀ r c, s.dist r c < INF → (r, c) ∈ s.q ∨ (r, c) = p ∨ Closed P s.dist (r, c)
  prog : ∀ k, done k → k < 4 → P.adm (nb p k).1 (nb p k).2 (s.dist p.1 p.2 + 1) = true →
    s.dist (nb p k).1 (nb p k).2 ≤ s.dist p.1 p.2 + 1

/-- The invariant at the head of the `while` loop: the queue is sorted by distance, no
reached cell is more than one step beyond any queued cell, and every reached cell is queued
or fully expanded. -/
structure Head (P : Search) (src : Cell → Prop) (rows cols : Nat) (s : SState) : Prop where
  base : Base P src rows cols s.dist s.par
  nostop : ∀ r c, s.dist r c < INF → P.stop r c = false
  sorted : s.q.Pairwise (fun x y => s.dist x.1 x.2 ≤ s.dist y.1 y.2)
  qfin : ∀ x ∈ s.q, s.dist x.1 x.2 < INF
  lvl : ∀ r c, s.dist r c < INF → ∀ x ∈ s.q, s.dist r c ≤ s.dist x.1 x.2 + 1
  closed : ∀ r c, s.dist r c < INF → (r, c) ∈ s.q ∨ Closed P s.dist (r, c)

/-- What holds when the loop ends: with the queue empty every reached cell is fully
expanded and none is a stop cell; on an early return the returned stop cell is at least as
close as any stop cell that an admissible walk reaches. -/
def Post (P : Search) (src : Cell → Prop) (rows cols : Nat) (r : SState × Option Cell) : Prop :=
  Base P src rows cols r.1.dist r.1.par ∧
  match r.2 with
  | none => (∀ i j, r.1.dist i j < INF → P.stop i j = false) ∧
      (∀ i j, r.1.dist i j < INF → Closed P r.1.dist (i, j))
  | some e => P.stop e.1 e.2 = true ∧ r.1.dist e.1 e.2 < INF ∧
      ∀ t c, Reach P src t c → P.stop c.1 c.2 = true → r.1.dist e.1 e.2 ≤ t

/-- The monster search: every walkable cell may be entered at any time, no early return. -/
def monsterSearch (g : Game) : Search :=
  ⟨fun r c _ => g.isWalkable r c, fun _ _ => false⟩

/-- The player search: a walkable cell may be entered at time `t` when `t` is smaller than
its monster distance; the search returns at the first boundary cell. -/
def escapeSearch (g : Game) : Search :=
  ⟨fun r c t => g.isWalkable r c && decide (t < g.monsterDistance r c), fun r c => g.isBoundary r c⟩

/-- The invariant of the double loop of `readInput`; `seen` holds of the cells already
read. -/
structure ReadInv (n m : Nat) (seen : Cell → Prop) (g : Game) : Prop where
  rows : g.rows = n
  cols : g.cols = m
  md0 : ∀ r c, (r, c) ∈ g.originalMonsterPositions → g.monsterDistance r c = 0
  mdInf : ∀ r c, (r, c) ∉ g.originalMonsterPositions → g.monsterDistance r c = INF
  mons : ∀ x ∈ g.originalMonsterPositions, seen x ∧ g.originalGrid x.1 x.2 = 'M'
  isM : ∀ r c, g.originalGrid r c = 'M' → (r, c) ∈ g.originalMonsterPositions
  unseen : ∀ r c, ¬ seen (r, c) → g.originalGrid r c = Char.ofNat 0
  pd : g.playerDistance = fun _ _ => INF
  par : g.parent = fun _ _ => Char.ofNat 0
  start : g.playerStart = (0, 0) ∨
    (seen g.playerStart ∧ g.originalGrid g.playerStart.1 g.playerStart.2 = 'A')
  hasA : ∀ r c, g.originalGrid r c = 'A' →
    seen g.playerStart ∧ g.originalGrid g.playerStart.1 g.playerStart.2 = 'A'

/-- What the monster and player searches rely on in the game left by `readInput`. -/
structure Init (n m : Nat) (g : Game) : Prop where
  rows : g.rows = n
  cols : g.cols = m
  md0 : ∀ r c, (r, c) ∈ g.originalMonsterPositions → g.monsterDistance r c = 0
  mdInf : ∀ r c, (r, c) ∉ g.originalMonsterPositions → g.monsterDistance r c = INF
  mons : ∀ x ∈ g.originalMonsterPositions,
    g.isValid x.1 x.2 = true ∧ g.originalGrid x.1 x.2 = 'M'
  isM : ∀ r c, g.originalGrid r c = 'M' → (r, c) ∈ g.originalMonsterPositions
  pd : g.playerDistance = fun _ _ => INF
  par : g.parent = fun _ _ => Char.ofNat 0
  start : g.playerStart = (0, 0) ∨
    (g.isValid g.playerStart.1 g.playerStart.2 = true ∧
      g.originalGrid g.playerStart.1 g.playerStart.2 = 'A')
  hasA : ∀ r c, g.originalGrid r c = 'A' →
    g.isValid g.playerStart.1 g.playerStart.2 = true ∧
      g.originalGrid g.playerStart.1 g.playerStart.2 = 'A'

/-- Two cells are 4-adjacent: they differ by one step up, down, right or left. -/
def adj4 (a b : Cell) : Prop := iabs (a.1 - b.1) + iabs (a.2 - b.2) = 1

/-- A path `c 0, ..., c t` of 4-adjacent walkable cells that starts on an `'M'` cell. -/
def MonsterPath (g : Game) (t : Nat) (c : Nat → Cell) : Prop :=
  (g.isValid (c 0).1 (c 0).2 = true ∧ g.originalGrid (c 0).1 (c 0).2 = 'M') ∧
  (∀ i, i < t → adj4 (c i) (c (i + 1))) ∧
  (∀ i, i ≤ t → g.isWalkable (c i).1 (c i).2 = true)

/-- A safe path `c 0 = playerStart, c 1, ..., c t`: consecutive cells are 4-adjacent and
every `c i` with `i ≥ 1` is walkable with `i < monsterDistance[c i]`. -/
def SafePath (g : Game) (t : Nat) (c : Nat → Cell) : Prop :=
  c 0 = g.playerStart ∧
  (∀ i, i < t → adj4 (c i) (c (i + 1))) ∧
  (∀ i, 1 ≤ i → i ≤ t → g.isWalkable (c i).1 (c i).2 = true ∧
    (i : Int) < g.monsterDistance (c i).1 (c i).2)

/-- A path `c 0 = playerStart, c 1, ..., c t` through walkable cells (walls only). -/
def WalkPath (g : Game) (t : Nat) (c : Nat → Cell) : Prop :=
  c 0 = g.playerStart ∧
  (∀ i, i < t → adj4 (c i) (c (i + 1))) ∧
  (∀ i, 1 ≤ i → i ≤ t → g.isWalkable (c i).1 (c i).2 = true)

/-- One simulated move: `U` is row-1, `D` is row+1, `L` is col-1, `R` is col+1. -/
def stepDir (c : Cell) (d : Char) : Cell :=
  if d = 'U' then (c.1 - 1, c.2)
  else if d = 'D' then (c.1 + 1, c.2)
  else if d = 'L' then (c.1, c.2 - 1)
  else if d = 'R' then (c.1, c.2 + 1)
  else c

/-- The cell reached from `start` after simulating the directions `ds` one by one. -/
def walk (start : Cell) (ds : List Char) : Cell := ds.foldl stepDir start

/-- The 3x3 grid with the player in the centre and a monster in the lower right corner. -/
def gridOpen3 : List Char := "....A...M".toList

/-- Scenario A: the 3x3 grid `###/#A#/###`. -/
def gridEnclosed : List Char := "####A####".toList

/-- Scenario B: the 1x3 grid `A.M`. -/
def gridRow : List Char := "A.M".toList

/-- The open 3x3 grid with the player in the centre and no monster. -/
def gridNoMonster : List Char := "....A....".toList

/-- Manhattan distance: the sum of the absolute row and column differences. -/
def manhattan (a b : Cell) : Int := iabs (a.1 - b.1) + iabs (a.2 - b.2)

/-- A neighbour the pursuit rule may pick for a monster at `mon`: neighbour `k` is
walkable, is not the player's cell, and is strictly closer (Manhattan) to the player. -/
def pursuitCandidate (g : Game) (mon : Cell) (k : Nat) : Bool :=
  g.isWalkable (nb mon k).1 (nb mon k).2 && decide (nb mon k ≠ g.playerPos) &&
    decide (manhattan g.playerPos (nb mon k) < manhattan g.playerPos mon)

/-- The pursuit rule in the words of the specification: the first neighbour in scan order
Up, Down, Right, Left that is a candidate; the monster stays when there is none. -/
def pursuitRule (g : Game) (mon : Cell) : Cell :=
  match [0, 1, 2, 3].find? (pursuitCandidate g mon) with
  | some k => nb mon k
  | none => mon

/-- Scenario D: an open 3x3 grid, player at `(0,0)`, monster at `(2,2)`. -/
def gridPursuit : List Char := "A.......M".toList

/-- The 1x2 grid `AM`: the player next to a monster. -/
def gridBeside : List Char := "AM".toList

/-- The invariant of a search started on tables that are already filled in: finite
distances are lengths of admissible walks, queued cells have finite distances, and the
distance of `e` is the least length of an admissible walk to `e`. -/
structure Rerun (P : Search) (src : Cell → Prop) (e : Cell) (s : SState) : Prop where
  nonneg : ∀ r c, 0 ≤ s.dist r c
  le_inf : ∀ r c, s.dist r c ≤ INF
  sound : ∀ r c, s.dist r c < INF → Reach P src (s.dist r c).toNat (r, c)
  qfin : ∀ x ∈ s.q, s.dist x.1 x.2 < INF
  least : ∀ t, Reach P src t e → s.dist e.1 e.2 ≤ t

/-- Scenario C: the 5x1 column grid with the player in the second row. -/
def gridColumn : List Char := ".A...".toList

/-- A 1x2 stream without any `'A'`. -/
def gridNoPlayer : List Char := "..".toList

/-- A 1x2 stream with two `'A'` symbols. -/
def gridTwoPlayers : List Char := "AA".toList

/-- Further facts kept by the double loop of `readInput`, for the original stream `S`:
every stored symbol comes from `S`, the player position equals the player start, the start
is the default `(0,0)` unless an `'A'` was read, the counters are untouched, and the monster
list has no repetition and only holds cells already read. -/
structure ReadExtra (S : List Char) (seen : Cell → Prop) (s : Game × List Char) : Prop where
  sub : ∀ x ∈ s.2, x ∈ S
  grid : ∀ r c, s.1.originalGrid r c = Char.ofNat 0 ∨ s.1.originalGrid r c ∈ S
  pos : s.1.playerPos = s.1.playerStart
  startA : s.1.playerStart = (0, 0) ∨ 'A' ∈ S
  count0 : s.1.moveCount = 0
  over : s.1.gameOver = false
  won : s.1.playerWon = false
  nodup : s.1.originalMonsterPositions.Nodup
  monsSeen : ∀ x ∈ s.1.originalMonsterPositions, seen x

/-- What `ReadExtra` gives for the game left by `readInput`. -/
structure InitExtra (S : List Char) (g : Game) : Prop where
  grid : ∀ r c, g.originalGrid r c = Char.ofNat 0 ∨ g.originalGrid r c ∈ S
  pos : g.playerPos = g.playerStart
  startA : g.playerStart = (0, 0) ∨ 'A' ∈ S
  count0 : g.moveCount = 0
  over : g.gameOver = false
  won : g.playerWon = false
  nodup : g.originalMonsterPositions.Nodup
  current : g.currentMonsterPositions = g.originalMonsterPositions

/-- The cells `(r, c)` at which the `while` loop of `reconstructPath` reads
`parent[r][c]`, in the order of the reads: `reconstructLoop` with the visited cell recorded
in place of the direction. -/
def reconstructReads (g : Game) : Nat → Int → Int → List Cell
  | fuel, r, c =>
    if (r, c) = g.playerStart then []
    else
      match fuel with
      | 0 => []
      | fuel + 1 =>
        let d := g.parent r c
        (r, c) ::
          (if d = 'U' then reconstructReads g fuel (r + 1) c
          else if d = 'D' then reconstructReads g fuel (r - 1) c
          else if d = 'L' then reconstructReads g fuel r (c + 1)
          else if d = 'R' then reconstructReads g fuel r (c - 1)
          else reconstructReads g fuel r c)

/-- The loop `gLoop` with a log: the cells pushed so far, in the order of the pushes, and
the number of cells dequeued so far. -/
def gLoopLog (P : Search) :
    Nat → SState → List Cell × Nat → Option (SState × Option Cell × List Cell × Nat)
  | 0, s, l =>
    match s.q with
    | [] => some (s, none, l)
    | _ :: _ => none
  | fuel + 1, s, l =>
    match s.q with
    | [] => some (s, none, l)
    | p :: rest =>
      match gScan P p.1 p.2 [0, 1, 2, 3] ⟨s.dist, s.par, rest⟩ with
      | (s1, some e) => some (s1, some e, l.1 ++ s1.q.drop rest.length, l.2 + 1)
      | (s1, none) => gLoopLog P fuel s1 (l.1 ++ s1.q.drop rest.length, l.2 + 1)

/-- The `while` loop of `computeMonsterDistances` with a log of its queue operations: the
first component of the log lists the cells pushed so far (the `for k` loop only appends to
the queue, so its pushes are the cells beyond the old length), the second counts the
`q.pop()` calls. -/
def monsterLoopLog : Nat → Game → List Cell → List Cell × Nat → Option (Game × List Cell × Nat)
  | _, g, [], l => some (g, l)
  | 0, _, _ :: _, _ => none
  | fuel + 1, g, p :: q, l =>
    let s := monsterScan p.1 p.2 [0, 1, 2, 3] (g, q)
    monsterLoopLog fuel s.1 s.2 (l.1 ++ s.2.drop q.length, l.2 + 1)

/-- `computeMonsterDistances` with the log: the monster cells are the pushes made before
the loop. -/
def computeMonsterDistancesLog (fuel : Nat) (g : Game) : Option (Game × List Cell × Nat) :=
  monsterLoopLog fuel g g.originalMonsterPositions (g.originalMonsterPositions, 0)

/-- The `while` loop of `findEscapePath` with the same log as `monsterLoopLog`. -/
def escapeLoopLog :
    Nat → Game → List Cell → List Cell × Nat → Option (Cell × Game × List Cell × Nat)
  | _, g, [], l => some ((-1, -1), g, l)
  | 0, _, _ :: _, _ => none
  | fuel + 1, g, p :: q, l =>
    match escapeScan p.1 p.2 [0, 1, 2, 3] (g, q) with
    | (g1, q1, some e) => some (e, g1, l.1 ++ q1.drop q.length, l.2 + 1)
    | (g1, q1, none) => escapeLoopLog fuel g1 q1 (l.1 ++ q1.drop q.length, l.2 + 1)

/-- `findEscapePath` with the log: the player start is the push made before the loop. -/
def findEscapePathLog (fuel : Nat) (g : Game) : Option (Cell × Game × List Cell × Nat) :=
  let q := [g.playerStart]
  let g := { g with playerDistance := set2 g.playerDistance g.playerStart.1 g.playerStart.2 0 }
  if g.isBoundary g.playerStart.1 g.playerStart.2 then some (g.playerStart, g, q, 0)
  else escapeLoopLog fuel g q (q, 0)

/-- What the log satisfies at the head of the loop: no cell was pushed twice, every pushed
cell lies in the grid and has a finite distance, and the pushed cells are the dequeued ones
followed by the queue. -/
structure LogInv (rows cols : Nat) (s : SState) (l : List Cell × Nat) : Prop where
  nodup : l.1.Nodup
  fin : ∀ x ∈ l.1, 0 ≤ x.1 ∧ x.1 < rows ∧ 0 ≤ x.2 ∧ x.2 < cols ∧ s.dist x.1 x.2 < INF
  len : l.2 + s.q.length = l.1.length

/-- A 4x3 grid on which a one-move win exists although the solver reports two moves:
rows `M..`, `.A#`, `...`, `...`. -/
def gridShortcut : List Char := "M...A#......".toList

/-- The game after `processMove` was called with each character of `moves` in turn, the
returned flags dropped. -/
def playMoves (g : Game) (moves : List Char) : Game :=
  moves.foldl (fun g move => (processMove g move).2) g

/-- Two games over the same grid: equal dimensions and equal `originalGrid`. -/
def SameGrid (g G : Game) : Prop :=
  g.rows = G.rows ∧ g.cols = G.cols ∧ g.originalGrid = G.originalGrid

/-- The position invariant of the live game: the player stands on a walkable cell, every
monster stands on a walkable cell (`isWalkable` includes `isValid`, so these cells lie in
the grid), and there are as many current monster positions as original ones. -/
def PositionsOk (g : Game) : Prop :=
  g.isWalkable g.playerPos.1 g.playerPos.2 = true ∧
  (∀ mon ∈ g.currentMonsterPositions, g.isWalkable mon.1 mon.2 = true) ∧
  g.currentMonsterPositions.length = g.originalMonsterPositions.length

/-! ## Lemmas and theorems -/

theorem set2_same {α : Type} (a : Int → Int → α) (i j : Int) (v : α) : set2 a i j v i j = v := by
  simp [set2]

theorem set2_other {α : Type} (a : Int → Int → α) (i j : Int) (v : α) (r c : Int)
    (h : ¬ (r = i ∧ c = j)) : set2 a i j v r c = a r c := by
  simp [set2, h]

theorem finCount_le (rows cols : Nat) (d : Int → Int → Int) : finCount rows cols d ≤ rows * cols := by
  unfold finCount
  calc _ ≤ (Finset.range rows ×ˢ Finset.range cols).card := Finset.card_filter_le _ _
    _ = rows * cols := by simp

theorem finCount_lt_set2 (rows cols : Nat) (d : Int → Int → Int) (i j v : Int)
    (hi : 0 ≤ i ∧ i < rows) (hj : 0 ≤ j ∧ j < cols) (hd : INF ≤ d i j) (hv : v < INF) :
    finCount rows cols d < finCount rows cols (set2 d i j v) := by
  unfold finCount
  apply Finset.card_lt_card
  rw [Finset.ssubset_iff_of_subset]
  · refine ⟨(i.toNat, j.toNat), ?_, ?_⟩
    · simp only [Finset.mem_filter, Finset.mem_product, Finset.mem_range]
      have h1 : ((i.toNat : Nat) : Int) = i := Int.toNat_of_nonneg hi.1
      have h2 : ((j.toNat : Nat) : Int) = j := Int.toNat_of_nonneg hj.1
      refine ⟨⟨by omega, by omega⟩, ?_⟩
      rw [h1, h2, set2_same]; exact hv
    · simp only [Finset.mem_filter, not_and, not_lt]
      intro _
      have h1 : ((i.toNat : Nat) : Int) = i := Int.toNat_of_nonneg hi.1
      have h2 : ((j.toNat : Nat) : Int) = j := Int.toNat_of_nonneg hj.1
      rw [h1, h2]; exact hd
  · intro c hc
    simp only [Finset.mem_filter] at hc ⊢
    refine ⟨hc.1, ?_⟩
    by_cases h : ((c.1 : Int) = i ∧ (c.2 : Int) = j)
    · rw [h.1, h.2, set2_same]; exact hv
    · rw [set2_other _ _ _ _ _ _ h]; exact hc.2

theorem INF_eq : INF = 1000000000 := rfl

theorem nb_sub (c : Cell) (k : Nat) :
    ((nb c k).1 - row_directions.getD k 0, (nb c k).2 - col_directions.getD k 0) = c := by
  simp [nb]

theorem relax_base {P : Search} {src : Cell → Prop} {rows cols : Nat}
    {d : Int → Int → Int} {par : Int → Int → Char}
    (hP : Good P rows cols) (hb : Base P src rows cols d par) (pr pc : Int) (k : Nat)
    (hk : k < 4) (hpfin : d pr pc < INF)
    (hadm : P.adm (nb (pr, pc) k).1 (nb (pr, pc) k).2 (d pr pc + 1) = true)
    (hninf : d (nb (pr, pc) k).1 (nb (pr, pc) k).2 = INF)
    (hlt : d pr pc + 1 < INF) :
    Base P src rows cols (set2 d (nb (pr, pc) k).1 (nb (pr, pc) k).2 (d pr pc + 1))
      (set2 par (nb (pr, pc) k).1 (nb (pr, pc) k).2 (dir.getD k (Char.ofNat 0))) := by
  have hp0 := hb.nonneg pr pc
  have hpn : ¬ (pr = (nb (pr, pc) k).1 ∧ pc = (nb (pr, pc) k).2) := by
    rintro ⟨h1, h2⟩
    rw [← h1, ← h2] at hninf
    omega
  have hval := hP.valid _ _ _ hadm
  have hF := finCount_lt_set2 rows cols d (nb (pr, pc) k).1 (nb (pr, pc) k).2 (d pr pc + 1)
    ⟨hval.1, hval.2.1⟩ ⟨hval.2.2.1, hval.2.2.2⟩ (le_of_eq hninf.symm) hlt
  constructor
  · intro r c
    by_cases h : r = (nb (pr, pc) k).1 ∧ c = (nb (pr, pc) k).2
    · rw [h.1, h.2, set2_same]; omega
    · rw [set2_other _ _ _ _ _ _ h]; exact hb.nonneg r c
  · intro r c
    by_cases h : r = (nb (pr, pc) k).1 ∧ c = (nb (pr, pc) k).2
    · rw [h.1, h.2, set2_same]; omega
    · rw [set2_other _ _ _ _ _ _ h]; exact hb.le_inf r c
  · intro r c
    by_cases h : r = (nb (pr, pc) k).1 ∧ c = (nb (pr, pc) k).2
    · rw [h.1, h.2, set2_same]
      intro _
      have hcast : (((d pr pc).toNat + 1 : Nat) : Int) = d pr pc + 1 := by omega
      have hr := @Reach.step P src _ _ k hk (hb.sound pr pc hpfin)
        (by rw [hcast]; exact hadm)
      have ht : (d pr pc + 1).toNat = (d pr pc).toNat + 1 := by omega
      rw [ht]; exact hr
    · rw [set2_other _ _ _ _ _ _ h]; exact hb.sound r c
  · intro r c hs
    by_cases h : r = (nb (pr, pc) k).1 ∧ c = (nb (pr, pc) k).2
    · have := hb.src0 r c hs
      rw [h.1, h.2, hninf] at this
      rw [INF_eq] at this; omega
    · rw [set2_other _ _ _ _ _ _ h]; exact hb.src0 r c hs
  · intro hsrc r c
    by_cases h : r = (nb (pr, pc) k).1 ∧ c = (nb (pr, pc) k).2
    · rw [h.1, h.2, set2_same]
      intro _
      have := hb.count hsrc pr pc hpfin
      omega
    · rw [set2_other _ _ _ _ _ _ h]
      intro hfin
      have := hb.count hsrc r c hfin
      omega
  · intro r c
    by_cases h : r = (nb (pr, pc) k).1 ∧ c = (nb (pr, pc) k).2
    · rw [h.1, h.2, set2_same, set2_same]
      intro _ _
      refine ⟨k, hk, rfl, ?_, hadm⟩
      have := nb_sub (pr, pc) k
      rw [Prod.mk.injEq] at this
      rw [this.1, this.2, set2_other _ _ _ _ _ _ hpn]
    · rw [set2_other _ _ _ _ _ _ h, set2_other _ _ _ _ _ _ h]
      intro hfin hns
      obtain ⟨k1, hk1, hpar, hd, ha⟩ := hb.par_ok r c hfin hns
      refine ⟨k1, hk1, hpar, ?_, ha⟩
      rw [set2_other]
      · exact hd
      · rintro ⟨h1, h2⟩
        rw [h1, h2, hninf] at hd
        omega

theorem mid_target_inf {P : Search} {src : Cell → Prop} {rows cols : Nat} {s : SState}
    {p : Cell} {done : Nat → Prop} (hm : Mid P src rows cols s p done) (r c : Int)
    (hlt : s.dist p.1 p.2 + 1 < s.dist r c) : s.dist r c = INF := by
  by_contra hne
  have h1 := hm.base.le_inf r c
  have h2 := hm.lvl r c (lt_of_le_of_ne h1 hne)
  omega

theorem relax_mid {P : Search} {src : Cell → Prop} {rows cols : Nat} {s : SState}
    {p : Cell} {done : Nat → Prop} (hP : Good P rows cols) (hm : Mid P src rows cols s p done)
    (k : Nat) (hk : k < 4)
    (hadm : P.adm (nb p k).1 (nb p k).2 (s.dist p.1 p.2 + 1) = true)
    (hlt : s.dist p.1 p.2 + 1 < s.dist (nb p k).1 (nb p k).2)
    (hstop : P.stop (nb p k).1 (nb p k).2 = false) :
    Mid P src rows cols
      ⟨set2 s.dist (nb p k).1 (nb p k).2 (s.dist p.1 p.2 + 1),
        set2 s.par (nb p k).1 (nb p k).2 (dir.getD k (Char.ofNat 0)), s.q ++ [nb p k]⟩ p
      (fun j => done j ∨ j = k) := by
  have hninf := mid_target_inf hm _ _ hlt
  have hpfin := hm.pfin
  have hlt1 : s.dist p.1 p.2 + 1 < INF := by rw [hninf] at hlt; exact hlt
  have hpn : ¬ (p.1 = (nb p k).1 ∧ p.2 = (nb p k).2) := by
    rintro ⟨h1, h2⟩
    rw [← h1, ← h2] at hninf
    omega
  have hle : ∀ r c, set2 s.dist (nb p k).1 (nb p k).2 (s.dist p.1 p.2 + 1) r c ≤ s.dist r c := by
    intro r c
    by_cases h : r = (nb p k).1 ∧ c = (nb p k).2
    · rw [h.1, h.2, set2_same, hninf]; omega
    · rw [set2_other _ _ _ _ _ _ h]
  have hfin : ∀ r c, s.dist r c < INF →
      set2 s.dist (nb p k).1 (nb p k).2 (s.dist p.1 p.2 + 1) r c = s.dist r c := by
    intro r c hf
    rw [set2_other]
    rintro ⟨h1, h2⟩
    rw [h1, h2, hninf] at hf
    omega
  have hb := relax_base hP hm.base p.1 p.2 k hk hpfin hadm hninf hlt1
  refine ⟨hb, ?_, ?_, ?_, ?_, ?_, ?_, ?_, ?_⟩
  · intro r c
    by_cases h : r = (nb p k).1 ∧ c = (nb p k).2
    · intro _; rw [h.1, h.2]; exact hstop
    · show set2 s.dist _ _ _ r c < INF → _
      rw [set2_other _ _ _ _ _ _ h]; exact hm.nostop r c
  · show set2 s.dist _ _ _ p.1 p.2 < INF
    rw [hfin _ _ hpfin]; exact hpfin
  · show List.Pairwise _ (s.q ++ [nb p k])
    rw [List.pairwise_append]
    refine ⟨?_, List.pairwise_singleton _ _, ?_⟩
    · refine List.Pairwise.imp_of_mem ?_ hm.sorted
      intro a b ha hb1 hab
      show set2 s.dist _ _ _ a.1 a.2 ≤ set2 s.dist _ _ _ b.1 b.2
      rw [hfin _ _ (hm.qfin a ha), hfin _ _ (hm.qfin b hb1)]; exact hab
    · intro a ha b hb1
      rw [List.mem_singleton] at hb1
      subst hb1
      show set2 s.dist _ _ _ a.1 a.2 ≤ set2 s.dist _ _ _ (nb p k).1 (nb p k).2
      rw [hfin _ _ (hm.qfin a ha), set2_same]
      exact hm.lvl _ _ (hm.qfin a ha)
  · intro x hx
    show set2 s.dist _ _ _ p.1 p.2 ≤ set2 s.dist _ _ _ x.1 x.2
    rw [hfin _ _ hpfin]
    rw [List.mem_append, List.mem_singleton] at hx
    rcases hx with hx | hx
    · rw [hfin _ _ (hm.qfin x hx)]; exact hm.qge x hx
    · subst hx; rw [set2_same]; omega
  · intro x hx
    show set2 s.dist _ _ _ x.1 x.2 < INF
    rw [List.mem_append, List.mem_singleton] at hx
    rcases hx with hx | hx
    · rw [hfin _ _ (hm.qfin x hx)]; exact hm.qfin x hx
    · subst hx; rw [set2_same]; exact hlt1
  · intro r c
    show set2 s.dist _ _ _ r c < INF → set2 s.dist _ _ _ r c ≤ set2 s.dist _ _ _ p.1 p.2 + 1
    rw [hfin _ _ hpfin]
    by_cases h : r = (nb p k).1 ∧ c = (nb p k).2
    · rw [h.1, h.2, set2_same]; intro _; omega
    · rw [set2_other _ _ _ _ _ _ h]; exact hm.lvl r c
  · intro r c
    show set2 s.dist _ _ _ r c < INF → (r, c) ∈ s.q ++ [nb p k] ∨ (r, c) = p ∨ Closed P _ (r, c)
    by_cases h : r = (nb p k).1 ∧ c = (nb p k).2
    · intro _
      left
      rw [List.mem_append, List.mem_singleton]
      right
      rw [h.1, h.2]
    · rw [set2_other _ _ _ _ _ _ h]
      intro hf
      rcases hm.closed r c hf with h1 | h1 | h1
      · left; rw [List.mem_append]; left; exact h1
      · right; left; exact h1
      · right; right
        intro j hj ha
        show set2 s.dist _ _ _ _ _ ≤ set2 s.dist _ _ _ r c + 1
        dsimp only at ha
        rw [set2_other _ _ _ _ r c h] at ha ⊢
        exact le_trans (hle _ _) (h1 j hj ha)
  · intro j hj hj4 ha
    show set2 s.dist _ _ _ _ _ ≤ set2 s.dist _ _ _ p.1 p.2 + 1
    dsimp only at ha
    rw [hfin _ _ hpfin] at ha ⊢
    rcases hj with hj | hj
    · exact le_trans (hle _ _) (hm.prog j hj hj4 ha)
    · subst hj; rw [set2_same]

theorem skip_mid {P : Search} {src : Cell → Prop} {rows cols : Nat} {s : SState}
    {p : Cell} {done : Nat → Prop} (hm : Mid P src rows cols s p done) (k : Nat)
    (hno : ¬ (P.adm (nb p k).1 (nb p k).2 (s.dist p.1 p.2 + 1) = true ∧
      s.dist p.1 p.2 + 1 < s.dist (nb p k).1 (nb p k).2)) :
    Mid P src rows cols s p (fun j => done j ∨ j = k) := by
  refine ⟨hm.base, hm.nostop, hm.pfin, hm.sorted, hm.qge, hm.qfin, hm.lvl, hm.closed, ?_⟩
  intro j hj hj4 ha
  rcases hj with hj | hj
  · exact hm.prog j hj hj4 ha
  · subst hj
    by_contra hc
    exact hno ⟨ha, by omega⟩

theorem mid_upto {P : Search} {src : Cell → Prop} {rows cols : Nat} {s : SState}
    {p : Cell} {done : Nat → Prop} (hP : Good P rows cols) (hm : Mid P src rows cols s p done) :
    ∀ (t : Nat) (c : Cell), Reach P src t c → (t : Int) ≤ s.dist p.1 p.2 →
      s.dist c.1 c.2 ≤ t := by
  intro t c hr
  induction hr with
  | base hs =>
    intro _
    rw [hm.base.src0 _ _ hs]; simp
  | @step t c k hk _ ha ih =>
    intro ht
    have ih1 := ih (by push_cast at ht; omega)
    have hpf := hm.pfin
    have hcf : s.dist c.1 c.2 < INF := by push_cast at ht; omega
    have hcl : Closed P s.dist c := by
      have h0 := hm.closed c.1 c.2 hcf
      rw [Prod.mk.eta] at h0
      rcases h0 with h1 | h1 | h1
      · have := hm.qge _ h1
        push_cast at ht; omega
      · rw [← h1] at ht
        push_cast at ht; omega
      · exact h1
    have := hcl k hk (hP.mono _ _ _ _ ha (by push_cast; omega))
    push_cast
    omega

theorem relax_post {P : Search} {src : Cell → Prop} {rows cols : Nat} {s : SState}
    {p : Cell} {done : Nat → Prop} (hP : Good P rows cols) (hm : Mid P src rows cols s p done)
    (k : Nat) (hk : k < 4)
    (hadm : P.adm (nb p k).1 (nb p k).2 (s.dist p.1 p.2 + 1) = true)
    (hlt : s.dist p.1 p.2 + 1 < s.dist (nb p k).1 (nb p k).2)
    (hstop : P.stop (nb p k).1 (nb p k).2 = true) :
    Post P src rows cols
      (⟨set2 s.dist (nb p k).1 (nb p k).2 (s.dist p.1 p.2 + 1),
        set2 s.par (nb p k).1 (nb p k).2 (dir.getD k (Char.ofNat 0)), s.q ++ [nb p k]⟩,
        some (nb p k)) := by
  have hninf := mid_target_inf hm _ _ hlt
  have hlt1 : s.dist p.1 p.2 + 1 < INF := by rw [hninf] at hlt; exact hlt
  refine ⟨relax_base hP hm.base p.1 p.2 k hk hm.pfin hadm hninf hlt1, hstop, ?_, ?_⟩
  · show set2 s.dist _ _ _ _ _ < INF
    rw [set2_same]; exact hlt1
  · intro t c hr hs
    show set2 s.dist _ _ _ _ _ ≤ _
    rw [set2_same]
    by_contra hc
    have h1 := mid_upto hP hm t c hr (by omega)
    have h2 := hm.nostop c.1 c.2 (by omega)
    rw [h2] at hs
    exact Bool.false_ne_true hs

theorem gScan_spec {P : Search} {src : Cell → Prop} {rows cols : Nat} (hP : Good P rows cols)
    (p : Cell) : ∀ (ks : List Nat) (s : SState) (done : Nat → Prop), (∀ k ∈ ks, k < 4) →
    Mid P src rows cols s p done →
    (∀ s1, gScan P p.1 p.2 ks s = (s1, none) →
      Mid P src rows cols s1 p (fun j => done j ∨ j ∈ ks) ∧
      s1.q.length + finCount rows cols s.dist ≤ s.q.length + finCount rows cols s1.dist) ∧
    (∀ s1 e, gScan P p.1 p.2 ks s = (s1, some e) → Post P src rows cols (s1, some e)) := by
  intro ks
  induction ks with
  | nil =>
    intro s done _ hm
    constructor
    · intro s1 h
      simp only [gScan, Prod.mk.injEq, and_true] at h
      subst h
      refine ⟨?_, le_refl _⟩
      have e : (fun j => done j ∨ j ∈ ([] : List Nat)) = done := by
        funext j; simp
      rw [e]; exact hm
    · intro s1 e h
      simp [gScan] at h
  | cons k ks ih =>
    intro s done hks hm
    have hk : k < 4 := hks k (List.mem_cons_self _ _)
    have hks1 : ∀ j ∈ ks, j < 4 := fun j hj => hks j (List.mem_cons_of_mem _ hj)
    have hdone : ∀ (D : Nat → Prop), (fun j => (D j ∨ j = k) ∨ j ∈ ks) =
        (fun j => D j ∨ j ∈ k :: ks) := by
      intro D; funext j; simp [or_assoc]
    by_cases hc : P.adm (nb p k).1 (nb p k).2 (s.dist p.1 p.2 + 1) = true ∧
        s.dist p.1 p.2 + 1 < s.dist (nb p k).1 (nb p k).2
    · by_cases hs : P.stop (nb p k).1 (nb p k).2 = true
      · have hg : gScan P p.1 p.2 (k :: ks) s =
            (⟨set2 s.dist (nb p k).1 (nb p k).2 (s.dist p.1 p.2 + 1),
              set2 s.par (nb p k).1 (nb p k).2 (dir.getD k (Char.ofNat 0)), s.q ++ [nb p k]⟩,
              some (nb p k)) := by
          have hc1 := hc
          have hs1 := hs
          simp only [nb] at hc1 hs1
          simp only [gScan, nb, hc1, hs1, and_self, if_true]
        rw [hg]
        constructor
        · intro s1 h; simp at h
        · intro s1 e h
          rw [← h]
          exact relax_post hP hm k hk hc.1 hc.2 hs
      · have hs0 : P.stop (nb p k).1 (nb p k).2 = false := by simpa using hs
        have hg : gScan P p.1 p.2 (k :: ks) s = gScan P p.1 p.2 ks
            ⟨set2 s.dist (nb p k).1 (nb p k).2 (s.dist p.1 p.2 + 1),
              set2 s.par (nb p k).1 (nb p k).2 (dir.getD k (Char.ofNat 0)), s.q ++ [nb p k]⟩ := by
          have hc1 := hc
          have hs1 := hs0
          simp only [nb] at hc1 hs1
          simp only [gScan, nb, hc1, hs1, and_self, if_true, Bool.false_eq_true, if_false]
        rw [hg]
        have hm1 := relax_mid hP hm k hk hc.1 hc.2 hs0
        obtain ⟨i1, i2⟩ := ih _ _ hks1 hm1
        constructor
        · intro s1 h
          obtain ⟨j1, j2⟩ := i1 s1 h
          rw [hdone] at j1
          refine ⟨j1, ?_⟩
          have hninf := mid_target_inf hm _ _ hc.2
          have hv := hP.valid _ _ _ hc.1
          have hF := finCount_lt_set2 rows cols s.dist (nb p k).1 (nb p k).2 (s.dist p.1 p.2 + 1)
            ⟨hv.1, hv.2.1⟩ ⟨hv.2.2.1, hv.2.2.2⟩ (le_of_eq hninf.symm)
            (by rw [hninf] at hc; exact hc.2)
          simp only [List.length_append, List.length_singleton] at j2
          omega
        · exact i2
    · have hg : gScan P p.1 p.2 (k :: ks) s = gScan P p.1 p.2 ks s := by
        have hc1 := hc
        simp only [nb] at hc1
        simp only [gScan, nb, hc1, if_false]
      rw [hg]
      obtain ⟨i1, i2⟩ := ih _ _ hks1 (skip_mid hm k hc)
      constructor
      · intro s1 h
        obtain ⟨j1, j2⟩ := i1 s1 h
        rw [hdone] at j1
        exact ⟨j1, j2⟩
      · exact i2

theorem gLoop_spec {P : Search} {src : Cell → Prop} {rows cols : Nat} (hP : Good P rows cols) :
    ∀ (fuel : Nat) (s : SState), Head P src rows cols s →
      s.q.length + (rows * cols - finCount rows cols s.dist) ≤ fuel →
      ∃ r, gLoop P fuel s = some r ∧ Post P src rows cols r := by
  intro fuel
  induction fuel with
  | zero =>
    intro s hh hf
    obtain ⟨d, par, q⟩ := s
    cases q with
    | nil =>
      refine ⟨_, rfl, hh.base, hh.nostop, ?_⟩
      intro i j hfin
      rcases hh.closed i j hfin with h | h
      · simp at h
      · exact h
    | cons p rest => simp at hf
  | succ fuel ih =>
    intro s hh hf
    obtain ⟨d, par, q⟩ := s
    cases q with
    | nil =>
      refine ⟨_, rfl, hh.base, hh.nostop, ?_⟩
      intro i j hfin
      rcases hh.closed i j hfin with h | h
      · simp at h
      · exact h
    | cons p rest =>
      have hsorted := hh.sorted
      simp only [List.pairwise_cons] at hsorted
      have hm : Mid P src rows cols ⟨d, par, rest⟩ p (fun _ => False) := by
        refine ⟨hh.base, hh.nostop, hh.qfin p (List.mem_cons_self _ _), hsorted.2, hsorted.1,
          fun x hx => hh.qfin x (List.mem_cons_of_mem _ hx),
          fun r c hfin => hh.lvl r c hfin p (List.mem_cons_self _ _), ?_, ?_⟩
        · intro r c hfin
          rcases hh.closed r c hfin with h | h
          · rw [List.mem_cons] at h
            rcases h with h | h
            · right; left; exact h
            · left; exact h
          · right; right; exact h
        · intro k hk; exact absurd hk id
      obtain ⟨i1, i2⟩ := gScan_spec hP p [0, 1, 2, 3] ⟨d, par, rest⟩ (fun _ => False)
        (by intro k hk; simp at hk; omega) hm
      rcases hsc : gScan P p.1 p.2 [0, 1, 2, 3] ⟨d, par, rest⟩ with ⟨s1, _ | e⟩
      · obtain ⟨j1, j2⟩ := i1 s1 hsc
        have hh1 : Head P src rows cols s1 := by
          refine ⟨j1.base, j1.nostop, j1.sorted, j1.qfin, ?_, ?_⟩
          · intro r c hfin x hx
            have := j1.lvl r c hfin
            have := j1.qge x hx
            omega
          · intro r c hfin
            rcases j1.closed r c hfin with h | h | h
            · left; exact h
            · right
              rw [h]
              intro k hk ha
              exact j1.prog k (Or.inr (by simp; omega)) hk ha
            · right; exact h
        have hF := finCount_le rows cols s1.dist
        have hF0 := finCount_le rows cols d
        simp only [List.length_cons] at hf
        simp only at j2
        obtain ⟨r, hr1, hr2⟩ := ih s1 hh1 (by omega)
        refine ⟨r, ?_, hr2⟩
        simp only [gLoop, hsc]
        exact hr1
      · refine ⟨(s1, some e), ?_, i2 s1 e hsc⟩
        simp only [gLoop, hsc]

theorem gLoop_mono (P : Search) : ∀ (fuel : Nat) (s : SState) (r : SState × Option Cell),
    gLoop P fuel s = some r → ∀ n, gLoop P (fuel + n) s = some r := by
  intro fuel
  induction fuel with
  | zero =>
    intro s r h n
    obtain ⟨d, par, q⟩ := s
    cases q with
    | nil =>
      cases n with
      | zero => exact h
      | succ n => simpa [gLoop] using h
    | cons p rest => simp [gLoop] at h
  | succ fuel ih =>
    intro s r h n
    obtain ⟨d, par, q⟩ := s
    have e : fuel + 1 + n = (fuel + n) + 1 := by omega
    rw [e]
    cases q with
    | nil => simpa [gLoop] using h
    | cons p rest =>
      simp only [gLoop] at h ⊢
      rcases hsc : gScan P p.1 p.2 [0, 1, 2, 3] ⟨d, par, rest⟩ with ⟨s1, _ | e⟩
      · rw [hsc] at h
        simp only at h ⊢
        exact ih s1 r h n
      · rw [hsc] at h
        simpa using h

theorem gLoop_post {P : Search} {src : Cell → Prop} {rows cols : Nat} (hP : Good P rows cols)
    (fuel : Nat) (s : SState) (r : SState × Option Cell) (hh : Head P src rows cols s)
    (hr : gLoop P fuel s = some r) : Post P src rows cols r := by
  obtain ⟨r1, h1, h2⟩ := gLoop_spec hP
    (fuel + (s.q.length + (rows * cols - finCount rows cols s.dist))) s hh (by omega)
  rw [gLoop_mono P fuel s r hr] at h1
  cases h1
  exact h2

theorem closed_complete {P : Search} {src : Cell → Prop} {rows cols : Nat}
    {d : Int → Int → Int} {par : Int → Int → Char}
    (hP : Good P rows cols) (hb : Base P src rows cols d par)
    (hcl : ∀ i j, d i j < INF → Closed P d (i, j)) :
    ∀ (t : Nat) (c : Cell), Reach P src t c → d c.1 c.2 ≤ t := by
  intro t c hr
  induction hr with
  | base hs => rw [hb.src0 _ _ hs]; simp
  | @step t c k hk _ ha ih =>
    by_cases hf : d c.1 c.2 < INF
    · have h0 := hcl c.1 c.2 hf
      rw [Prod.mk.eta] at h0
      have := h0 k hk (hP.mono _ _ _ _ ha (by push_cast; omega))
      push_cast
      omega
    · have := hb.le_inf (nb c k).1 (nb c k).2
      push_cast
      omega

theorem closed_finite {P Q : Search} {src : Cell → Prop} {rows cols : Nat}
    {d : Int → Int → Int} {par : Int → Int → Char}
    (hb : Base P src rows cols d par)
    (hcl : ∀ i j, d i j < INF → Closed P d (i, j))
    (hsrc : ∀ r c, src (r, c) → 0 ≤ r ∧ r < rows ∧ 0 ≤ c ∧ c < cols)
    (hsize : (rows * cols : Int) < INF)
    (hQ : ∀ r c t τ, Q.adm r c t = true → τ ≤ (rows * cols : Int) → P.adm r c τ = true) :
    ∀ (t : Nat) (c : Cell), Reach Q src t c → d c.1 c.2 < INF := by
  intro t c hr
  induction hr with
  | base hs => rw [hb.src0 _ _ hs, INF_eq]; omega
  | @step t c k hk _ ha ih =>
    have h1 := hb.count hsrc c.1 c.2 ih
    have h2 := finCount_le rows cols d
    have h3 : ((finCount rows cols d : Nat) : Int) ≤ (rows * cols : Int) := by exact_mod_cast h2
    have h0 := hcl c.1 c.2 ih
    rw [Prod.mk.eta] at h0
    have := h0 k hk (hQ _ _ _ _ ha (by omega))
    omega

theorem monsterScan_eq (row col : Int) : ∀ (ks : List Nat) (g : Game) (q : List Cell)
    (par : Int → Int → Char),
    (gScan (monsterSearch g) row col ks ⟨g.monsterDistance, par, q⟩).2 = none ∧
    monsterScan row col ks (g, q) =
      ({ g with monsterDistance :=
          (gScan (monsterSearch g) row col ks ⟨g.monsterDistance, par, q⟩).1.dist },
        (gScan (monsterSearch g) row col ks ⟨g.monsterDistance, par, q⟩).1.q) := by
  intro ks
  induction ks with
  | nil => intro g q par; exact ⟨rfl, rfl⟩
  | cons k ks ih =>
    intro g q par
    by_cases hw : g.isWalkable (row + row_directions.getD k 0) (col + col_directions.getD k 0) = true
    · by_cases hl : g.monsterDistance row col + 1 <
          g.monsterDistance (row + row_directions.getD k 0) (col + col_directions.getD k 0)
      · have := ih { g with monsterDistance := (set2 g.monsterDistance
            (row + row_directions.getD k 0) (col + col_directions.getD k 0)
            (g.monsterDistance row col + 1)) }
          (q ++ [(row + row_directions.getD k 0, col + col_directions.getD k 0)])
          (set2 par (row + row_directions.getD k 0) (col + col_directions.getD k 0)
            (dir.getD k (Char.ofNat 0)))
        simp only [gScan, monsterScan, monsterSearch, hw, hl, and_self, if_true,
          Bool.false_eq_true, if_false]
        exact this
      · have := ih g q par
        simp only [gScan, monsterScan, monsterSearch, hw, hl, and_false, if_true, if_false]
        exact this
    · have := ih g q par
      simp only [gScan, monsterScan, monsterSearch, hw, false_and, if_false]
      exact this

theorem monsterLoop_eq : ∀ (fuel : Nat) (g : Game) (q : List Cell) (par : Int → Int → Char),
    monsterLoop fuel g q =
      (gLoop (monsterSearch g) fuel ⟨g.monsterDistance, par, q⟩).map
        (fun r => { g with monsterDistance := r.1.dist }) := by
  intro fuel
  induction fuel with
  | zero =>
    intro g q par
    cases q with
    | nil => rfl
    | cons p rest => rfl
  | succ fuel ih =>
    intro g q par
    cases q with
    | nil => rfl
    | cons p rest =>
      obtain ⟨h1, h2⟩ := monsterScan_eq p.1 p.2 [0, 1, 2, 3] g rest par
      simp only [monsterLoop, gLoop]
      rw [h2]
      rcases hsc : gScan (monsterSearch g) p.1 p.2 [0, 1, 2, 3] ⟨g.monsterDistance, par, rest⟩
        with ⟨s1, _ | e⟩
      · simp only
        exact ih { g with monsterDistance := s1.dist } s1.q s1.par
      · rw [hsc] at h1
        simp at h1

theorem escapeScan_eq (row col : Int) : ∀ (ks : List Nat) (g : Game) (q : List Cell),
    escapeScan row col ks (g, q) =
      ({ g with
          playerDistance := (gScan (escapeSearch g) row col ks ⟨g.playerDistance, g.parent, q⟩).1.dist
          parent := (gScan (escapeSearch g) row col ks ⟨g.playerDistance, g.parent, q⟩).1.par },
        (gScan (escapeSearch g) row col ks ⟨g.playerDistance, g.parent, q⟩).1.q,
        (gScan (escapeSearch g) row col ks ⟨g.playerDistance, g.parent, q⟩).2) := by
  intro ks
  induction ks with
  | nil => intro g q; rfl
  | cons k ks ih =>
    intro g q
    by_cases hw : g.isWalkable (row + row_directions.getD k 0) (col + col_directions.getD k 0) = true
    · by_cases hl : g.playerDistance row col + 1 <
          g.playerDistance (row + row_directions.getD k 0) (col + col_directions.getD k 0)
      · by_cases hm : g.playerDistance row col + 1 <
            g.monsterDistance (row + row_directions.getD k 0) (col + col_directions.getD k 0)
        · by_cases hb : g.isBoundary (row + row_directions.getD k 0)
              (col + col_directions.getD k 0) = true
          · have hb1 : Game.isBoundary { g with
                playerDistance := (set2 g.playerDistance (row + row_directions.getD k 0)
                  (col + col_directions.getD k 0) (g.playerDistance row col + 1))
                parent := (set2 g.parent (row + row_directions.getD k 0)
                  (col + col_directions.getD k 0) (dir.getD k (Char.ofNat 0))) }
                (row + row_directions.getD k 0) (col + col_directions.getD k 0) = true := hb
            simp only [gScan, escapeScan, escapeSearch, hw, hl, hm, hb, hb1, and_self, if_true,
              Bool.and_self, decide_True, Bool.true_and]
          · have hb0 : g.isBoundary (row + row_directions.getD k 0)
              (col + col_directions.getD k 0) = false := by simpa using hb
            have hb1 : Game.isBoundary { g with
                playerDistance := (set2 g.playerDistance (row + row_directions.getD k 0)
                  (col + col_directions.getD k 0) (g.playerDistance row col + 1))
                parent := (set2 g.parent (row + row_directions.getD k 0)
                  (col + col_directions.getD k 0) (dir.getD k (Char.ofNat 0))) }
                (row + row_directions.getD k 0) (col + col_directions.getD k 0) = false := hb0
            have := ih { g with
                playerDistance := (set2 g.playerDistance (row + row_directions.getD k 0)
                  (col + col_directions.getD k 0) (g.playerDistance row col + 1))
                parent := (set2 g.parent (row + row_directions.getD k 0)
                  (col + col_directions.getD k 0) (dir.getD k (Char.ofNat 0))) }
              (q ++ [(row + row_directions.getD k 0, col + col_directions.getD k 0)])
            simp only [gScan, escapeScan, escapeSearch, hw, hl, hm, hb0, hb1, and_self, if_true,
              Bool.and_self, decide_True, Bool.true_and, Bool.false_eq_true, if_false]
            exact this
        · have := ih g q
          simp only [gScan, escapeScan, escapeSearch, hw, hl, hm, and_false, false_and, if_true,
            if_false, decide_False, Bool.and_false, Bool.false_eq_true, Bool.true_and]
          exact this
      · have := ih g q
        simp only [gScan, escapeScan, escapeSearch, hw, hl, and_false, false_and, if_true,
          if_false]
        exact this
    · have := ih g q
      have hw0 : g.isWalkable (row + row_directions.getD k 0)
          (col + col_directions.getD k 0) = false := by simpa using hw
      simp only [gScan, escapeScan, escapeSearch, hw0, Bool.false_and, false_and, if_false,
        Bool.false_eq_true]
      exact this

theorem escapeLoop_eq : ∀ (fuel : Nat) (g : Game) (q : List Cell),
    escapeLoop fuel g q =
      (gLoop (escapeSearch g) fuel ⟨g.playerDistance, g.parent, q⟩).map
        (fun r => (r.2.getD (-1, -1), { g with playerDistance := r.1.dist, parent := r.1.par })) := by
  intro fuel
  induction fuel with
  | zero =>
    intro g q
    cases q with
    | nil => rfl
    | cons p rest => rfl
  | succ fuel ih =>
    intro g q
    cases q with
    | nil => rfl
    | cons p rest =>
      have h2 := escapeScan_eq p.1 p.2 [0, 1, 2, 3] g rest
      simp only [escapeLoop, gLoop]
      rw [h2]
      rcases hsc : gScan (escapeSearch g) p.1 p.2 [0, 1, 2, 3] ⟨g.playerDistance, g.parent, rest⟩
        with ⟨s1, _ | e⟩
      · simp only
        exact ih { g with playerDistance := s1.dist, parent := s1.par } s1.q
      · simp

theorem ReadInv.congr {n m : Nat} {seen seen1 : Cell → Prop} {g : Game}
    (h : ∀ x, seen x ↔ seen1 x) (hi : ReadInv n m seen g) : ReadInv n m seen1 g := by
  have : seen = seen1 := funext fun x => propext (h x)
  rw [← this]; exact hi

theorem readCell_inv {n m : Nat} {seen : Cell → Prop} (i j : Int) (g : Game) (st : List Char)
    (hi : ReadInv n m seen g) (hns : ¬ seen (i, j)) :
    ReadInv n m (fun x => seen x ∨ x = (i, j)) (readCell i j (g, st)).1 := by
  have hne : ∀ x, seen x → ¬ (x.1 = i ∧ x.2 = j) := by
    rintro ⟨a, b⟩ hx ⟨h1, h2⟩
    simp only at h1 h2
    rw [h1, h2] at hx
    exact hns hx
  by_cases hA : st.headD (g.originalGrid i j) = 'A'
  · have hres : (readCell i j (g, st)).1 =
        { g with originalGrid := set2 g.originalGrid i j 'A', playerStart := (i, j),
                 playerPos := (i, j) } := by
      simp only [readCell, hA, if_true]
    rw [hres]
    refine ⟨hi.rows, hi.cols, hi.md0, hi.mdInf, ?_, ?_, ?_, hi.pd, hi.par, ?_, ?_⟩
    · intro x hx
      have := hi.mons x hx
      refine ⟨Or.inl this.1, ?_⟩
      show set2 g.originalGrid i j 'A' x.1 x.2 = 'M'
      rw [set2_other _ _ _ _ _ _ (hne x this.1)]; exact this.2
    · intro r c
      show set2 g.originalGrid i j 'A' r c = 'M' → _
      by_cases h : r = i ∧ c = j
      · rw [h.1, h.2, set2_same]; intro h1; exact absurd h1 (by decide)
      · rw [set2_other _ _ _ _ _ _ h]; exact hi.isM r c
    · intro r c hn
      show set2 g.originalGrid i j 'A' r c = _
      have h : ¬ (r = i ∧ c = j) := by
        rintro ⟨h1, h2⟩; exact hn (Or.inr (by rw [h1, h2]))
      rw [set2_other _ _ _ _ _ _ h]
      exact hi.unseen r c (fun hs => hn (Or.inl hs))
    · right
      exact ⟨Or.inr rfl, set2_same _ _ _ _⟩
    · intro r c _
      exact ⟨Or.inr rfl, set2_same _ _ _ _⟩
  · have hstart : ∀ (G : Int → Int → Char), G = set2 g.originalGrid i j (st.headD (g.originalGrid i j)) →
        (g.playerStart = (0, 0) ∨ ((seen g.playerStart ∨ g.playerStart = (i, j)) ∧
          G g.playerStart.1 g.playerStart.2 = 'A')) ∧
        (∀ r c, G r c = 'A' → (seen g.playerStart ∨ g.playerStart = (i, j)) ∧
          G g.playerStart.1 g.playerStart.2 = 'A') := by
      intro G hG
      have key : ∀ r c, G r c = 'A' → (seen g.playerStart ∨ g.playerStart = (i, j)) ∧
          G g.playerStart.1 g.playerStart.2 = 'A' := by
        intro r c
        rw [hG]
        by_cases h : r = i ∧ c = j
        · rw [h.1, h.2, set2_same]; intro h1; exact absurd h1 hA
        · rw [set2_other _ _ _ _ _ _ h]
          intro h1
          have := hi.hasA r c h1
          refine ⟨Or.inl this.1, ?_⟩
          rw [set2_other _ _ _ _ _ _ (hne _ this.1)]; exact this.2
      refine ⟨?_, key⟩
      rcases hi.start with h | h
      · left; exact h
      · right
        refine ⟨Or.inl h.1, ?_⟩
        rw [hG, set2_other _ _ _ _ _ _ (hne _ h.1)]; exact h.2
    have hunseen : ∀ r c, ¬ (seen (r, c) ∨ (r, c) = (i, j)) →
        set2 g.originalGrid i j (st.headD (g.originalGrid i j)) r c = Char.ofNat 0 := by
      intro r c hn
      have h : ¬ (r = i ∧ c = j) := by
        rintro ⟨h1, h2⟩; exact hn (Or.inr (by rw [h1, h2]))
      rw [set2_other _ _ _ _ _ _ h]
      exact hi.unseen r c (fun hs => hn (Or.inl hs))
    by_cases hM : st.headD (g.originalGrid i j) = 'M'
    · have hres : (readCell i j (g, st)).1 =
          { g with originalGrid := set2 g.originalGrid i j (st.headD (g.originalGrid i j)),
                   originalMonsterPositions := g.originalMonsterPositions ++ [(i, j)],
                   monsterDistance := set2 g.monsterDistance i j 0 } := by
        simp only [readCell, hA, hM, if_true, if_false]
        simp
      rw [hres]
      have hs := hstart _ rfl
      refine ⟨hi.rows, hi.cols, ?_, ?_, ?_, ?_, hunseen, hi.pd, hi.par, hs.1, hs.2⟩
      · intro r c
        show (r, c) ∈ g.originalMonsterPositions ++ [(i, j)] → set2 g.monsterDistance i j 0 r c = 0
        by_cases h : r = i ∧ c = j
        · rw [h.1, h.2, set2_same]; intro _; trivial
        · rw [set2_other _ _ _ _ _ _ h, List.mem_append, List.mem_singleton]
          rintro (h1 | h1)
          · exact hi.md0 r c h1
          · rw [Prod.mk.injEq] at h1; exact absurd h1 h
      · intro r c
        show (r, c) ∉ g.originalMonsterPositions ++ [(i, j)] → set2 g.monsterDistance i j 0 r c = INF
        rw [List.mem_append, List.mem_singleton]
        intro hn
        have h : ¬ (r = i ∧ c = j) := by
          rintro ⟨h1, h2⟩; exact hn (Or.inr (by rw [h1, h2]))
        rw [set2_other _ _ _ _ _ _ h]
        exact hi.mdInf r c (fun hs => hn (Or.inl hs))
      · intro x
        show x ∈ g.originalMonsterPositions ++ [(i, j)] → _ ∧
          set2 g.originalGrid i j (st.headD (g.originalGrid i j)) x.1 x.2 = 'M'
        rw [List.mem_append, List.mem_singleton]
        rintro (h1 | h1)
        · have := hi.mons x h1
          refine ⟨Or.inl this.1, ?_⟩
          rw [set2_other _ _ _ _ _ _ (hne x this.1)]; exact this.2
        · subst h1
          exact ⟨Or.inr rfl, by rw [set2_same]; exact hM⟩
      · intro r c
        show set2 g.originalGrid i j (st.headD (g.originalGrid i j)) r c = 'M' →
          (r, c) ∈ g.originalMonsterPositions ++ [(i, j)]
        rw [List.mem_append, List.mem_singleton]
        by_cases h : r = i ∧ c = j
        · intro _; right; rw [h.1, h.2]
        · rw [set2_other _ _ _ _ _ _ h]
          intro h1; left; exact hi.isM r c h1
    · have hres : (readCell i j (g, st)).1 =
          { g with originalGrid := set2 g.originalGrid i j (st.headD (g.originalGrid i j)) } := by
        simp only [readCell, hA, hM, if_false]
      rw [hres]
      have hs := hstart _ rfl
      refine ⟨hi.rows, hi.cols, hi.md0, hi.mdInf, ?_, ?_, hunseen, hi.pd, hi.par, hs.1, hs.2⟩
      · intro x hx
        have := hi.mons x hx
        refine ⟨Or.inl this.1, ?_⟩
        show set2 g.originalGrid i j _ x.1 x.2 = 'M'
        rw [set2_other _ _ _ _ _ _ (hne x this.1)]; exact this.2
      · intro r c
        show set2 g.originalGrid i j (st.headD (g.originalGrid i j)) r c = 'M' → _
        by_cases h : r = i ∧ c = j
        · rw [h.1, h.2, set2_same]; intro h1; exact absurd h1 hM
        · rw [set2_other _ _ _ _ _ _ h]; exact hi.isM r c

theorem readRow_inv {n m : Nat} (i : Int) : ∀ (js : List Nat) (s : Game × List Char)
    (seen : Cell → Prop), ReadInv n m seen s.1 → (∀ j ∈ js, ¬ seen (i, (j : Int))) → js.Nodup →
    ReadInv n m (fun x => seen x ∨ ∃ j ∈ js, x = (i, (j : Int)))
      (js.foldl (fun (s : Game × List Char) (j : Nat) => readCell i (j : Int) s) s).1 := by
  intro js
  induction js with
  | nil =>
    intro s seen hi _ _
    exact hi.congr (fun x => by simp)
  | cons j js ih =>
    intro s seen hi hns hnd
    rw [List.nodup_cons] at hnd
    have h1 := readCell_inv (i := i) (j := (j : Int)) s.1 s.2 hi (hns j (List.mem_cons_self _ _))
    have h2 := ih (readCell i j s) _ h1 (by
      intro j1 hj1
      rintro (h | h)
      · exact hns j1 (List.mem_cons_of_mem _ hj1) h
      · rw [Prod.mk.injEq] at h
        have : j1 = j := by exact_mod_cast h.2
        rw [this] at hj1
        exact hnd.1 hj1) hnd.2
    rw [List.foldl_cons]
    refine h2.congr (fun x => ?_)
    simp only [List.mem_cons, exists_eq_or_imp, or_assoc]

theorem readRows_inv {n m : Nat} (cols : Nat) : ∀ (is : List Nat) (s : Game × List Char)
    (seen : Cell → Prop), ReadInv n m seen s.1 →
    (∀ i ∈ is, ∀ j, ¬ seen ((i : Int), j)) → is.Nodup →
    ReadInv n m (fun x => seen x ∨ ∃ i ∈ is, ∃ j ∈ List.range cols, x = ((i : Int), (j : Int)))
      (is.foldl (fun (s : Game × List Char) (i : Nat) => (List.range cols).foldl
        (fun (s : Game × List Char) (j : Nat) => readCell (i : Int) (j : Int) s) s) s).1 := by
  intro is
  induction is with
  | nil =>
    intro s seen hi _ _
    exact hi.congr (fun x => by simp)
  | cons i is ih =>
    intro s seen hi hns hnd
    rw [List.nodup_cons] at hnd
    have h1 := readRow_inv (n := n) (m := m) (i : Int) (List.range cols) s seen hi
      (fun j _ => hns i (List.mem_cons_self _ _) j) (List.nodup_range cols)
    have h2 := ih _ _ h1 (by
      intro i1 hi1 j
      rintro (h | ⟨j1, _, h⟩)
      · exact hns i1 (List.mem_cons_of_mem _ hi1) j h
      · rw [Prod.mk.injEq] at h
        have : i1 = i := by exact_mod_cast h.1
        rw [this] at hi1
        exact hnd.1 hi1) hnd.2
    rw [List.foldl_cons]
    refine h2.congr (fun x => ?_)
    simp only [List.mem_cons, exists_eq_or_imp, or_assoc]

theorem isValid_iff (g : Game) (r c : Int) :
    g.isValid r c = true ↔ 0 ≤ r ∧ r < g.rows ∧ 0 ≤ c ∧ c < g.cols := by
  simp [Game.isValid, and_assoc]

theorem initGame_init (n m : Nat) (stream : List Char) : Init n m (initGame n m stream) := by
  have h0 : ReadInv n m (fun _ => False) (MonsterEscapeGame n m) := by
    refine ⟨rfl, rfl, ?_, ?_, ?_, ?_, ?_, rfl, rfl, Or.inl rfl, ?_⟩
    · intro r c h; simp [MonsterEscapeGame] at h
    · intro r c _; rfl
    · intro x h; simp [MonsterEscapeGame] at h
    · intro r c h
      have h1 : Char.ofNat 0 = 'M' := h
      exact absurd h1 (by decide)
    · intro r c _; rfl
    · intro r c h
      have h1 : Char.ofNat 0 = 'A' := h
      exact absurd h1 (by decide)
  have h1 := readRows_inv (n := n) (m := m) m (List.range n) (MonsterEscapeGame n m, stream) _ h0
    (fun _ _ _ h => h) (List.nodup_range n)
  have hseen : ∀ (g : Game) (x : Cell), g.rows = n → g.cols = m →
      (False ∨ ∃ i ∈ List.range n, ∃ j ∈ List.range m, x = ((i : Int), (j : Int))) →
      g.isValid x.1 x.2 = true := by
    rintro g x hr hc (h | ⟨i, hi, j, hj, h⟩)
    · exact absurd h id
    · rw [List.mem_range] at hi hj
      rw [h, isValid_iff, hr, hc]
      simp only
      omega
  have e : initGame n m stream =
      { ((List.range n).foldl (fun (s : Game × List Char) (i : Nat) => (List.range m).foldl
          (fun (s : Game × List Char) (j : Nat) => readCell (i : Int) (j : Int) s) s)
          (MonsterEscapeGame n m, stream)).1 with
        currentGrid := ((List.range n).foldl
          (fun (s : Game × List Char) (i : Nat) => (List.range m).foldl
          (fun (s : Game × List Char) (j : Nat) => readCell (i : Int) (j : Int) s) s)
          (MonsterEscapeGame n m, stream)).1.originalGrid
        currentMonsterPositions := ((List.range n).foldl
          (fun (s : Game × List Char) (i : Nat) => (List.range m).foldl
          (fun (s : Game × List Char) (j : Nat) => readCell (i : Int) (j : Int) s) s)
          (MonsterEscapeGame n m, stream)).1.originalMonsterPositions } := by
    simp [initGame, readInput, MonsterEscapeGame]
  rw [e]
  refine ⟨h1.rows, h1.cols, h1.md0, h1.mdInf, ?_, h1.isM, h1.pd, h1.par, ?_, ?_⟩
  · intro x hx
    have := h1.mons x hx
    exact ⟨hseen _ x h1.rows h1.cols this.1, this.2⟩
  · rcases h1.start with h | h
    · left; exact h
    · right; exact ⟨hseen _ _ h1.rows h1.cols h.1, h.2⟩
  · intro r c h
    have := h1.hasA r c h
    exact ⟨hseen _ _ h1.rows h1.cols this.1, this.2⟩

theorem adj4_iff (a b : Cell) : adj4 a b ↔ ∃ k, k < 4 ∧ b = nb a k := by
  obtain ⟨a1, a2⟩ := a
  obtain ⟨b1, b2⟩ := b
  constructor
  · intro h
    simp only [adj4, iabs] at h
    by_cases h1 : a1 - b1 < 0 <;> by_cases h2 : a2 - b2 < 0 <;>
      simp only [h1, h2, if_true, if_false] at h
    · omega
    · have e1 : b1 = a1 + 1 ∨ b1 = a1 := by omega
      rcases e1 with e1 | e1
      · exact ⟨1, by omega, by
          simp only [nb, row_directions, col_directions, Prod.mk.injEq]
          constructor
          · simp; omega
          · simp; omega⟩
      · omega
    · have e2 : b2 = a2 + 1 ∨ b2 = a2 := by omega
      rcases e2 with e2 | e2
      · exact ⟨2, by omega, by
          simp only [nb, row_directions, col_directions, Prod.mk.injEq]
          constructor
          · simp; omega
          · simp; omega⟩
      · omega
    · have e : (b1 = a1 - 1 ∧ b2 = a2) ∨ (b1 = a1 ∧ b2 = a2 - 1) := by omega
      rcases e with e | e
      · exact ⟨0, by omega, by
          simp only [nb, row_directions, col_directions, Prod.mk.injEq]
          constructor
          · simp; omega
          · simp; omega⟩
      · exact ⟨3, by omega, by
          simp only [nb, row_directions, col_directions, Prod.mk.injEq]
          constructor
          · simp; omega
          · simp; omega⟩
  · rintro ⟨k, hk, h⟩
    simp only [nb, Prod.mk.injEq] at h
    obtain ⟨h1, h2⟩ := h
    subst h1 h2
    have hk4 : k = 0 ∨ k = 1 ∨ k = 2 ∨ k = 3 := by omega
    rcases hk4 with e | e | e | e <;> subst e <;>
      simp [adj4, iabs, row_directions, col_directions]

theorem reach_of_path (P : Search) (src : Cell → Prop) (c : Nat → Cell) :
    ∀ t : Nat, src (c 0) → (∀ i, i < t → adj4 (c i) (c (i + 1))) →
    (∀ i : Nat, 1 ≤ i → i ≤ t → P.adm (c i).1 (c i).2 (i : Int) = true) →
    Reach P src t (c t) := by
  intro t
  induction t with
  | zero => intro h _ _; exact Reach.base h
  | succ t ih =>
    intro h hadj hadm
    have h1 := ih h (fun i hi => hadj i (by omega)) (fun i hi1 hi2 => hadm i hi1 (by omega))
    obtain ⟨k, hk, hc⟩ := (adj4_iff _ _).1 (hadj t (by omega))
    have h2 := hadm (t + 1) (by omega) (le_refl _)
    rw [hc] at h2 ⊢
    exact Reach.step k hk h1 h2

theorem path_of_reach (P : Search) (src : Cell → Prop) (t : Nat) (x : Cell)
    (h : Reach P src t x) :
    ∃ c : Nat → Cell, c t = x ∧ src (c 0) ∧ (∀ i, i < t → adj4 (c i) (c (i + 1))) ∧
      (∀ i : Nat, 1 ≤ i → i ≤ t → P.adm (c i).1 (c i).2 (i : Int) = true) := by
  induction h with
  | @base x hs =>
    exact ⟨fun _ => x, rfl, hs, fun i hi => absurd hi (by omega), fun i h1 h2 => absurd h2 (by omega)⟩
  | @step t x k hk _ ha ih =>
    obtain ⟨c, hc, hs, hadj, hadm⟩ := ih
    refine ⟨fun i => if i ≤ t then c i else nb x k, ?_, ?_, ?_, ?_⟩
    · simp
    · simp; exact hs
    · intro i hi
      by_cases h1 : i < t
      · have e1 : i ≤ t := by omega
        have e2 : i + 1 ≤ t := by omega
        simp only [e1, e2, if_true]
        exact hadj i h1
      · have e : i = t := by omega
        subst e
        simp only [le_refl, if_true, add_le_iff_nonpos_right, nonpos_iff_eq_zero, one_ne_zero,
          if_false]
        rw [hc]
        exact (adj4_iff _ _).2 ⟨k, hk, rfl⟩
    · intro i h1 h2
      by_cases h3 : i ≤ t
      · simp only [h3, if_true]
        exact hadm i h1 h3
      · have e : i = t + 1 := by omega
        subst e
        simp only [add_le_iff_nonpos_right, nonpos_iff_eq_zero, one_ne_zero, if_false]
        exact ha

theorem isWalkable_valid (g : Game) (r c : Int) (h : g.isWalkable r c = true) :
    g.isValid r c = true := by
  simp only [Game.isWalkable, Bool.and_eq_true] at h
  exact h.1

theorem isBoundary_valid (g : Game) (r c : Int) (h : g.isBoundary r c = true) :
    g.isValid r c = true := by
  simp only [Game.isBoundary] at h
  by_cases hv : g.isValid r c = true
  · exact hv
  · simp [hv] at h

theorem good_monsterSearch (g : Game) (n m : Nat) (hr : g.rows = n) (hc : g.cols = m) :
    Good (monsterSearch g) n m := by
  constructor
  · intro r c t t1 h _; exact h
  · intro r c t h
    have := (isValid_iff g r c).1 (isWalkable_valid g r c h)
    rw [hr, hc] at this
    exact this

theorem good_escapeSearch (g : Game) (n m : Nat) (hr : g.rows = n) (hc : g.cols = m) :
    Good (escapeSearch g) n m := by
  constructor
  · intro r c t t1 h ht
    simp only [escapeSearch, Bool.and_eq_true, decide_eq_true_eq] at h ⊢
    exact ⟨h.1, by omega⟩
  · intro r c t h
    simp only [escapeSearch, Bool.and_eq_true, decide_eq_true_eq] at h
    have := (isValid_iff g r c).1 (isWalkable_valid g r c h.1)
    rw [hr, hc] at this
    exact this

theorem reach_zero {P : Search} {src : Cell → Prop} {c : Cell} (h : Reach P src 0 c) : src c := by
  cases h with
  | base hs => exact hs

theorem finCount_pos (rows cols : Nat) (d : Int → Int → Int) (r c : Int)
    (hv : 0 ≤ r ∧ r < rows ∧ 0 ≤ c ∧ c < cols) (hd : d r c < INF) :
    0 < finCount rows cols d := by
  unfold finCount
  rw [Finset.card_pos]
  refine ⟨(r.toNat, c.toNat), ?_⟩
  simp only [Finset.mem_filter, Finset.mem_product, Finset.mem_range]
  have h1 : ((r.toNat : Nat) : Int) = r := Int.toNat_of_nonneg hv.1
  have h2 : ((c.toNat : Nat) : Int) = c := Int.toNat_of_nonneg hv.2.2.1
  refine ⟨⟨by omega, by omega⟩, ?_⟩
  rw [h1, h2]; exact hd

theorem head_monster {n m : Nat} {g : Game} (hi : Init n m g) (par : Int → Int → Char) :
    Head (monsterSearch g) (fun c => c ∈ g.originalMonsterPositions) n m
      ⟨g.monsterDistance, par, g.originalMonsterPositions⟩ := by
  have hfin : ∀ r c, g.monsterDistance r c < INF → (r, c) ∈ g.originalMonsterPositions := by
    intro r c h
    by_contra hn
    rw [hi.mdInf r c hn] at h
    exact lt_irrefl _ h
  have hz : ∀ r c, g.monsterDistance r c < INF → g.monsterDistance r c = 0 :=
    fun r c h => hi.md0 r c (hfin r c h)
  have hq : ∀ x ∈ g.originalMonsterPositions, g.monsterDistance x.1 x.2 = 0 :=
    fun x hx => hi.md0 x.1 x.2 hx
  refine ⟨⟨?_, ?_, ?_, ?_, ?_, ?_⟩, ?_, ?_, ?_, ?_, ?_⟩ <;> try dsimp only
  · intro r c
    by_cases h : (r, c) ∈ g.originalMonsterPositions
    · rw [hi.md0 r c h]
    · rw [hi.mdInf r c h, INF_eq]; omega
  · intro r c
    by_cases h : (r, c) ∈ g.originalMonsterPositions
    · rw [hi.md0 r c h, INF_eq]; omega
    · rw [hi.mdInf r c h]
  · intro r c h
    rw [hz r c h]
    exact Reach.base (hfin r c h)
  · intro r c h; exact hi.md0 r c h
  · intro _ r c h
    rw [hz r c h]
    have hv := (isValid_iff g r c).1 (hi.mons _ (hfin r c h)).1
    rw [hi.rows, hi.cols] at hv
    have := finCount_pos n m g.monsterDistance r c hv h
    omega
  · intro r c h hn
    exact absurd (hfin r c h) hn
  · intro r c _; rfl
  · show List.Pairwise _ g.originalMonsterPositions
    rw [List.pairwise_iff_forall_sublist]
    intro a b hab
    have ha : a ∈ g.originalMonsterPositions := hab.subset (by simp)
    have hb : b ∈ g.originalMonsterPositions := hab.subset (by simp)
    rw [hq a ha, hq b hb]
  · intro x hx
    show g.monsterDistance x.1 x.2 < INF
    rw [hq x hx, INF_eq]; omega
  · intro r c h x hx
    show g.monsterDistance r c ≤ g.monsterDistance x.1 x.2 + 1
    rw [hz r c h, hq x hx]; omega
  · intro r c h
    left
    exact hfin r c h

theorem monster_post {n m : Nat} {g : Game} (hi : Init n m g) (fuel : Nat) (g1 : Game)
    (h : computeMonsterDistances fuel g = some g1) :
    ∃ (d1 : Int → Int → Int) (par : Int → Int → Char),
      g1 = { g with monsterDistance := d1 } ∧
      Base (monsterSearch g) (fun c => c ∈ g.originalMonsterPositions) n m d1 par ∧
      ∀ i j, d1 i j < INF → Closed (monsterSearch g) d1 (i, j) := by
  unfold computeMonsterDistances at h
  rw [monsterLoop_eq fuel g _ (fun _ _ => Char.ofNat 0)] at h
  rcases hl : gLoop (monsterSearch g) fuel
    ⟨g.monsterDistance, fun _ _ => Char.ofNat 0, g.originalMonsterPositions⟩ with _ | r
  · rw [hl] at h; simp at h
  · rw [hl] at h
    simp only [Option.map_some', Option.some.injEq] at h
    have hp := gLoop_post (good_monsterSearch g n m hi.rows hi.cols) fuel _ r
      (head_monster hi _) hl
    obtain ⟨s1, o⟩ := r
    cases o with
    | none =>
      obtain ⟨hb, _, hcl⟩ := hp
      exact ⟨s1.dist, s1.par, h.symm, hb, hcl⟩
    | some e =>
      obtain ⟨_, hs, _⟩ := hp
      simp [monsterSearch] at hs

theorem monster_terminates {n m : Nat} {g : Game} (hi : Init n m g) :
    ∃ fuel0 g1, ∀ fuel, fuel0 ≤ fuel → computeMonsterDistances fuel g = some g1 := by
  obtain ⟨r, hr, _⟩ := gLoop_spec (good_monsterSearch g n m hi.rows hi.cols)
    (g.originalMonsterPositions.length + (n * m - finCount n m g.monsterDistance))
    _ (head_monster hi (fun _ _ => Char.ofNat 0)) (le_refl _)
  refine ⟨g.originalMonsterPositions.length + (n * m - finCount n m g.monsterDistance),
    { g with monsterDistance := r.1.dist }, fun fuel hf => ?_⟩
  obtain ⟨d, hd⟩ := Nat.exists_eq_add_of_le hf
  have := gLoop_mono _ _ _ _ hr d
  rw [← hd] at this
  unfold computeMonsterDistances
  rw [monsterLoop_eq fuel g _ (fun _ _ => Char.ofNat 0), this]
  rfl

theorem head_escape {n m : Nat} (g : Game) :
    (g.isBoundary g.playerStart.1 g.playerStart.2 = false →
    Head (escapeSearch g) (fun c => c = g.playerStart) n m
      ⟨set2 (fun _ _ => INF) g.playerStart.1 g.playerStart.2 0, fun _ _ => Char.ofNat 0,
        [g.playerStart]⟩) ∧
    Base (escapeSearch g) (fun c => c = g.playerStart) n m
      (set2 (fun _ _ => INF) g.playerStart.1 g.playerStart.2 0) (fun _ _ => Char.ofNat 0) := by
  have hval : ∀ r c, set2 (fun _ _ => INF) g.playerStart.1 g.playerStart.2 0 r c < INF →
      (r, c) = g.playerStart ∧ set2 (fun _ _ => INF) g.playerStart.1 g.playerStart.2 0 r c = 0 := by
    intro r c
    by_cases h : r = g.playerStart.1 ∧ c = g.playerStart.2
    · rw [h.1, h.2, set2_same]; intro _; exact ⟨rfl, rfl⟩
    · rw [set2_other _ _ _ _ _ _ h]; intro h1; exact absurd h1 (lt_irrefl _)
  have hs0 : set2 (fun _ _ => INF) g.playerStart.1 g.playerStart.2 0
      g.playerStart.1 g.playerStart.2 = (0 : Int) := set2_same _ _ _ _
  have hbase : Base (escapeSearch g) (fun c => c = g.playerStart) n m
      (set2 (fun _ _ => INF) g.playerStart.1 g.playerStart.2 0) (fun _ _ => Char.ofNat 0) := by
    refine ⟨?_, ?_, ?_, ?_, ?_, ?_⟩
    · intro r c
      by_cases h : r = g.playerStart.1 ∧ c = g.playerStart.2
      · rw [h.1, h.2, set2_same]
      · rw [set2_other _ _ _ _ _ _ h, INF_eq]; omega
    · intro r c
      by_cases h : r = g.playerStart.1 ∧ c = g.playerStart.2
      · rw [h.1, h.2, set2_same, INF_eq]; omega
      · rw [set2_other _ _ _ _ _ _ h]
    · intro r c h
      obtain ⟨h1, h2⟩ := hval r c h
      rw [h2]
      exact Reach.base h1
    · intro r c h
      rw [Prod.mk.injEq] at h
      rw [h.1, h.2]; exact hs0
    · intro hsrc r c h
      obtain ⟨h1, h2⟩ := hval r c h
      rw [h2]
      have := finCount_pos n m _ r c (hsrc r c h1) h
      omega
    · intro r c h hn
      exact absurd (hval r c h).1 hn
  refine ⟨fun hnb => ?_, hbase⟩
  refine ⟨hbase, ?_, ?_, ?_, ?_, ?_⟩ <;> try dsimp only
  · intro r c h
    have := (hval r c h).1
    rw [Prod.mk.injEq] at this
    show g.isBoundary r c = false
    rw [this.1, this.2]; exact hnb
  · exact List.pairwise_singleton _ _
  · intro x hx
    rw [List.mem_singleton] at hx
    subst hx
    rw [hs0, INF_eq]; omega
  · intro r c h x hx
    rw [List.mem_singleton] at hx
    subst hx
    rw [hs0, (hval r c h).2]; omega
  · intro r c h
    left
    rw [List.mem_singleton]
    exact (hval r c h).1

theorem findEscapePath_eq (g1 : Game)
    (hpd : g1.playerDistance = fun _ _ => INF) (hpar : g1.parent = fun _ _ => Char.ofNat 0)
    (hnb : g1.isBoundary g1.playerStart.1 g1.playerStart.2 = false) (fuel : Nat) :
    findEscapePath fuel g1 =
      (gLoop (escapeSearch g1) fuel
        ⟨set2 (fun _ _ => INF) g1.playerStart.1 g1.playerStart.2 0, fun _ _ => Char.ofNat 0,
          [g1.playerStart]⟩).map
        (fun r => (r.2.getD (-1, -1),
          { g1 with playerDistance := r.1.dist, parent := r.1.par })) := by
  have hnb1 : Game.isBoundary { g1 with playerDistance :=
      (set2 g1.playerDistance g1.playerStart.1 g1.playerStart.2 0) }
      g1.playerStart.1 g1.playerStart.2 = false := hnb
  simp only [findEscapePath, hnb1, Bool.false_eq_true, if_false]
  rw [escapeLoop_eq]
  have hP : escapeSearch { g1 with playerDistance :=
      (set2 g1.playerDistance g1.playerStart.1 g1.playerStart.2 0) } = escapeSearch g1 := rfl
  rw [hP]
  dsimp only
  rw [hpd, hpar]

theorem escape_post {n m : Nat} (g1 : Game) (hr : g1.rows = n) (hc : g1.cols = m)
    (hpd : g1.playerDistance = fun _ _ => INF) (hpar : g1.parent = fun _ _ => Char.ofNat 0)
    (hnb : g1.isBoundary g1.playerStart.1 g1.playerStart.2 = false)
    (fuel : Nat) (e : Cell) (g2 : Game) (h : findEscapePath fuel g1 = some (e, g2)) :
    ∃ (pd : Int → Int → Int) (par : Int → Int → Char) (o : Option Cell) (q : List Cell),
      g2 = { g1 with playerDistance := pd, parent := par } ∧ e = o.getD (-1, -1) ∧
      Post (escapeSearch g1) (fun c => c = g1.playerStart) n m (⟨pd, par, q⟩, o) := by
  rw [findEscapePath_eq g1 hpd hpar hnb] at h
  rcases hl : gLoop (escapeSearch g1) fuel
    ⟨set2 (fun _ _ => INF) g1.playerStart.1 g1.playerStart.2 0, fun _ _ => Char.ofNat 0,
      [g1.playerStart]⟩ with _ | r
  · rw [hl] at h; simp at h
  · rw [hl] at h
    simp only [Option.map_some', Option.some.injEq, Prod.mk.injEq] at h
    have hp := gLoop_post (good_escapeSearch g1 n m hr hc) fuel _ r ((head_escape g1).1 hnb) hl
    obtain ⟨h1, h2⟩ := h
    exact ⟨r.1.dist, r.1.par, r.2, r.1.q, h2.symm, h1.symm, hp⟩

theorem escape_terminates {n m : Nat} (g1 : Game) (hr : g1.rows = n) (hc : g1.cols = m)
    (hpd : g1.playerDistance = fun _ _ => INF) (hpar : g1.parent = fun _ _ => Char.ofNat 0) :
    ∃ fuel0 r, ∀ fuel, fuel0 ≤ fuel → findEscapePath fuel g1 = some r := by
  by_cases hnb : g1.isBoundary g1.playerStart.1 g1.playerStart.2 = true
  · have hnb1 : Game.isBoundary { g1 with playerDistance :=
        (set2 g1.playerDistance g1.playerStart.1 g1.playerStart.2 0) }
        g1.playerStart.1 g1.playerStart.2 = true := hnb
    refine ⟨0, (g1.playerStart, { g1 with playerDistance :=
        (set2 g1.playerDistance g1.playerStart.1 g1.playerStart.2 0) }), fun fuel _ => ?_⟩
    simp only [findEscapePath, hnb1, if_true]
  · have hnb0 : g1.isBoundary g1.playerStart.1 g1.playerStart.2 = false := by simpa using hnb
    obtain ⟨r, hr1, _⟩ := gLoop_spec (good_escapeSearch g1 n m hr hc)
      (1 + (n * m - finCount n m (set2 (fun _ _ => INF) g1.playerStart.1 g1.playerStart.2 0)))
      _ ((head_escape g1).1 hnb0) (le_refl _)
    refine ⟨1 + (n * m - finCount n m (set2 (fun _ _ => INF) g1.playerStart.1 g1.playerStart.2 0)),
      (r.2.getD (-1, -1), { g1 with playerDistance := r.1.dist, parent := r.1.par }),
      fun fuel hf => ?_⟩
    obtain ⟨d, hd⟩ := Nat.exists_eq_add_of_le hf
    have := gLoop_mono _ _ _ _ hr1 d
    rw [← hd] at this
    rw [findEscapePath_eq g1 hpd hpar hnb0, this]
    rfl

theorem recon_mono (g : Game) : ∀ (fuel : Nat) (r c : Int) (acc p : List Char),
    reconstructLoop g fuel r c acc = some p → ∀ n, reconstructLoop g (fuel + n) r c acc = some p := by
  intro fuel
  induction fuel with
  | zero =>
    intro r c acc p h n
    rw [reconstructLoop.eq_def] at h ⊢
    by_cases hs : (r, c) = g.playerStart
    · simpa [hs] using h
    · simp [hs] at h
  | succ fuel ih =>
    intro r c acc p h n
    have e : fuel + 1 + n = (fuel + n) + 1 := by omega
    rw [e]
    rw [reconstructLoop] at h ⊢
    by_cases hs : (r, c) = g.playerStart
    · simpa [hs] using h
    · simp only [hs, if_false] at h ⊢
      split_ifs at h ⊢ <;> exact ih _ _ _ _ h n

theorem recon_step (g : Game) (fuel : Nat) (r c : Int) (acc : List Char) (k : Nat) (hk : k < 4)
    (hne : (r, c) ≠ g.playerStart) (hpar : g.parent r c = dir.getD k (Char.ofNat 0)) :
    reconstructLoop g (fuel + 1) r c acc =
      reconstructLoop g fuel (r - row_directions.getD k 0) (c - col_directions.getD k 0)
        (acc ++ [dir.getD k (Char.ofNat 0)]) ∧
    stepDir (r - row_directions.getD k 0, c - col_directions.getD k 0)
      (dir.getD k (Char.ofNat 0)) = (r, c) := by
  have hk4 : k = 0 ∨ k = 1 ∨ k = 2 ∨ k = 3 := by omega
  rcases hk4 with e | e | e | e <;> subst e
  · have hp : g.parent r c = 'U' := hpar
    constructor
    · rw [reconstructLoop]
      simp [hne, hp, dir, row_directions, col_directions]
    · simp [stepDir, dir, row_directions, col_directions]
  · have hp : g.parent r c = 'D' := hpar
    constructor
    · rw [reconstructLoop]
      simp [hne, hp, dir, row_directions, col_directions]
    · simp [stepDir, dir, row_directions, col_directions]
  · have hp : g.parent r c = 'R' := hpar
    constructor
    · rw [reconstructLoop]
      simp [hne, hp, dir, row_directions, col_directions]
    · simp [stepDir, dir, row_directions, col_directions]
  · have hp : g.parent r c = 'L' := hpar
    constructor
    · rw [reconstructLoop]
      simp [hne, hp, dir, row_directions, col_directions]
    · simp [stepDir, dir, row_directions, col_directions]

theorem recon_spec (g : Game) (P : Search) (n m : Nat) (d : Int → Int → Int)
    (hb : Base P (fun c => c = g.playerStart) n m d g.parent) :
    ∀ (k fuel : Nat) (r c : Int) (acc : List Char), d r c = k → (k : Int) < INF → k ≤ fuel →
      ∃ ds : List Char, reconstructLoop g fuel r c acc = some (acc ++ ds.reverse) ∧
        ds.length = k ∧ walk g.playerStart ds = (r, c) ∧
        ∀ i : Nat, i ≤ k → d (walk g.playerStart (ds.take i)).1 (walk g.playerStart (ds.take i)).2 = i := by
  intro k
  induction k with
  | zero =>
    intro fuel r c acc hd _ _
    have hr := hb.sound r c (by rw [hd, INF_eq]; simp)
    rw [hd] at hr
    have hr0 : Reach P (fun c => c = g.playerStart) 0 (r, c) := hr
    have hs : (r, c) = g.playerStart := @reach_zero P (fun c => c = g.playerStart) _ hr0
    refine ⟨[], ?_, rfl, ?_, ?_⟩
    · rw [reconstructLoop.eq_def]
      simp [hs]
    · simp [walk, hs]
    · intro i hi
      have : i = 0 := by omega
      subst this
      simp only [List.take_nil, walk, List.foldl_nil]
      rw [← hs]; exact hd
  | succ k ih =>
    intro fuel r c acc hd hlt hf
    have hfin : d r c < INF := by rw [hd]; exact hlt
    have hne : (r, c) ≠ g.playerStart := by
      intro h
      have := hb.src0 r c h
      rw [hd] at this
      push_cast at this
      omega
    obtain ⟨j, hj, hpar, hpred, _⟩ := hb.par_ok r c hfin hne
    obtain ⟨fuel1, rfl⟩ : ∃ f, fuel = f + 1 := ⟨fuel - 1, by omega⟩
    obtain ⟨hstep, hdir⟩ := recon_step g fuel1 r c acc j hj hne hpar
    have hdp : d (r - row_directions.getD j 0) (c - col_directions.getD j 0) = (k : Int) := by
      rw [hd] at hpred
      push_cast at hpred
      omega
    obtain ⟨ds, h1, h2, h3, h4⟩ := ih fuel1 _ _ (acc ++ [dir.getD j (Char.ofNat 0)]) hdp
      (by push_cast at hlt; omega) (by omega)
    refine ⟨ds ++ [dir.getD j (Char.ofNat 0)], ?_, ?_, ?_, ?_⟩
    · rw [hstep, h1]
      simp
    · simp [h2]
    · simp only [walk, List.foldl_append, List.foldl_cons, List.foldl_nil]
      have : List.foldl stepDir g.playerStart ds =
          (r - row_directions.getD j 0, c - col_directions.getD j 0) := h3
      rw [this]; exact hdir
    · intro i hi
      by_cases hik : i ≤ k
      · rw [List.take_append_of_le_length (by omega)]
        exact h4 i hik
      · have e : i = k + 1 := by omega
        subst e
        have hlen : (ds ++ [dir.getD j (Char.ofNat 0)]).length ≤ k + 1 := by simp [h2]
        rw [List.take_of_length_le hlen]
        simp only [walk, List.foldl_append, List.foldl_cons, List.foldl_nil]
        have : List.foldl stepDir g.playerStart ds =
            (r - row_directions.getD j 0, c - col_directions.getD j 0) := h3
        rw [this, hdir]
        exact hd

theorem safe_reach (g : Game) (t : Nat) (c : Nat → Cell) (h : SafePath g t c) :
    Reach (escapeSearch g) (fun x => x = g.playerStart) t (c t) := by
  obtain ⟨h0, hadj, hadm⟩ := h
  refine reach_of_path _ _ c t h0 hadj ?_
  intro i h1 h2
  have := hadm i h1 h2
  simp only [escapeSearch, Bool.and_eq_true, decide_eq_true_eq]
  exact this

theorem reach_safe (g : Game) (t : Nat) (x : Cell)
    (h : Reach (escapeSearch g) (fun x => x = g.playerStart) t x) :
    ∃ c, SafePath g t c ∧ c t = x := by
  obtain ⟨c, hc, h0, hadj, hadm⟩ := path_of_reach _ _ t x h
  refine ⟨c, ⟨h0, hadj, ?_⟩, hc⟩
  intro i h1 h2
  have := hadm i h1 h2
  simp only [escapeSearch, Bool.and_eq_true, decide_eq_true_eq] at this
  exact this

theorem isWalkable_of_M (g : Game) (r c : Int) (hv : g.isValid r c = true)
    (hM : g.originalGrid r c = 'M') : g.isWalkable r c = true := by
  simp only [Game.isWalkable, hv, hM, Bool.true_and]
  decide

theorem monster_reach {n m : Nat} (g : Game) (hi : Init n m g) (t : Nat) (c : Nat → Cell)
    (h : MonsterPath g t c) :
    Reach (monsterSearch g) (fun x => x ∈ g.originalMonsterPositions) t (c t) := by
  obtain ⟨h0, hadj, hw⟩ := h
  refine reach_of_path _ _ c t (hi.isM _ _ h0.2) hadj ?_
  intro i _ h2
  exact hw i h2

theorem reach_monster {n m : Nat} (g : Game) (hi : Init n m g) (t : Nat) (x : Cell)
    (h : Reach (monsterSearch g) (fun x => x ∈ g.originalMonsterPositions) t x) :
    ∃ c, MonsterPath g t c ∧ c t = x := by
  obtain ⟨c, hc, h0, hadj, hadm⟩ := path_of_reach _ _ t x h
  have hm := hi.mons _ h0
  refine ⟨c, ⟨hm, hadj, ?_⟩, hc⟩
  intro i h2
  by_cases hz : i = 0
  · subst hz
    exact isWalkable_of_M g _ _ hm.1 hm.2
  · exact hadm i (by omega) h2

theorem isBoundary_ne (g : Game) (e : Cell) (h : g.isBoundary e.1 e.2 = true) : e ≠ (-1, -1) := by
  intro he
  have := (isValid_iff g e.1 e.2).1 (isBoundary_valid g e.1 e.2 h)
  rw [he] at this
  simp at this

theorem escape_core {n m : Nat} (g0 : Game) (hi : Init n m g0)
    (hstart : g0.isBoundary g0.playerStart.1 g0.playerStart.2 = false)
    (fuel1 fuel2 : Nat) (g1 g2 : Game) (e : Cell)
    (h1 : computeMonsterDistances fuel1 g0 = some g1)
    (h2 : findEscapePath fuel2 g1 = some (e, g2)) :
    (e ≠ (-1, -1) →
      g2.isBoundary e.1 e.2 = true ∧
      ∃ k : Nat, g2.playerDistance e.1 e.2 = (k : Int) ∧
        (∃ c, SafePath g2 k c ∧ c k = e) ∧
        ∀ t c, SafePath g2 t c → g2.isBoundary (c t).1 (c t).2 = true → k ≤ t) ∧
    (e = (-1, -1) → ¬ ∃ t c, SafePath g2 t c ∧ g2.isBoundary (c t).1 (c t).2 = true) := by
  obtain ⟨d1, par1, rfl, hb1, -⟩ := monster_post hi fuel1 g1 h1
  obtain ⟨pd, par, o, q, rfl, he1, hpost⟩ :=
    escape_post (n := n) (m := m) { g0 with monsterDistance := d1 } hi.rows hi.cols hi.pd hi.par
      hstart fuel2 e g2 h2
  cases o with
  | none =>
    refine ⟨fun he => absurd he1 he, fun _ => ?_⟩
    obtain ⟨hb, hns, hcl⟩ := hpost
    dsimp only at hb hns hcl
    rintro ⟨t, c, hsafe, hbd⟩
    have hr := safe_reach _ t c hsafe
    have hle := closed_complete
      (good_escapeSearch { g0 with monsterDistance := d1 } n m hi.rows hi.cols) hb hcl t (c t) hr
    have hfin : pd (c t).1 (c t).2 < INF := by
      by_cases ht : t = 0
      · subst ht
        have h0 : c 0 = g0.playerStart := hsafe.1
        have := hb.src0 (c 0).1 (c 0).2 h0
        rw [this, INF_eq]; omega
      · have h3 := (hsafe.2.2 t (by omega) (le_refl _)).2
        have h4 : d1 (c t).1 (c t).2 ≤ INF := hb1.le_inf _ _
        have h5 : (t : Int) < d1 (c t).1 (c t).2 := h3
        omega
    have := hns _ _ hfin
    have hbd1 : g0.isBoundary (c t).1 (c t).2 = true := hbd
    have hns1 : g0.isBoundary (c t).1 (c t).2 = false := this
    rw [hbd1] at hns1
    exact Bool.noConfusion hns1
  | some e1 =>
    have he2 : e = e1 := he1
    subst he2
    obtain ⟨hb, hs, hfin, hmin⟩ := hpost
    dsimp only at hb hs hfin hmin
    refine ⟨fun _ => ⟨hs, (pd e.1 e.2).toNat, ?_, ?_, ?_⟩, fun he => ?_⟩
    · have := hb.nonneg e.1 e.2
      show pd e.1 e.2 = _
      omega
    · exact reach_safe _ _ _ (hb.sound e.1 e.2 hfin)
    · intro t c hsafe hbd
      have := hmin t (c t) (safe_reach _ t c hsafe) hbd
      omega
    · exact absurd he (isBoundary_ne _ e hs)

theorem solution_cases (fuel : Nat) (g : Game) (b : Bool) (g3 : Game)
    (h : computeOptimalSolution fuel g = some (b, g3)) :
    ∃ g1 e g2, computeMonsterDistances fuel g = some g1 ∧ findEscapePath fuel g1 = some (e, g2) ∧
      ((e = (-1, -1) ∧ b = false ∧ g3 = { g2 with escapePoint := e }) ∨
       (e ≠ (-1, -1) ∧ b = true ∧ ∃ path,
          reconstructPath fuel { g2 with escapePoint := e } e = some path ∧
          g3 = { g2 with escapePoint := e, optimalPath := path,
                         optimalPathLength := (path.length : Int) })) := by
  unfold computeOptimalSolution at h
  rcases h1 : computeMonsterDistances fuel g with _ | g1
  · rw [h1] at h; simp at h
  · rw [h1] at h
    dsimp only at h
    rcases h2 : findEscapePath fuel g1 with _ | ⟨e, g2⟩
    · rw [h2] at h; simp at h
    · rw [h2] at h
      dsimp only at h
      refine ⟨g1, e, g2, rfl, h2, ?_⟩
      by_cases he : e = (-1, -1)
      · left
        rw [if_pos he] at h
        simp only [Option.some.injEq, Prod.mk.injEq] at h
        exact ⟨he, h.1.symm, h.2.symm⟩
      · right
        rw [if_neg he] at h
        rcases h3 : reconstructPath fuel { g2 with escapePoint := e } e with _ | path
        · rw [h3] at h; simp at h
        · rw [h3] at h
          simp only [Option.some.injEq, Prod.mk.injEq] at h
          exact ⟨he, h.1.symm, path, rfl, h.2.symm⟩

/-- C1. When the player start is not a boundary cell and `findEscapePath` returns a cell
`e` other than `(-1,-1)`, `e` is a boundary cell, some safe path of length
`playerDistance[e]` ends at `e`, and no safe path to any boundary cell is shorter. -/
theorem C1_shortest_safe_escape (n m : Nat) (stream : List Char)
    (hstart : (initGame n m stream).isBoundary (initGame n m stream).playerStart.1
      (initGame n m stream).playerStart.2 = false)
    (fuel1 fuel2 : Nat) (g1 g2 : Game) (e : Cell)
    (h1 : computeMonsterDistances fuel1 (initGame n m stream) = some g1)
    (h2 : findEscapePath fuel2 g1 = some (e, g2)) (he : e ≠ (-1, -1)) :
    g2.isBoundary e.1 e.2 = true ∧
    ∃ k : Nat, g2.playerDistance e.1 e.2 = (k : Int) ∧
      (∃ c, SafePath g2 k c ∧ c k = e) ∧
      ∀ t c, SafePath g2 t c → g2.isBoundary (c t).1 (c t).2 = true → k ≤ t :=
  (escape_core _ (initGame_init n m stream) hstart fuel1 fuel2 g1 g2 e h1 h2).1 he

/-- C1 at the open 3x3 grid: the search returns the boundary cell `(0,1)` at distance 1. -/
theorem C1_shortest_safe_escape_witness :
    ∃ g1 g2, computeMonsterDistances 20 (initGame 3 3 gridOpen3) = some g1 ∧
      findEscapePath 20 g1 = some ((0, 1), g2) ∧
      g2.isBoundary 0 1 = true ∧
      ∃ k : Nat, g2.playerDistance 0 1 = (k : Int) ∧
        (∃ c, SafePath g2 k c ∧ c k = (0, 1)) ∧
        ∀ t c, SafePath g2 t c → g2.isBoundary (c t).1 (c t).2 = true → k ≤ t :=
  ⟨_, _, rfl, rfl,
    C1_shortest_safe_escape 3 3 gridOpen3 (by decide) 20 20 _ _ (0, 1) rfl rfl (by decide)⟩

theorem findEscapePath_boundary (g1 : Game) (fuel : Nat)
    (hb : g1.isBoundary g1.playerStart.1 g1.playerStart.2 = true) :
    findEscapePath fuel g1 = some (g1.playerStart,
      { g1 with playerDistance := set2 g1.playerDistance g1.playerStart.1 g1.playerStart.2 0 }) := by
  have hb1 : Game.isBoundary { g1 with playerDistance :=
      (set2 g1.playerDistance g1.playerStart.1 g1.playerStart.2 0) }
      g1.playerStart.1 g1.playerStart.2 = true := hb
  simp only [findEscapePath, hb1, if_true]

theorem base_start {n m : Nat} (g1 : Game) :
    Base (escapeSearch g1) (fun c => c = g1.playerStart) n m
      (set2 (fun _ _ => INF) g1.playerStart.1 g1.playerStart.2 0) (fun _ _ => Char.ofNat 0) :=
  (head_escape (n := n) (m := m) g1).2

/-- The tables `findEscapePath` leaves behind on a freshly read game, in both outcomes. -/
theorem escape_full {n m : Nat} (g1 : Game) (hr : g1.rows = n) (hc : g1.cols = m)
    (hpd : g1.playerDistance = fun _ _ => INF) (hpar : g1.parent = fun _ _ => Char.ofNat 0)
    (fuel : Nat) (e : Cell) (g2 : Game) (h : findEscapePath fuel g1 = some (e, g2)) :
    ∃ (pd : Int → Int → Int) (par : Int → Int → Char),
      g2 = { g1 with playerDistance := pd, parent := par } ∧
      Base (escapeSearch g1) (fun c => c = g1.playerStart) n m pd par ∧
      ((e = (-1, -1) ∧ g1.isBoundary g1.playerStart.1 g1.playerStart.2 = false ∧
          (∀ i j, pd i j < INF → g1.isBoundary i j = false) ∧
          (∀ i j, pd i j < INF → Closed (escapeSearch g1) pd (i, j))) ∨
       (e ≠ (-1, -1) ∧ pd e.1 e.2 < INF ∧ g1.isBoundary e.1 e.2 = true ∧
          (g1.isBoundary g1.playerStart.1 g1.playerStart.2 = true → e = g1.playerStart) ∧
          (g1.isBoundary g1.playerStart.1 g1.playerStart.2 = false →
            ∀ t c, Reach (escapeSearch g1) (fun c => c = g1.playerStart) t c →
              g1.isBoundary c.1 c.2 = true → pd e.1 e.2 ≤ t))) := by
  by_cases hnb : g1.isBoundary g1.playerStart.1 g1.playerStart.2 = true
  · rw [findEscapePath_boundary g1 fuel hnb] at h
    simp only [Option.some.injEq, Prod.mk.injEq] at h
    obtain ⟨h1, h2⟩ := h
    subst h1
    refine ⟨set2 (fun _ _ => INF) g1.playerStart.1 g1.playerStart.2 0, fun _ _ => Char.ofNat 0,
      ?_, base_start g1, Or.inr ⟨isBoundary_ne g1 _ hnb, ?_, hnb, fun _ => rfl, ?_⟩⟩
    · rw [← h2, hpd, ← hpar]
    · rw [set2_same, INF_eq]; omega
    · intro hf
      rw [hnb] at hf
      exact Bool.noConfusion hf
  · have hnb0 : g1.isBoundary g1.playerStart.1 g1.playerStart.2 = false := by simpa using hnb
    obtain ⟨pd, par, o, q, hg2, he1, hpost⟩ := escape_post g1 hr hc hpd hpar hnb0 fuel e g2 h
    cases o with
    | none =>
      obtain ⟨hb, hns, hcl⟩ := hpost
      exact ⟨pd, par, hg2, hb, Or.inl ⟨he1, hnb0, hns, hcl⟩⟩
    | some e1 =>
      have he2 : e = e1 := he1
      subst he2
      obtain ⟨hb, hs, hfin, hmin⟩ := hpost
      exact ⟨pd, par, hg2, hb, Or.inr ⟨isBoundary_ne g1 e hs, hfin, hs,
        fun h => absurd h hnb, fun _ => hmin⟩⟩

theorem recon_result (g : Game) (P : Search) (n m : Nat) (d : Int → Int → Int)
    (hb : Base P (fun c => c = g.playerStart) n m d g.parent) (e : Cell)
    (hfin : d e.1 e.2 < INF) :
    ∃ ds : List Char,
      (∀ fuel, (d e.1 e.2).toNat ≤ fuel → reconstructPath fuel g e = some ds) ∧
      (∀ fuel p, reconstructPath fuel g e = some p → p = ds) ∧
      (ds.length : Int) = d e.1 e.2 ∧ walk g.playerStart ds = e ∧
      ∀ i : Nat, i ≤ ds.length →
        d (walk g.playerStart (ds.take i)).1 (walk g.playerStart (ds.take i)).2 = i := by
  have h0 := hb.nonneg e.1 e.2
  have hk : d e.1 e.2 = ((d e.1 e.2).toNat : Int) := by omega
  obtain ⟨ds, h1, h2, h3, h4⟩ := recon_spec g P n m d hb (d e.1 e.2).toNat (d e.1 e.2).toNat
    e.1 e.2 [] hk (by omega) (le_refl _)
  have key : ∀ fuel, (d e.1 e.2).toNat ≤ fuel → reconstructPath fuel g e = some ds := by
    intro fuel hf
    obtain ⟨j, hj⟩ := Nat.exists_eq_add_of_le hf
    have := recon_mono g _ _ _ _ _ h1 j
    rw [← hj] at this
    simp [reconstructPath, this]
  refine ⟨ds, key, ?_, ?_, h3, ?_⟩
  · intro fuel p hp
    simp only [reconstructPath, Option.map_eq_some'] at hp
    obtain ⟨p1, hp1, hp2⟩ := hp
    have a1 := recon_mono g _ _ _ _ _ hp1 (d e.1 e.2).toNat
    have a2 := key (fuel + (d e.1 e.2).toNat) (by omega)
    simp only [reconstructPath, a1, Option.map_some', Option.some.injEq] at a2
    rw [← hp2, a2]
  · rw [h2]; omega
  · intro i hi
    exact h4 i (by omega)

theorem solution_terminates (n m : Nat) (stream : List Char) :
    ∃ fuel0 r, ∀ fuel, fuel0 ≤ fuel →
      computeOptimalSolution fuel (initGame n m stream) = some r := by
  have hi := initGame_init n m stream
  generalize initGame n m stream = g0 at hi
  obtain ⟨f1, g1, hm⟩ := monster_terminates hi
  obtain ⟨d1, par1, hg1, -, -⟩ := monster_post hi f1 g1 (hm f1 (le_refl _))
  subst hg1
  obtain ⟨f2, ⟨e, g2⟩, hf⟩ := escape_terminates (n := n) (m := m)
    { g0 with monsterDistance := d1 } hi.rows hi.cols hi.pd hi.par
  by_cases he : e = (-1, -1)
  · refine ⟨max f1 f2, (false, { g2 with escapePoint := e }), fun fuel hfuel => ?_⟩
    unfold computeOptimalSolution
    rw [hm fuel (le_trans (le_max_left _ _) hfuel)]
    dsimp only
    rw [hf fuel (le_trans (le_max_right _ _) hfuel)]
    dsimp only
    rw [if_pos he]
  · obtain ⟨pd, par, hg2, hb, hcase⟩ := escape_full (n := n) (m := m)
      { g0 with monsterDistance := d1 } hi.rows hi.cols hi.pd hi.par f2 e g2
      (hf f2 (le_refl _))
    have hfin : pd e.1 e.2 < INF := by
      rcases hcase with ⟨h, -⟩ | ⟨-, h, -⟩
      · exact absurd h he
      · exact h
    subst hg2
    obtain ⟨ds, hds, -⟩ := recon_result
      { g0 with monsterDistance := d1, playerDistance := pd, parent := par, escapePoint := e }
      _ n m pd hb e hfin
    refine ⟨max (max f1 f2) (pd e.1 e.2).toNat,
      (true, { g0 with monsterDistance := d1, playerDistance := pd, parent := par,
                       escapePoint := e, optimalPath := ds,
                       optimalPathLength := (ds.length : Int) }), fun fuel hfuel => ?_⟩
    unfold computeOptimalSolution
    rw [hm fuel (le_trans (le_trans (le_max_left _ _) (le_max_left _ _)) hfuel)]
    dsimp only
    rw [hf fuel (le_trans (le_trans (le_max_right _ _) (le_max_left _ _)) hfuel)]
    dsimp only
    rw [if_neg he, hds fuel (le_trans (le_max_right _ _) hfuel)]

theorem isBoundary_origin (g : Game) (h : g.isValid 0 0 = true) : g.isBoundary 0 0 = true := by
  simp [Game.isBoundary, h]

theorem start_monster_free {n m : Nat} (g0 : Game) (hi : Init n m g0)
    (hstart : g0.isBoundary g0.playerStart.1 g0.playerStart.2 = false)
    (d1 : Int → Int → Int) (parM : Int → Int → Char)
    (hbM : Base (monsterSearch g0) (fun c => c ∈ g0.originalMonsterPositions) n m d1 parM) :
    0 < d1 g0.playerStart.1 g0.playerStart.2 := by
  have h0 := hbM.nonneg g0.playerStart.1 g0.playerStart.2
  by_contra hle
  have hz : d1 g0.playerStart.1 g0.playerStart.2 = 0 := by omega
  have hr := hbM.sound g0.playerStart.1 g0.playerStart.2 (by rw [hz, INF_eq]; omega)
  rw [hz] at hr
  have hmem : g0.playerStart ∈ g0.originalMonsterPositions :=
    @reach_zero (monsterSearch g0) (fun c => c ∈ g0.originalMonsterPositions) _ hr
  obtain ⟨hv, hM⟩ := hi.mons _ hmem
  rcases hi.start with h | ⟨-, hA⟩
  · rw [h] at hv hstart
    rw [isBoundary_origin g0 hv] at hstart
    exact Bool.noConfusion hstart
  · rw [hA] at hM
    exact absurd hM (by decide)

/-- The shape of what `computeOptimalSolution` returns on a freshly read game, with the
invariants of both distance tables. -/
theorem solution_shape {n m : Nat} (g0 : Game) (hi : Init n m g0) (fuel : Nat) (b : Bool)
    (g3 : Game) (h : computeOptimalSolution fuel g0 = some (b, g3)) :
    ∃ (d1 pd : Int → Int → Int) (parM par : Int → Int → Char) (e : Cell) (path : List Char)
      (len : Int),
      g3 = { g0 with monsterDistance := d1, playerDistance := pd, parent := par,
                     escapePoint := e, optimalPath := path, optimalPathLength := len } ∧
      computeMonsterDistances fuel g0 = some { g0 with monsterDistance := d1 } ∧
      findEscapePath fuel { g0 with monsterDistance := d1 } =
        some (e, { g0 with monsterDistance := d1, playerDistance := pd, parent := par }) ∧
      Base (monsterSearch g0) (fun c => c ∈ g0.originalMonsterPositions) n m d1 parM ∧
      (∀ i j, d1 i j < INF → Closed (monsterSearch g0) d1 (i, j)) ∧
      Base (escapeSearch { g0 with monsterDistance := d1 }) (fun c => c = g0.playerStart)
        n m pd par ∧
      ((e = (-1, -1) ∧ b = false ∧ g0.isBoundary g0.playerStart.1 g0.playerStart.2 = false ∧
          (∀ i j, pd i j < INF → g0.isBoundary i j = false) ∧
          (∀ i j, pd i j < INF →
            Closed (escapeSearch { g0 with monsterDistance := d1 }) pd (i, j))) ∨
       (e ≠ (-1, -1) ∧ b = true ∧ len = (path.length : Int) ∧
        reconstructPath fuel { g0 with monsterDistance := d1, playerDistance := pd,
                                       parent := par, escapePoint := e } e = some path ∧
        pd e.1 e.2 < INF ∧ g0.isBoundary e.1 e.2 = true ∧
        (g0.isBoundary g0.playerStart.1 g0.playerStart.2 = true → e = g0.playerStart) ∧
        (g0.isBoundary g0.playerStart.1 g0.playerStart.2 = false →
          ∀ t c, Reach (escapeSearch { g0 with monsterDistance := d1 })
              (fun c => c = g0.playerStart) t c →
            g0.isBoundary c.1 c.2 = true → pd e.1 e.2 ≤ t))) := by
  obtain ⟨g1, e, g2, h1, h2, hc⟩ := solution_cases fuel g0 b g3 h
  obtain ⟨d1, parM, rfl, hbM, hclM⟩ := monster_post hi fuel g1 h1
  obtain ⟨pd, par, rfl, hb, hcase⟩ := escape_full (n := n) (m := m)
    { g0 with monsterDistance := d1 } hi.rows hi.cols hi.pd hi.par fuel e g2 h2
  rcases hc with ⟨he, hbf, hg3⟩ | ⟨he, hbt, path, hp, hg3⟩
  · refine ⟨d1, pd, parM, par, e, g0.optimalPath, g0.optimalPathLength, hg3, h1, h2, hbM, hclM,
      hb, Or.inl ?_⟩
    rcases hcase with ⟨-, c1, c2, c3⟩ | ⟨hne, -⟩
    · exact ⟨he, hbf, c1, c2, c3⟩
    · exact absurd he hne
  · refine ⟨d1, pd, parM, par, e, path, (path.length : Int), hg3, h1, h2, hbM, hclM, hb,
      Or.inr ?_⟩
    rcases hcase with ⟨he1, -⟩ | ⟨-, c1, c2, c3, c4⟩
    · exact absurd he1 he
    · exact ⟨he, hbt, rfl, hp, c1, c2, c3, c4⟩

/-- C2. On a grid with at least one row and one column, when the player start is not a
boundary cell, `computeOptimalSolution` returns, and `findEscapePath` returns `(-1,-1)` (and
`computeOptimalSolution` returns false) exactly when no safe path leads from the player
start to a boundary cell (the start cell itself always has a monster distance above 0); in
particular a player whose four neighbours are all unwalkable gets no solution. The grid must
have a cell: then the player start lies in the grid (last conjunct), while with `rows = 0` or
`cols = 0` the source writes `playerDistance` at the player start outside the table before
the loop of `findEscapePath`, so nothing is returned there. -/
theorem C2_no_solution_iff_no_safe_route (n m : Nat) (stream : List Char)
    (hn : 0 < n) (hm : 0 < m)
    (hstart : (initGame n m stream).isBoundary (initGame n m stream).playerStart.1
      (initGame n m stream).playerStart.2 = false) :
    (∃ fuel0, ∀ fuel, fuel0 ≤ fuel →
      (computeOptimalSolution fuel (initGame n m stream)).isSome = true) ∧
    (∀ fuel1 fuel2 g1 e g2, computeMonsterDistances fuel1 (initGame n m stream) = some g1 →
      findEscapePath fuel2 g1 = some (e, g2) →
      (e = (-1, -1) ↔ ¬ ∃ t c, SafePath g2 t c ∧ g2.isBoundary (c t).1 (c t).2 = true)) ∧
    (∀ fuel b g3, computeOptimalSolution fuel (initGame n m stream) = some (b, g3) →
      (b = false ↔ ¬ ∃ t c, SafePath g3 t c ∧ g3.isBoundary (c t).1 (c t).2 = true)) ∧
    (∀ fuel g1, computeMonsterDistances fuel (initGame n m stream) = some g1 →
      0 < g1.monsterDistance g1.playerStart.1 g1.playerStart.2) ∧
    ((∀ k, k < 4 → (initGame n m stream).isWalkable
        (nb (initGame n m stream).playerStart k).1
        (nb (initGame n m stream).playerStart k).2 = false) →
      ∀ fuel b g3, computeOptimalSolution fuel (initGame n m stream) = some (b, g3) →
        b = false) ∧
    (initGame n m stream).isValid (initGame n m stream).playerStart.1
      (initGame n m stream).playerStart.2 = true := by
  have hi := initGame_init n m stream
  obtain ⟨f0, r, hterm⟩ := solution_terminates n m stream
  generalize initGame n m stream = g0 at hi hstart hterm
  have key : ∀ fuel1 fuel2 g1 e g2, computeMonsterDistances fuel1 g0 = some g1 →
      findEscapePath fuel2 g1 = some (e, g2) →
      (e = (-1, -1) ↔ ¬ ∃ t c, SafePath g2 t c ∧ g2.isBoundary (c t).1 (c t).2 = true) := by
    intro fuel1 fuel2 g1 e g2 h1 h2
    obtain ⟨c1, c2⟩ := escape_core g0 hi hstart fuel1 fuel2 g1 g2 e h1 h2
    constructor
    · exact c2
    · intro hno
      by_contra he
      obtain ⟨hb, k, -, ⟨c, hc, hck⟩, -⟩ := c1 he
      exact hno ⟨k, c, hc, by rw [hck]; exact hb⟩
  have key2 : ∀ fuel b g3, computeOptimalSolution fuel g0 = some (b, g3) →
      (b = false ↔ ¬ ∃ t c, SafePath g3 t c ∧ g3.isBoundary (c t).1 (c t).2 = true) := by
    intro fuel b g3 h
    obtain ⟨d1, pd, parM, par, e, path, len, rfl, h1, h2, -, -, -, hc⟩ :=
      solution_shape g0 hi fuel b g3 h
    have hk := key fuel fuel _ e _ h1 h2
    have hb : b = false ↔ e = (-1, -1) := by
      rcases hc with ⟨he, hb, -⟩ | ⟨he, hb, -⟩
      · simp [he, hb]
      · simp [he, hb]
    rw [hb]
    exact hk
  have hvalid : g0.isValid g0.playerStart.1 g0.playerStart.2 = true := by
    rcases hi.start with h | h
    · rw [h, isValid_iff, hi.rows, hi.cols]
      refine ⟨le_refl _, ?_, le_refl _, ?_⟩
      · show (0 : Int) < (n : Int)
        exact_mod_cast hn
      · show (0 : Int) < (m : Int)
        exact_mod_cast hm
    · exact h.1
  refine ⟨⟨f0, fun fuel hf => by rw [hterm fuel hf]; rfl⟩, key, key2, ?_, ?_, hvalid⟩
  · intro fuel g1 h1
    obtain ⟨d1, parM, rfl, hbM, -⟩ := monster_post hi fuel g1 h1
    exact start_monster_free g0 hi hstart d1 parM hbM
  intro hwalls fuel b g3 h
  rw [key2 fuel b g3 h]
  obtain ⟨d1, pd, parM, par, e, path, len, rfl, -, -, -, -, -, -⟩ :=
    solution_shape g0 hi fuel b g3 h
  rintro ⟨t, c, ⟨h0, hadj, hadm⟩, hbd⟩
  have h0' : c 0 = g0.playerStart := h0
  by_cases ht : t = 0
  · subst ht
    have hbd1 : g0.isBoundary (c 0).1 (c 0).2 = true := hbd
    rw [h0', hstart] at hbd1
    exact Bool.noConfusion hbd1
  · obtain ⟨k, hk, hc1⟩ := (adj4_iff _ _).1 (hadj 0 (by omega))
    have hw : g0.isWalkable (c (0 + 1)).1 (c (0 + 1)).2 = true := (hadm 1 (le_refl _) (by omega)).1
    rw [hc1, h0', hwalls k hk] at hw
    exact Bool.noConfusion hw

/-- C2 at Scenario A (`###/#A#/###`): the solver reports no solution, and indeed no safe
path reaches the boundary. -/
theorem C2_no_solution_iff_no_safe_route_witness :
    (computeOptimalSolution 5 (initGame 3 3 gridEnclosed)).map Prod.fst = some false ∧
    ∀ g3, computeOptimalSolution 5 (initGame 3 3 gridEnclosed) = some (false, g3) →
      ¬ ∃ t c, SafePath g3 t c ∧ g3.isBoundary (c t).1 (c t).2 = true :=
  ⟨rfl, fun g3 h =>
    ((C2_no_solution_iff_no_safe_route 3 3 gridEnclosed (by decide) (by decide)
      (by decide)).2.2.1 5 false g3 h).1 rfl⟩

/-- C3. On a grid of fewer than `10^9` cells `computeMonsterDistances` returns, and then:
a walkable cell that some walkable path from an `'M'` cell reaches holds the minimum length
of such a path, which is below `10^9`; a walkable cell no such path reaches holds `10^9`;
every unwalkable cell holds `10^9`; and with no `'M'` cell every entry is `10^9`. -/
theorem C3_monster_distance_field (n m : Nat) (stream : List Char)
    (hsize : n * m < 1000000000) :
    (∃ fuel0, ∀ fuel, fuel0 ≤ fuel →
      (computeMonsterDistances fuel (initGame n m stream)).isSome = true) ∧
    ∀ fuel g1, computeMonsterDistances fuel (initGame n m stream) = some g1 →
      (∀ r c, (initGame n m stream).isWalkable r c = true →
        (∃ t p, MonsterPath (initGame n m stream) t p ∧ p t = (r, c)) →
        ∃ k : Nat, g1.monsterDistance r c = (k : Int) ∧ (k : Int) < INF ∧
          (∃ p, MonsterPath (initGame n m stream) k p ∧ p k = (r, c)) ∧
          ∀ t p, MonsterPath (initGame n m stream) t p → p t = (r, c) → k ≤ t) ∧
      (∀ r c, (initGame n m stream).isWalkable r c = true →
        (¬ ∃ t p, MonsterPath (initGame n m stream) t p ∧ p t = (r, c)) →
        g1.monsterDistance r c = INF) ∧
      (∀ r c, (initGame n m stream).isWalkable r c = false → g1.monsterDistance r c = INF) ∧
      ((∀ r c, (initGame n m stream).isValid r c = true →
          (initGame n m stream).originalGrid r c ≠ 'M') →
        ∀ r c, g1.monsterDistance r c = INF) := by
  have hi := initGame_init n m stream
  generalize initGame n m stream = g0 at hi
  constructor
  · obtain ⟨f0, g1, h⟩ := monster_terminates hi
    exact ⟨f0, fun fuel hf => by rw [h fuel hf]; rfl⟩
  · intro fuel g1 h
    obtain ⟨d1, par, rfl, hb, hcl⟩ := monster_post hi fuel g1 h
    have hP := good_monsterSearch g0 n m hi.rows hi.cols
    have hsrc : ∀ r c, (r, c) ∈ g0.originalMonsterPositions →
        0 ≤ r ∧ r < n ∧ 0 ≤ c ∧ c < m := by
      intro r c hmem
      have := (isValid_iff g0 r c).1 (hi.mons _ hmem).1
      rw [hi.rows, hi.cols] at this
      exact this
    have hsizeI : ((n : Int) * (m : Int)) < INF := by
      rw [INF_eq]; exact_mod_cast hsize
    have comp := closed_complete hP hb hcl
    have fin := closed_finite (Q := monsterSearch g0) hb hcl hsrc hsizeI
      (fun r c t τ h _ => h)
    have unreached : ∀ r c, d1 r c < INF → ∃ p, MonsterPath g0 (d1 r c).toNat p ∧
        p (d1 r c).toNat = (r, c) :=
      fun r c hf => reach_monster g0 hi _ _ (hb.sound r c hf)
    refine ⟨?_, ?_, ?_, ?_⟩
    · rintro r c - ⟨t, p, hp, hpt⟩
      have hr := monster_reach g0 hi t p hp
      rw [hpt] at hr
      have hf := fin t (r, c) hr
      have h0 := hb.nonneg r c
      refine ⟨(d1 r c).toNat, ?_, ?_, unreached r c hf, ?_⟩
      · show d1 r c = _
        omega
      · have : d1 r c < INF := hf
        omega
      · intro t1 p1 hp1 hpt1
        have hr1 := monster_reach g0 hi t1 p1 hp1
        rw [hpt1] at hr1
        have := comp t1 (r, c) hr1
        simp only at this
        omega
    · intro r c _ hno
      by_contra hne
      have hf : d1 r c < INF := lt_of_le_of_ne (hb.le_inf r c) hne
      obtain ⟨p, hp, hpt⟩ := unreached r c hf
      exact hno ⟨_, p, hp, hpt⟩
    · intro r c hw
      by_contra hne
      have hf : d1 r c < INF := lt_of_le_of_ne (hb.le_inf r c) hne
      obtain ⟨p, hp, hpt⟩ := unreached r c hf
      have := hp.2.2 _ (le_refl _)
      rw [hpt, hw] at this
      exact Bool.noConfusion this
    · intro hnoM r c
      by_contra hne
      have hf : d1 r c < INF := lt_of_le_of_ne (hb.le_inf r c) hne
      obtain ⟨p, hp, -⟩ := unreached r c hf
      exact hnoM _ _ hp.1.1 hp.1.2

/-- C3 at Scenario B (`A.M`): the distances are 2, 1, 0 and a cell outside the grid keeps
`10^9`. -/
theorem C3_monster_distance_field_witness :
    ∃ g1, computeMonsterDistances 10 (initGame 1 3 gridRow) = some g1 ∧
      g1.monsterDistance 0 0 = 2 ∧ g1.monsterDistance 0 1 = 1 ∧ g1.monsterDistance 0 2 = 0 ∧
      g1.monsterDistance 5 5 = INF :=
  ⟨_, rfl, rfl, rfl, rfl,
    ((C3_monster_distance_field 1 3 gridRow (by decide)).2 10 _ rfl).2.2.1 5 5 (by decide)⟩

theorem route_safe (g1 : Game) (n m : Nat) (pd : Int → Int → Int) (par : Int → Int → Char)
    (hb : Base (escapeSearch g1) (fun c => c = g1.playerStart) n m pd par) (x : Cell) (i : Nat)
    (hi1 : 1 ≤ i) (hx : pd x.1 x.2 = (i : Int)) (hlt : (i : Int) < INF) :
    g1.isWalkable x.1 x.2 = true ∧ (i : Int) < g1.monsterDistance x.1 x.2 := by
  have hne : ¬ ((x.1, x.2) = g1.playerStart) := by
    intro h
    have := hb.src0 x.1 x.2 h
    rw [hx] at this
    omega
  obtain ⟨k, -, -, -, ha⟩ := hb.par_ok x.1 x.2 (by rw [hx]; exact hlt) hne
  simp only [escapeSearch, Bool.and_eq_true, decide_eq_true_eq] at ha
  rw [hx] at ha
  exact ha

/-- C4. When `computeOptimalSolution` succeeds and the player start is not on the boundary,
the cell reached after the first `i` directions of `optimalPath` has a monster distance
strictly greater than `i`, for every `i` from 0 to `optimalPathLength`. -/
theorem C4_route_safety_invariant (n m : Nat) (stream : List Char)
    (hstart : (initGame n m stream).isBoundary (initGame n m stream).playerStart.1
      (initGame n m stream).playerStart.2 = false)
    (fuel : Nat) (g3 : Game)
    (h : computeOptimalSolution fuel (initGame n m stream) = some (true, g3)) :
    g3.optimalPathLength = (g3.optimalPath.length : Int) ∧
    ∀ i : Nat, (i : Int) ≤ g3.optimalPathLength →
      (i : Int) < g3.monsterDistance (walk g3.playerStart (g3.optimalPath.take i)).1
        (walk g3.playerStart (g3.optimalPath.take i)).2 := by
  have hi := initGame_init n m stream
  generalize initGame n m stream = g0 at hi hstart h
  obtain ⟨d1, pd, parM, par, e, path, len, rfl, -, -, hbM, -, hb, hc⟩ :=
    solution_shape g0 hi fuel true g3 h
  rcases hc with ⟨-, hf, -⟩ | ⟨-, -, hlen, hp, hfin, -, -, -⟩
  · exact Bool.noConfusion hf
  · obtain ⟨ds, -, huniq, hdl, -, hcells⟩ := recon_result
      { g0 with monsterDistance := d1, playerDistance := pd, parent := par, escapePoint := e }
      _ n m pd hb e hfin
    have hpd : path = ds := huniq fuel path hp
    subst hpd
    refine ⟨hlen, ?_⟩
    intro i hile
    have hile1 : i ≤ path.length := by
      have h1 : (i : Int) ≤ len := hile
      rw [hlen] at h1
      exact_mod_cast h1
    show (i : Int) < d1 (walk g0.playerStart (path.take i)).1 (walk g0.playerStart (path.take i)).2
    by_cases hz : i = 0
    · subst hz
      simp only [List.take_zero, walk, List.foldl_nil, Nat.cast_zero]
      exact start_monster_free g0 hi hstart d1 parM hbM
    · have hx := hcells i hile1
      have hlt : (i : Int) < INF := by omega
      exact (route_safe { g0 with monsterDistance := d1 } n m pd par hb _ i (by omega) hx hlt).2

/-- C4 at the open 3x3 grid with a monster in the corner: the route is the single move `U`
and both cells on it are strictly closer to the player than to the monster. -/
theorem C4_route_safety_invariant_witness :
    ∃ g3, computeOptimalSolution 20 (initGame 3 3 gridOpen3) = some (true, g3) ∧
      g3.optimalPath = ['U'] ∧
      ∀ i : Nat, (i : Int) ≤ g3.optimalPathLength →
        (i : Int) < g3.monsterDistance (walk g3.playerStart (g3.optimalPath.take i)).1
          (walk g3.playerStart (g3.optimalPath.take i)).2 :=
  ⟨_, rfl, rfl, (C4_route_safety_invariant 3 3 gridOpen3 (by decide) 20 _ rfl).2⟩

/-- C5. When `findEscapePath` returns a cell `e` other than `(-1,-1)`, `reconstructPath(e)`
returns; simulating its directions from the player start ends exactly at `e`, every cell
stepped onto is a walkable in-grid cell, and the path length equals `playerDistance[e]`.
The start cell itself is walkable whenever the grid holds an `'A'`. -/
theorem C5_path_replay_round_trip (n m : Nat) (stream : List Char) (fuel1 fuel2 : Nat)
    (g1 g2 : Game) (e : Cell)
    (h1 : computeMonsterDistances fuel1 (initGame n m stream) = some g1)
    (h2 : findEscapePath fuel2 g1 = some (e, g2)) (he : e ≠ (-1, -1)) :
    (∃ fuel0 path, ∀ fuel, fuel0 ≤ fuel → reconstructPath fuel g2 e = some path) ∧
    ∀ fuel path, reconstructPath fuel g2 e = some path →
      walk g2.playerStart path = e ∧
      (path.length : Int) = g2.playerDistance e.1 e.2 ∧
      (∀ i, 1 ≤ i → i ≤ path.length →
        g2.isWalkable (walk g2.playerStart (path.take i)).1
          (walk g2.playerStart (path.take i)).2 = true) ∧
      ((∃ r c, g2.originalGrid r c = 'A') →
        g2.isWalkable g2.playerStart.1 g2.playerStart.2 = true) := by
  have hi := initGame_init n m stream
  generalize initGame n m stream = g0 at hi h1
  obtain ⟨d1, parM, rfl, -, -⟩ := monster_post hi fuel1 g1 h1
  obtain ⟨pd, par, rfl, hb, hcase⟩ := escape_full (n := n) (m := m)
    { g0 with monsterDistance := d1 } hi.rows hi.cols hi.pd hi.par fuel2 e g2 h2
  have hfin : pd e.1 e.2 < INF := by
    rcases hcase with ⟨h, -⟩ | ⟨-, h, -⟩
    · exact absurd h he
    · exact h
  obtain ⟨ds, hterm, huniq, hdl, hwalk, hcells⟩ := recon_result
    { g0 with monsterDistance := d1, playerDistance := pd, parent := par } _ n m pd hb e hfin
  refine ⟨⟨_, ds, hterm⟩, ?_⟩
  intro fuel path hp
  have hpd : path = ds := huniq fuel path hp
  subst hpd
  refine ⟨hwalk, hdl, ?_, ?_⟩
  · intro i hi1 hi2
    have hx := hcells i hi2
    have hlt : (i : Int) < INF := by omega
    exact (route_safe { g0 with monsterDistance := d1 } n m pd par hb _ i hi1 hx hlt).1
  · rintro ⟨r, c, hA⟩
    obtain ⟨hv, hAs⟩ := hi.hasA r c hA
    show g0.isWalkable g0.playerStart.1 g0.playerStart.2 = true
    simp only [Game.isWalkable, hv, hAs, Bool.true_and]
    decide

/-- C5 at the open 3x3 grid: the reconstructed path `U` replays from `(1,1)` to `(0,1)`. -/
theorem C5_path_replay_round_trip_witness :
    ∃ g1 g2, computeMonsterDistances 20 (initGame 3 3 gridOpen3) = some g1 ∧
      findEscapePath 20 g1 = some ((0, 1), g2) ∧
      reconstructPath 5 g2 (0, 1) = some ['U'] ∧
      walk g2.playerStart ['U'] = (0, 1) ∧
      ((['U'] : List Char).length : Int) = g2.playerDistance 0 1 :=
  ⟨_, _, rfl, rfl, rfl,
    (((C5_path_replay_round_trip 3 3 gridOpen3 20 20 _ _ (0, 1) rfl rfl (by decide)).2
      5 ['U'] rfl).1),
    (((C5_path_replay_round_trip 3 3 gridOpen3 20 20 _ _ (0, 1) rfl rfl (by decide)).2
      5 ['U'] rfl).2.1)⟩

/-- C6. When the player start is a boundary cell, `computeOptimalSolution` returns true with
`escapePoint = playerStart`, the empty path and `optimalPathLength = 0`, whatever the
monster distances are. -/
theorem C6_immediate_escape (n m : Nat) (stream : List Char)
    (hstart : (initGame n m stream).isBoundary (initGame n m stream).playerStart.1
      (initGame n m stream).playerStart.2 = true) :
    (∃ fuel0, ∀ fuel, fuel0 ≤ fuel →
      (computeOptimalSolution fuel (initGame n m stream)).isSome = true) ∧
    ∀ fuel b g3, computeOptimalSolution fuel (initGame n m stream) = some (b, g3) →
      b = true ∧ g3.escapePoint = (initGame n m stream).playerStart ∧
      g3.optimalPath = [] ∧ g3.optimalPathLength = 0 := by
  have hi := initGame_init n m stream
  obtain ⟨f0, r, hterm⟩ := solution_terminates n m stream
  generalize initGame n m stream = g0 at hi hstart hterm
  refine ⟨⟨f0, fun fuel hf => by rw [hterm fuel hf]; rfl⟩, ?_⟩
  intro fuel b g3 h
  obtain ⟨d1, pd, parM, par, e, path, len, rfl, -, -, -, -, hb, hc⟩ :=
    solution_shape g0 hi fuel b g3 h
  rcases hc with ⟨-, -, hnb, -⟩ | ⟨-, hbt, hlen, hp, hfin, -, hes, -⟩
  · rw [hstart] at hnb
    exact Bool.noConfusion hnb
  · have hes1 := hes hstart
    obtain ⟨ds, -, huniq, hdl, -, -⟩ := recon_result
      { g0 with monsterDistance := d1, playerDistance := pd, parent := par, escapePoint := e }
      _ n m pd hb e hfin
    have hpd : path = ds := huniq fuel path hp
    subst hpd
    have h0 : pd e.1 e.2 = 0 := hb.src0 e.1 e.2 hes1
    have hl : path.length = 0 := by
      rw [h0] at hdl
      exact_mod_cast hdl
    have hnil : path = [] := List.length_eq_zero.1 hl
    refine ⟨hbt, hes1, hnil, ?_⟩
    show len = 0
    rw [hlen, hl]
    rfl

/-- C6 at Scenario B (`A.M`): length 0 and escape cell `(0,0)`. -/
theorem C6_immediate_escape_witness :
    (computeOptimalSolution 5 (initGame 1 3 gridRow)).map
        (fun r => (r.1, r.2.escapePoint, r.2.optimalPathLength)) = some (true, (0, 0), 0) ∧
    ∀ g3, computeOptimalSolution 5 (initGame 1 3 gridRow) = some (true, g3) →
      g3.optimalPath = [] :=
  ⟨rfl, fun g3 h => ((C6_immediate_escape 1 3 gridRow (by decide)).2 5 true g3 h).2.2.1⟩

theorem walk_reach (g : Game) (t : Nat) (c : Nat → Cell) (h : WalkPath g t c) :
    Reach (monsterSearch g) (fun x => x = g.playerStart) t (c t) := by
  obtain ⟨h0, hadj, hadm⟩ := h
  exact reach_of_path _ _ c t h0 hadj (fun i h1 h2 => hadm i h1 h2)

theorem no_monster_inf {n m : Nat} (g0 : Game) (hi : Init n m g0)
    (hnoM : ∀ r c, g0.isValid r c = true → g0.originalGrid r c ≠ 'M')
    (d1 : Int → Int → Int) (parM : Int → Int → Char)
    (hbM : Base (monsterSearch g0) (fun c => c ∈ g0.originalMonsterPositions) n m d1 parM) :
    ∀ r c, d1 r c = INF := by
  intro r c
  by_contra hne
  have hf : d1 r c < INF := lt_of_le_of_ne (hbM.le_inf r c) hne
  obtain ⟨p, hp, -⟩ := reach_monster g0 hi _ _ (hbM.sound r c hf)
  exact hnoM _ _ hp.1.1 hp.1.2

/-- C7. On a grid of fewer than `10^9` cells with no `'M'` cell and some boundary cell
reachable from the player start through walkable cells, `computeOptimalSolution` returns
true, the path replayed from the start ends on the boundary cell `escapePoint`, and
`optimalPathLength` is the length of a shortest walkable path from the start to a boundary
cell. -/
theorem C7_no_monsters_plain_shortest_path (n m : Nat) (stream : List Char)
    (hsize : n * m < 1000000000)
    (hnoM : ∀ r c, (initGame n m stream).isValid r c = true →
      (initGame n m stream).originalGrid r c ≠ 'M')
    (hreach : ∃ t c, WalkPath (initGame n m stream) t c ∧
      (initGame n m stream).isBoundary (c t).1 (c t).2 = true) :
    (∃ fuel0, ∀ fuel, fuel0 ≤ fuel →
      (computeOptimalSolution fuel (initGame n m stream)).isSome = true) ∧
    ∀ fuel b g3, computeOptimalSolution fuel (initGame n m stream) = some (b, g3) →
      b = true ∧
      walk g3.playerStart g3.optimalPath = g3.escapePoint ∧
      g3.isBoundary g3.escapePoint.1 g3.escapePoint.2 = true ∧
      g3.optimalPathLength = (g3.optimalPath.length : Int) ∧
      (∃ c, WalkPath (initGame n m stream) g3.optimalPath.length c ∧
        (initGame n m stream).isBoundary (c g3.optimalPath.length).1
          (c g3.optimalPath.length).2 = true) ∧
      ∀ t c, WalkPath (initGame n m stream) t c →
        (initGame n m stream).isBoundary (c t).1 (c t).2 = true →
        g3.optimalPath.length ≤ t := by
  have hi := initGame_init n m stream
  obtain ⟨f0, r, hterm⟩ := solution_terminates n m stream
  generalize initGame n m stream = g0 at hi hnoM hreach hterm
  refine ⟨⟨f0, fun fuel hf => by rw [hterm fuel hf]; rfl⟩, ?_⟩
  intro fuel b g3 h
  obtain ⟨d1, pd, parM, par, e, path, len, rfl, -, -, hbM, -, hb, hc⟩ :=
    solution_shape g0 hi fuel b g3 h
  have hinf := no_monster_inf g0 hi hnoM d1 parM hbM
  have hsizeI : ((n : Int) * (m : Int)) < INF := by
    rw [INF_eq]; exact_mod_cast hsize
  rcases hc with ⟨-, -, hnb, hns, hcl⟩ | ⟨-, hbt, hlen, hp, hfin, hbe, hes, hmin⟩
  · exfalso
    obtain ⟨t, c, hw, hbd⟩ := hreach
    have hvb := (isValid_iff g0 _ _).1 (isBoundary_valid g0 _ _ hbd)
    rw [hi.rows, hi.cols] at hvb
    have hsrc : ∀ r c, (r, c) = g0.playerStart → 0 ≤ r ∧ r < n ∧ 0 ≤ c ∧ c < m := by
      intro r c hrc
      have hv : g0.isValid r c = true := by
        rcases hi.start with h0 | ⟨hv, -⟩
        · rw [h0, Prod.mk.injEq] at hrc
          rw [hrc.1, hrc.2, isValid_iff, hi.rows, hi.cols]
          omega
        · rw [← hrc] at hv
          exact hv
      have := (isValid_iff g0 r c).1 hv
      rw [hi.rows, hi.cols] at this
      exact this
    have hfin := closed_finite (Q := monsterSearch g0) hb hcl hsrc hsizeI
      (by
        intro r c t τ hw hτ
        have hw1 : g0.isWalkable r c = true := hw
        simp only [escapeSearch, Bool.and_eq_true, decide_eq_true_eq]
        exact ⟨hw1, by rw [hinf r c]; omega⟩)
      t (c t) (walk_reach g0 t c hw)
    have := hns _ _ hfin
    rw [hbd] at this
    exact Bool.noConfusion this
  · obtain ⟨ds, -, huniq, hdl, hwalk, -⟩ := recon_result
      { g0 with monsterDistance := d1, playerDistance := pd, parent := par, escapePoint := e }
      _ n m pd hb e hfin
    have hpd : path = ds := huniq fuel path hp
    subst hpd
    have h0 := hb.nonneg e.1 e.2
    have hk : (pd e.1 e.2).toNat = path.length := by omega
    refine ⟨hbt, hwalk, hbe, hlen, ?_, ?_⟩
    · obtain ⟨c, hc, hce⟩ := reach_safe _ _ _ (hb.sound e.1 e.2 hfin)
      rw [hk] at hc hce
      refine ⟨c, ⟨hc.1, hc.2.1, fun i h1 h2 => (hc.2.2 i h1 h2).1⟩, ?_⟩
      show g0.isBoundary (c path.length).1 (c path.length).2 = true
      rw [hce]; exact hbe
    · intro t c hw hbd
      show path.length ≤ t
      by_cases hnb : g0.isBoundary g0.playerStart.1 g0.playerStart.2 = true
      · have := hb.src0 e.1 e.2 (hes hnb)
        omega
      · have hnb0 : g0.isBoundary g0.playerStart.1 g0.playerStart.2 = false := by
          simpa using hnb
        by_cases htt : (t : Int) < INF
        · have hsafe : SafePath { g0 with monsterDistance := d1 } t c := by
            refine ⟨hw.1, hw.2.1, fun i h1 h2 => ⟨hw.2.2 i h1 h2, ?_⟩⟩
            show (i : Int) < d1 _ _
            rw [hinf]
            omega
          have := hmin hnb0 t (c t) (safe_reach _ t c hsafe) hbd
          omega
        · omega

/-- C7 at the open 3x3 grid without monsters: the solver succeeds with a path of length 1,
the shortest walkable route from the centre to the boundary. -/
theorem C7_no_monsters_plain_shortest_path_witness :
    (computeOptimalSolution 20 (initGame 3 3 gridNoMonster)).map
        (fun r => (r.1, r.2.optimalPath)) = some (true, ['U']) ∧
    ∀ g3, computeOptimalSolution 20 (initGame 3 3 gridNoMonster) = some (true, g3) →
      ∀ t c, WalkPath (initGame 3 3 gridNoMonster) t c →
        (initGame 3 3 gridNoMonster).isBoundary (c t).1 (c t).2 = true →
        g3.optimalPath.length ≤ t :=
  ⟨rfl, fun g3 h =>
    ((C7_no_monsters_plain_shortest_path 3 3 gridNoMonster (by decide)
      (by
        intro r c hv
        have hb := (isValid_iff _ r c).1 hv
        have h1 : (initGame 3 3 gridNoMonster).rows = 3 := rfl
        have h2 : (initGame 3 3 gridNoMonster).cols = 3 := rfl
        rw [h1, h2] at hb
        obtain ⟨a1, a2, a3, a4⟩ := hb
        interval_cases r <;> interval_cases c <;> decide)
      ⟨1, fun i => if i = 0 then (1, 1) else (0, 1),
        ⟨rfl, fun i hi => by
            have : i = 0 := by omega
            subst this
            simp [adj4, iabs],
          fun i h1 h2 => by
            have : i = 1 := by omega
            subst this
            decide⟩,
        by decide⟩).2 20 true g3 h).2.2.2.2.2⟩

theorem manhattan_nb (p mon : Cell) (k : Nat) (hk : k < 4) :
    manhattan p (nb mon k) = manhattan p mon + 1 ∨ manhattan p (nb mon k) = manhattan p mon - 1 := by
  have hk4 : k = 0 ∨ k = 1 ∨ k = 2 ∨ k = 3 := by omega
  rcases hk4 with e | e | e | e <;> subst e <;>
    simp only [manhattan, nb, iabs, row_directions, col_directions, List.getD_cons_zero,
      List.getD_cons_succ] <;>
    split_ifs <;> omega

theorem pursuitScan_found (g : Game) (mon : Cell) : ∀ (ks : List Nat), (∀ k ∈ ks, k < 4) →
    ∀ x : Cell, pursuitScan g mon.1 mon.2 ks (manhattan g.playerPos mon - 1, x.1, x.2) =
      (manhattan g.playerPos mon - 1, x.1, x.2) := by
  intro ks
  induction ks with
  | nil => intro _ x; rfl
  | cons k ks ih =>
    intro hks x
    have hk := hks k (List.mem_cons_self _ _)
    have ih1 := ih (fun j hj => hks j (List.mem_cons_of_mem _ hj)) x
    have hm := manhattan_nb g.playerPos mon k hk
    have hnot : ¬ (iabs (g.playerPos.1 - (mon.1 + row_directions.getD k 0)) +
        iabs (g.playerPos.2 - (mon.2 + col_directions.getD k 0)) <
        manhattan g.playerPos mon - 1) := by
      have e : iabs (g.playerPos.1 - (mon.1 + row_directions.getD k 0)) +
        iabs (g.playerPos.2 - (mon.2 + col_directions.getD k 0)) =
        manhattan g.playerPos (nb mon k) := rfl
      rw [e]; omega
    simp only [pursuitScan, hnot, if_false, ite_self]
    exact ih1

theorem pursuitScan_rule (g : Game) (mon : Cell) : ∀ (ks : List Nat), (∀ k ∈ ks, k < 4) →
    pursuitScan g mon.1 mon.2 ks (manhattan g.playerPos mon, mon.1, mon.2) =
      match ks.find? (pursuitCandidate g mon) with
      | some k => (manhattan g.playerPos mon - 1, (nb mon k).1, (nb mon k).2)
      | none => (manhattan g.playerPos mon, mon.1, mon.2) := by
  intro ks
  induction ks with
  | nil => intro _; rfl
  | cons k ks ih =>
    intro hks
    have hk := hks k (List.mem_cons_self _ _)
    have hks1 : ∀ j ∈ ks, j < 4 := fun j hj => hks j (List.mem_cons_of_mem _ hj)
    have ih1 := ih hks1
    have hm := manhattan_nb g.playerPos mon k hk
    have e : iabs (g.playerPos.1 - (mon.1 + row_directions.getD k 0)) +
        iabs (g.playerPos.2 - (mon.2 + col_directions.getD k 0)) =
        manhattan g.playerPos (nb mon k) := rfl
    have enb : (mon.1 + row_directions.getD k 0, mon.2 + col_directions.getD k 0) = nb mon k := rfl
    by_cases hc : pursuitCandidate g mon k = true
    · have hc1 := hc
      simp only [pursuitCandidate, Bool.and_eq_true, decide_eq_true_eq] at hc1
      obtain ⟨⟨hw, hne⟩, hlt⟩ := hc1
      have hw1 : g.isWalkable (mon.1 + row_directions.getD k 0)
          (mon.2 + col_directions.getD k 0) = true := hw
      have hd : manhattan g.playerPos (nb mon k) = manhattan g.playerPos mon - 1 := by omega
      rw [List.find?_cons_of_pos _ hc]
      simp only [pursuitScan, hw1, enb, hne, ne_eq, not_false_eq_true, and_self, if_true, e, hlt]
      rw [hd]
      exact pursuitScan_found g mon ks hks1 (nb mon k)
    · rw [List.find?_cons_of_neg _ hc]
      have hc0 : ¬ ((g.isWalkable (mon.1 + row_directions.getD k 0)
          (mon.2 + col_directions.getD k 0) = true ∧
          (mon.1 + row_directions.getD k 0, mon.2 + col_directions.getD k 0) ≠ g.playerPos) ∧
          manhattan g.playerPos (nb mon k) < manhattan g.playerPos mon) := by
        intro h
        apply hc
        simp only [pursuitCandidate, Bool.and_eq_true, decide_eq_true_eq]
        exact h
      by_cases hwp : g.isWalkable (mon.1 + row_directions.getD k 0)
          (mon.2 + col_directions.getD k 0) = true ∧
          (mon.1 + row_directions.getD k 0, mon.2 + col_directions.getD k 0) ≠ g.playerPos
      · have hnlt : ¬ manhattan g.playerPos (nb mon k) < manhattan g.playerPos mon :=
          fun h => hc0 ⟨hwp, h⟩
        simp only [pursuitScan, hwp, ne_eq, not_false_eq_true, and_self, if_true, e, hnlt,
          if_false]
        exact ih1
      · simp only [pursuitScan, hwp, if_false]
        exact ih1

theorem moveMonster_eq_rule (g : Game) (mon : Cell) : moveMonster g mon = pursuitRule g mon := by
  have h := pursuitScan_rule g mon [0, 1, 2, 3] (by intro k hk; simp at hk; omega)
  have e : iabs (g.playerPos.1 - mon.1) + iabs (g.playerPos.2 - mon.2) =
      manhattan g.playerPos mon := rfl
  simp only [moveMonster, pursuitRule, e]
  rw [h]
  cases List.find? (pursuitCandidate g mon) [0, 1, 2, 3] with
  | none => rfl
  | some k => rfl

theorem foldl_push_map {α β : Type} (f : α → β) : ∀ (l : List α) (acc : List β),
    l.foldl (fun acc x => acc ++ [f x]) acc = acc ++ l.map f := by
  intro l
  induction l with
  | nil => intro acc; simp
  | cons x l ih => intro acc; simp [ih]

theorem moveMonsters_eq (g : Game) :
    moveMonsters g =
      { g with currentMonsterPositions := g.currentMonsterPositions.map (pursuitRule g) } := by
  have h : g.currentMonsterPositions.foldl (fun acc monster => acc ++ [moveMonster g monster]) [] =
      g.currentMonsterPositions.map (pursuitRule g) := by
    rw [foldl_push_map (moveMonster g)]
    simp only [List.nil_append]
    exact List.map_congr_left (fun x _ => moveMonster_eq_rule g x)
  simp only [moveMonsters, h]

theorem pursuitRule_min (g : Game) (mon : Cell) :
    manhattan g.playerPos (pursuitRule g mon) ≤ manhattan g.playerPos mon ∧
    ∀ k, k < 4 → g.isWalkable (nb mon k).1 (nb mon k).2 = true → nb mon k ≠ g.playerPos →
      manhattan g.playerPos (pursuitRule g mon) ≤ manhattan g.playerPos (nb mon k) := by
  unfold pursuitRule
  rcases hf : List.find? (pursuitCandidate g mon) [0, 1, 2, 3] with _ | j
  · simp only
    refine ⟨le_refl _, ?_⟩
    intro k hk hw hne
    have hmem : k ∈ [0, 1, 2, 3] := by simp; omega
    have := List.find?_eq_none.1 hf k hmem
    simp only [pursuitCandidate, hw, hne, ne_eq, not_false_eq_true, decide_True, Bool.and_self,
      Bool.true_and, decide_eq_true_eq] at this
    omega
  · simp only
    have hj := List.find?_some hf
    have hjm : j ∈ [0, 1, 2, 3] := List.mem_of_find?_eq_some hf
    have hj4 : j < 4 := by simp at hjm; omega
    simp only [pursuitCandidate, Bool.and_eq_true, decide_eq_true_eq] at hj
    have hmj := manhattan_nb g.playerPos mon j hj4
    refine ⟨by omega, ?_⟩
    intro k hk _ _
    have hmk := manhattan_nb g.playerPos mon k hk
    omega

/-- C8. `moveMonsters` replaces every monster position, independently and in order, by the
first neighbour in scan order Up, Down, Right, Left that is walkable, differs from the
player's cell and is strictly closer to the player, or leaves it in place when there is
none; the chosen cell minimises the Manhattan distance over staying put and all candidate
neighbours; nothing else in the state changes. In Scenario D the monster at `(2,2)` moves
up to `(1,2)`. -/
theorem C8_pursuit_rule (g : Game) :
    (∀ mon, moveMonster g mon = pursuitRule g mon) ∧
    moveMonsters g =
      { g with currentMonsterPositions := g.currentMonsterPositions.map (pursuitRule g) } ∧
    (moveMonsters g).currentMonsterPositions.length = g.currentMonsterPositions.length ∧
    (∀ mon, manhattan g.playerPos (pursuitRule g mon) ≤ manhattan g.playerPos mon ∧
      ∀ k, k < 4 → g.isWalkable (nb mon k).1 (nb mon k).2 = true → nb mon k ≠ g.playerPos →
        manhattan g.playerPos (pursuitRule g mon) ≤ manhattan g.playerPos (nb mon k)) ∧
    (moveMonsters (initGame 3 3 gridPursuit)).currentMonsterPositions = [(1, 2)] := by
  refine ⟨moveMonster_eq_rule g, moveMonsters_eq g, ?_, pursuitRule_min g, by decide⟩
  rw [moveMonsters_eq]
  simp

theorem processMove_reject (g : Game) (move : Char) :
    (moveTarget g.playerPos move = none → processMove g move = (false, g)) ∧
    (∀ t : Cell, moveTarget g.playerPos move = some t → g.isWalkable t.1 t.2 = false →
      processMove g move = (false, g)) := by
  constructor
  · intro h
    simp only [processMove, h]
  · intro t h hw
    obtain ⟨t1, t2⟩ := t
    simp only [processMove, h, hw, Bool.not_false, if_true]

theorem moveTarget_none_iff (p : Cell) (move : Char) :
    moveTarget p move = none ↔ move ∉ ['U', 'u', 'D', 'd', 'L', 'l', 'R', 'r'] := by
  simp only [moveTarget, List.mem_cons, List.mem_singleton, List.not_mem_nil, or_false, not_or]
  constructor
  · intro h
    split_ifs at h with h1 h2 h3 h4
    exact ⟨fun e => h1 (Or.inl e), fun e => h1 (Or.inr e), fun e => h2 (Or.inl e),
      fun e => h2 (Or.inr e), fun e => h3 (Or.inl e), fun e => h3 (Or.inr e),
      fun e => h4 (Or.inl e), fun e => h4 (Or.inr e)⟩
  · rintro ⟨a1, a2, a3, a4, a5, a6, a7, a8⟩
    simp [a1, a2, a3, a4, a5, a6, a7, a8]

theorem moveTarget_dirs (p : Cell) (move : Char) :
    ((move = 'U' ∨ move = 'u') → moveTarget p move = some (p.1 - 1, p.2)) ∧
    ((move = 'D' ∨ move = 'd') → moveTarget p move = some (p.1 + 1, p.2)) ∧
    ((move = 'L' ∨ move = 'l') → moveTarget p move = some (p.1, p.2 - 1)) ∧
    ((move = 'R' ∨ move = 'r') → moveTarget p move = some (p.1, p.2 + 1)) := by
  refine ⟨?_, ?_, ?_, ?_⟩ <;> rintro (h | h) <;> subst h <;> simp [moveTarget]

/-- C9. A move character that is not one of `U/D/L/R` (in either case), and a move whose
target cell (`U` row-1, `D` row+1, `L` col-1, `R` col+1) is not walkable, make `processMove`
return false and leave the whole game state exactly as it was. -/
theorem C9_rejected_move_unchanged (g : Game) (move : Char) :
    (move ∉ ['U', 'u', 'D', 'd', 'L', 'l', 'R', 'r'] → processMove g move = (false, g)) ∧
    (∀ t : Cell, moveTarget g.playerPos move = some t → g.isWalkable t.1 t.2 = false →
      processMove g move = (false, g)) ∧
    ((move = 'U' ∨ move = 'u') → moveTarget g.playerPos move = some (g.playerPos.1 - 1, g.playerPos.2)) ∧
    ((move = 'D' ∨ move = 'd') → moveTarget g.playerPos move = some (g.playerPos.1 + 1, g.playerPos.2)) ∧
    ((move = 'L' ∨ move = 'l') → moveTarget g.playerPos move = some (g.playerPos.1, g.playerPos.2 - 1)) ∧
    ((move = 'R' ∨ move = 'r') → moveTarget g.playerPos move = some (g.playerPos.1, g.playerPos.2 + 1)) :=
  ⟨fun h => (processMove_reject g move).1 ((moveTarget_none_iff _ _).2 h),
    (processMove_reject g move).2, moveTarget_dirs g.playerPos move⟩

/-- C9 at Scenario A: the player enclosed by walls tries `U`, and a stray `x`; both are
rejected with the state unchanged. -/
theorem C9_rejected_move_unchanged_witness :
    processMove (initGame 3 3 gridEnclosed) 'U' = (false, initGame 3 3 gridEnclosed) ∧
    processMove (initGame 3 3 gridEnclosed) 'x' = (false, initGame 3 3 gridEnclosed) :=
  ⟨(C9_rejected_move_unchanged (initGame 3 3 gridEnclosed) 'U').2.1 (0, 1) (by decide) (by decide),
    (C9_rejected_move_unchanged (initGame 3 3 gridEnclosed) 'x').1 (by decide)⟩

theorem isCaught_iff (g : Game) : isCaughtByMonster g = true ↔ g.playerPos ∈ g.currentMonsterPositions := by
  simp only [isCaughtByMonster, List.any_eq_true, decide_eq_true_eq]
  constructor
  · rintro ⟨x, hx, rfl⟩; exact hx
  · intro h; exact ⟨_, h, rfl⟩

/-- C10. A move whose target cell `t` is walkable makes `processMove` return true, puts
the player on `t`, adds exactly 1 to `moveCount`, replaces the monsters by the pursuit step
computed against the new player position, and then: if a monster stands on `t` the game is
over and lost (also when `t` is a boundary cell); otherwise if `t` is a boundary cell the
game is over and won; otherwise `gameOver` and `playerWon` are left as they were. -/
theorem C10_accepted_move_postcondition (g : Game) (move : Char) (t : Cell)
    (ht : moveTarget g.playerPos move = some t) (hw : g.isWalkable t.1 t.2 = true) :
    (processMove g move).1 = true ∧
    (processMove g move).2.playerPos = t ∧
    (processMove g move).2.moveCount = g.moveCount + 1 ∧
    (processMove g move).2.currentMonsterPositions =
      (moveMonsters { g with playerPos := t, moveCount := g.moveCount + 1 }).currentMonsterPositions ∧
    (processMove g move).2.currentMonsterPositions =
      g.currentMonsterPositions.map
        (pursuitRule { g with playerPos := t, moveCount := g.moveCount + 1 }) ∧
    (t ∈ (processMove g move).2.currentMonsterPositions →
      (processMove g move).2.gameOver = true ∧ (processMove g move).2.playerWon = false) ∧
    (t ∉ (processMove g move).2.currentMonsterPositions → g.isBoundary t.1 t.2 = true →
      (processMove g move).2.gameOver = true ∧ (processMove g move).2.playerWon = true) ∧
    (t ∉ (processMove g move).2.currentMonsterPositions → g.isBoundary t.1 t.2 = false →
      (processMove g move).2.gameOver = g.gameOver ∧
      (processMove g move).2.playerWon = g.playerWon) := by
  obtain ⟨t1, t2⟩ := t
  have hmm := moveMonsters_eq { g with playerPos := (t1, t2), moveCount := g.moveCount + 1 }
  have hmons : (moveMonsters { g with playerPos := (t1, t2), moveCount := g.moveCount + 1 }).currentMonsterPositions =
      g.currentMonsterPositions.map
        (pursuitRule { g with playerPos := (t1, t2), moveCount := g.moveCount + 1 }) := by
    rw [hmm]
  have hw1 : g.isWalkable t1 t2 = true := hw
  by_cases hcaught : isCaughtByMonster (updateGrid (moveMonsters
      { g with playerPos := (t1, t2), moveCount := g.moveCount + 1 })) = true
  · have hres : processMove g move = (true, { (updateGrid (moveMonsters
        { g with playerPos := (t1, t2), moveCount := g.moveCount + 1 })) with
        gameOver := true, playerWon := false }) := by
      simp only [processMove, ht, hw1, Bool.not_true, Bool.false_eq_true, if_false, hcaught,
        if_true]
    have hmem := (isCaught_iff _).1 hcaught
    rw [hres]
    refine ⟨rfl, rfl, rfl, rfl, hmons, fun _ => ⟨rfl, rfl⟩, fun h => absurd hmem h,
      fun h => absurd hmem h⟩
  · have hnm : (t1, t2) ∉ (moveMonsters { g with playerPos := (t1, t2), moveCount := g.moveCount + 1 }).currentMonsterPositions :=
      fun h => hcaught ((isCaught_iff _).2 h)
    by_cases hb : g.isBoundary t1 t2 = true
    · have hb1 : (updateGrid (moveMonsters { g with playerPos := (t1, t2), moveCount := g.moveCount + 1 })).isBoundary
          (updateGrid (moveMonsters { g with playerPos := (t1, t2), moveCount := g.moveCount + 1 })).playerPos.1
          (updateGrid (moveMonsters { g with playerPos := (t1, t2), moveCount := g.moveCount + 1 })).playerPos.2 = true := hb
      have hres : processMove g move = (true, { (updateGrid (moveMonsters
          { g with playerPos := (t1, t2), moveCount := g.moveCount + 1 })) with
          gameOver := true, playerWon := true }) := by
        simp only [processMove, ht, hw1, Bool.not_true, Bool.false_eq_true, if_false, hcaught,
          hb1, if_true]
      rw [hres]
      refine ⟨rfl, rfl, rfl, rfl, hmons, fun h => absurd h hnm, fun _ _ => ⟨rfl, rfl⟩, ?_⟩
      intro _ h
      rw [hb] at h
      exact Bool.noConfusion h
    · have hb1 : ¬ (updateGrid (moveMonsters { g with playerPos := (t1, t2), moveCount := g.moveCount + 1 })).isBoundary
          (updateGrid (moveMonsters { g with playerPos := (t1, t2), moveCount := g.moveCount + 1 })).playerPos.1
          (updateGrid (moveMonsters { g with playerPos := (t1, t2), moveCount := g.moveCount + 1 })).playerPos.2 = true := hb
      have hres : processMove g move = (true, updateGrid (moveMonsters
          { g with playerPos := (t1, t2), moveCount := g.moveCount + 1 })) := by
        simp only [processMove, ht, hw1, Bool.not_true, Bool.false_eq_true, if_false, hcaught,
          hb1]
      rw [hres]
      refine ⟨rfl, rfl, rfl, rfl, hmons, fun h => absurd h hnm, fun _ h => absurd h hb,
        fun _ _ => ⟨rfl, rfl⟩⟩

/-- C10 at the open 3x3 grid with a monster in the corner: the move `U` is accepted, the
player stands on `(0,1)` after one move, the monster has advanced to `(1,2)`, and the game
is won. -/
theorem C10_accepted_move_postcondition_witness :
    (processMove (initGame 3 3 gridOpen3) 'U').1 = true ∧
    (processMove (initGame 3 3 gridOpen3) 'U').2.playerPos = (0, 1) ∧
    (processMove (initGame 3 3 gridOpen3) 'U').2.moveCount = 1 ∧
    (processMove (initGame 3 3 gridOpen3) 'U').2.currentMonsterPositions = [(1, 2)] ∧
    (processMove (initGame 3 3 gridOpen3) 'U').2.gameOver = true ∧
    (processMove (initGame 3 3 gridOpen3) 'U').2.playerWon = true :=
  have h := C10_accepted_move_postcondition (initGame 3 3 gridOpen3) 'U' (0, 1)
    (by decide) (by decide)
  ⟨h.1, h.2.1, h.2.2.1, by decide, (h.2.2.2.2.2.2.1 (by decide) (by decide)).1,
    (h.2.2.2.2.2.2.1 (by decide) (by decide)).2⟩

theorem iabs_nonneg (x : Int) : 0 ≤ iabs x := by
  unfold iabs
  split_ifs <;> omega

theorem manhattan_nonneg (a b : Cell) : 0 ≤ manhattan a b := by
  have h1 := iabs_nonneg (a.1 - b.1)
  have h2 := iabs_nonneg (a.2 - b.2)
  unfold manhattan
  omega

theorem manhattan_self (a : Cell) : manhattan a a = 0 := by
  simp [manhattan, iabs]

theorem pursuitRule_cases (g : Game) (mon : Cell) :
    pursuitRule g mon = mon ∨
    ∃ k, k < 4 ∧ pursuitRule g mon = nb mon k ∧ g.isWalkable (nb mon k).1 (nb mon k).2 = true ∧
      nb mon k ≠ g.playerPos := by
  unfold pursuitRule
  rcases hf : List.find? (pursuitCandidate g mon) [0, 1, 2, 3] with _ | j
  · left; rfl
  · right
    have hj := List.find?_some hf
    have hjm : j ∈ [0, 1, 2, 3] := List.mem_of_find?_eq_some hf
    have hj4 : j < 4 := by simp at hjm; omega
    simp only [pursuitCandidate, Bool.and_eq_true, decide_eq_true_eq] at hj
    exact ⟨j, hj4, rfl, hj.1.1, hj.1.2⟩

theorem pursuitRule_on_player (g : Game) (mon : Cell) (h : mon = g.playerPos) :
    pursuitRule g mon = mon := by
  unfold pursuitRule
  rcases hf : List.find? (pursuitCandidate g mon) [0, 1, 2, 3] with _ | j
  · rfl
  · exfalso
    have hj := List.find?_some hf
    simp only [pursuitCandidate, Bool.and_eq_true, decide_eq_true_eq] at hj
    have h1 := manhattan_nonneg g.playerPos (nb mon j)
    have h2 : manhattan g.playerPos mon = 0 := by rw [h]; exact manhattan_self _
    omega

/-- A monster stands on the player's cell after the pursuit step exactly when one stood
there before it: monsters never step onto the player, and one already there stays. -/
theorem pursuit_on_player_iff (g : Game) :
    g.playerPos ∈ g.currentMonsterPositions.map (pursuitRule g) ↔
      g.playerPos ∈ g.currentMonsterPositions := by
  rw [List.mem_map]
  constructor
  · rintro ⟨mon, hmem, hp⟩
    rcases pursuitRule_cases g mon with h | ⟨k, -, h, -, hne⟩
    · rw [h] at hp; rw [← hp]; exact hmem
    · rw [h] at hp; exact absurd hp hne
  · intro hmem
    exact ⟨g.playerPos, hmem, pursuitRule_on_player g _ rfl⟩

/-- What `processMove` does on a move whose target `t` is walkable. -/
theorem processMove_accept (g : Game) (move : Char) (t : Cell)
    (ht : moveTarget g.playerPos move = some t) (hw : g.isWalkable t.1 t.2 = true) :
    (processMove g move).1 = true ∧
    (processMove g move).2.playerPos = t ∧
    (processMove g move).2.moveCount = g.moveCount + 1 ∧
    (processMove g move).2.currentMonsterPositions =
      g.currentMonsterPositions.map
        (pursuitRule { g with playerPos := t, moveCount := g.moveCount + 1 }) ∧
    (t ∈ (processMove g move).2.currentMonsterPositions →
      (processMove g move).2.gameOver = true ∧ (processMove g move).2.playerWon = false) ∧
    (t ∉ (processMove g move).2.currentMonsterPositions → g.isBoundary t.1 t.2 = true →
      (processMove g move).2.gameOver = true ∧ (processMove g move).2.playerWon = true) ∧
    (t ∉ (processMove g move).2.currentMonsterPositions → g.isBoundary t.1 t.2 = false →
      (processMove g move).2.gameOver = g.gameOver ∧
      (processMove g move).2.playerWon = g.playerWon) ∧
    (processMove g move).2.rows = g.rows ∧ (processMove g move).2.cols = g.cols ∧
    (processMove g move).2.originalGrid = g.originalGrid ∧
    (processMove g move).2.originalMonsterPositions = g.originalMonsterPositions := by
  obtain ⟨t1, t2⟩ := t
  have hmm := moveMonsters_eq { g with playerPos := (t1, t2), moveCount := g.moveCount + 1 }
  have hmons : (moveMonsters
      { g with playerPos := (t1, t2), moveCount := g.moveCount + 1 }).currentMonsterPositions =
      g.currentMonsterPositions.map
        (pursuitRule { g with playerPos := (t1, t2), moveCount := g.moveCount + 1 }) := by
    rw [hmm]
  have hw1 : g.isWalkable t1 t2 = true := hw
  by_cases hcaught : isCaughtByMonster (updateGrid (moveMonsters
      { g with playerPos := (t1, t2), moveCount := g.moveCount + 1 })) = true
  · have hres : processMove g move = (true, { (updateGrid (moveMonsters
        { g with playerPos := (t1, t2), moveCount := g.moveCount + 1 })) with
        gameOver := true, playerWon := false }) := by
      simp only [processMove, ht, hw1, Bool.not_true, Bool.false_eq_true, if_false, hcaught,
        if_true]
    have hmem := (isCaught_iff _).1 hcaught
    rw [hres]
    exact ⟨rfl, rfl, rfl, hmons, fun _ => ⟨rfl, rfl⟩, fun h => absurd hmem h,
      fun h => absurd hmem h, rfl, rfl, rfl, rfl⟩
  · have hnm : (t1, t2) ∉ (moveMonsters
        { g with playerPos := (t1, t2), moveCount := g.moveCount + 1 }).currentMonsterPositions :=
      fun h => hcaught ((isCaught_iff _).2 h)
    by_cases hb : g.isBoundary t1 t2 = true
    · have hb1 : (updateGrid (moveMonsters
          { g with playerPos := (t1, t2), moveCount := g.moveCount + 1 })).isBoundary
          (updateGrid (moveMonsters
            { g with playerPos := (t1, t2), moveCount := g.moveCount + 1 })).playerPos.1
          (updateGrid (moveMonsters
            { g with playerPos := (t1, t2), moveCount := g.moveCount + 1 })).playerPos.2 =
          true := hb
      have hres : processMove g move = (true, { (updateGrid (moveMonsters
          { g with playerPos := (t1, t2), moveCount := g.moveCount + 1 })) with
          gameOver := true, playerWon := true }) := by
        simp only [processMove, ht, hw1, Bool.not_true, Bool.false_eq_true, if_false, hcaught,
          hb1, if_true]
      rw [hres]
      refine ⟨rfl, rfl, rfl, hmons, fun h => absurd h hnm, fun _ _ => ⟨rfl, rfl⟩, ?_,
        rfl, rfl, rfl, rfl⟩
      intro _ h
      rw [hb] at h
      exact Bool.noConfusion h
    · have hb1 : ¬ (updateGrid (moveMonsters
          { g with playerPos := (t1, t2), moveCount := g.moveCount + 1 })).isBoundary
          (updateGrid (moveMonsters
            { g with playerPos := (t1, t2), moveCount := g.moveCount + 1 })).playerPos.1
          (updateGrid (moveMonsters
            { g with playerPos := (t1, t2), moveCount := g.moveCount + 1 })).playerPos.2 =
          true := hb
      have hres : processMove g move = (true, updateGrid (moveMonsters
          { g with playerPos := (t1, t2), moveCount := g.moveCount + 1 })) := by
        simp only [processMove, ht, hw1, Bool.not_true, Bool.false_eq_true, if_false, hcaught,
          hb1]
      rw [hres]
      exact ⟨rfl, rfl, rfl, hmons, fun h => absurd h hnm, fun _ h => absurd h hb,
        fun _ _ => ⟨rfl, rfl⟩, rfl, rfl, rfl, rfl⟩

/-- After an accepted move onto `t` a monster stands on `t` exactly when one stood there
before the move. -/
theorem caught_iff_occupied (g : Game) (move : Char) (t : Cell)
    (ht : moveTarget g.playerPos move = some t) (hw : g.isWalkable t.1 t.2 = true) :
    t ∈ (processMove g move).2.currentMonsterPositions ↔ t ∈ g.currentMonsterPositions := by
  rw [(processMove_accept g move t ht hw).2.2.2.1]
  exact pursuit_on_player_iff { g with playerPos := t, moveCount := g.moveCount + 1 }

/-- C11 (as stated) fails: in no running state does a move onto a walkable cell that no
monster occupies end the turn with the player caught, whether or not a monster is
4-adjacent to that cell. -/
theorem C11_same_turn_catch_counterexample :
    ¬ ∃ (g : Game) (move : Char) (t : Cell),
      g.gameOver = false ∧ moveTarget g.playerPos move = some t ∧
      g.isWalkable t.1 t.2 = true ∧ t ∉ g.currentMonsterPositions ∧
      (∃ mon, mon ∈ g.currentMonsterPositions ∧ adj4 t mon) ∧
      (processMove g move).2.gameOver = true ∧ (processMove g move).2.playerWon = false := by
  rintro ⟨g, move, t, hrun, ht, hw, hfree, -, hover, hlost⟩
  have hacc := processMove_accept g move t ht hw
  have hnot : t ∉ (processMove g move).2.currentMonsterPositions :=
    fun h => hfree ((caught_iff_occupied g move t ht hw).1 h)
  by_cases hb : g.isBoundary t.1 t.2 = true
  · have := (hacc.2.2.2.2.2.1 hnot hb).2
    rw [this] at hlost
    exact Bool.noConfusion hlost
  · have hb0 : g.isBoundary t.1 t.2 = false := by simpa using hb
    have := (hacc.2.2.2.2.2.2.1 hnot hb0).1
    rw [this, hrun] at hover
    exact Bool.noConfusion hover

/-- C11 (amended). After an accepted move onto a walkable cell `t`, a monster stands on `t`
exactly when one stood there before the move (`moveMonsters` never moves a monster onto the
player, and a monster the player walks onto stays put). So a move onto a cell a monster
occupies ends the turn with the player caught, and a move onto an unoccupied cell in a
running game never does. -/
theorem C11_catch_only_on_occupied_cell (g : Game) (move : Char) (t : Cell)
    (ht : moveTarget g.playerPos move = some t) (hw : g.isWalkable t.1 t.2 = true) :
    (t ∈ (processMove g move).2.currentMonsterPositions ↔ t ∈ g.currentMonsterPositions) ∧
    (t ∈ g.currentMonsterPositions →
      (processMove g move).2.gameOver = true ∧ (processMove g move).2.playerWon = false) ∧
    (t ∉ g.currentMonsterPositions → g.gameOver = false →
      ¬ ((processMove g move).2.gameOver = true ∧ (processMove g move).2.playerWon = false)) := by
  have hacc := processMove_accept g move t ht hw
  have hiff := caught_iff_occupied g move t ht hw
  refine ⟨hiff, fun h => hacc.2.2.2.2.1 (hiff.2 h), ?_⟩
  rintro hfree hrun ⟨hover, hlost⟩
  have hnot : t ∉ (processMove g move).2.currentMonsterPositions := fun h => hfree (hiff.1 h)
  by_cases hb : g.isBoundary t.1 t.2 = true
  · have := (hacc.2.2.2.2.2.1 hnot hb).2
    rw [this] at hlost
    exact Bool.noConfusion hlost
  · have hb0 : g.isBoundary t.1 t.2 = false := by simpa using hb
    have := (hacc.2.2.2.2.2.2.1 hnot hb0).1
    rw [this, hrun] at hover
    exact Bool.noConfusion hover

/-- C11 (amended) on the grid `AM`: the first move `R` of the game steps onto the monster's
cell `(0,1)` and the turn ends with the player caught. -/
theorem C11_catch_only_on_occupied_cell_witness :
    ∃ g3, computeOptimalSolution 5 (initGame 1 2 gridBeside) = some (true, g3) ∧
      g3.gameOver = false ∧ (0, 1) ∈ g3.currentMonsterPositions ∧
      (processMove g3 'R').2.gameOver = true ∧ (processMove g3 'R').2.playerWon = false :=
  ⟨_, rfl, rfl, by decide,
    (C11_catch_only_on_occupied_cell _ 'R' (0, 1) (by decide) (by decide)).2.1 (by decide)⟩

theorem processMove_gameOver (g : Game) (move : Char) (h : g.gameOver = true) :
    (processMove g move).2.gameOver = true := by
  rcases hm : moveTarget g.playerPos move with _ | t
  · rw [(processMove_reject g move).1 hm]; exact h
  · by_cases hw : g.isWalkable t.1 t.2 = true
    · have hacc := processMove_accept g move t hm hw
      by_cases hc : t ∈ (processMove g move).2.currentMonsterPositions
      · exact (hacc.2.2.2.2.1 hc).1
      · by_cases hb : g.isBoundary t.1 t.2 = true
        · exact (hacc.2.2.2.2.2.1 hc hb).1
        · have hb0 : g.isBoundary t.1 t.2 = false := by simpa using hb
          rw [(hacc.2.2.2.2.2.2.1 hc hb0).1]; exact h
    · have hw0 : g.isWalkable t.1 t.2 = false := by simpa using hw
      rw [(processMove_reject g move).2 t hm hw0]; exact h

theorem playGame_terminal (g : Game) (h : g.gameOver = true) :
    ∀ moves, playGame moves g = g := by
  intro moves
  cases moves with
  | nil => rfl
  | cons move rest => simp [playGame, h]

/-- C12 (as stated) fails: on the grid `A.M` the move `R` ends the game with the player
escaped, and a further `processMove` with `R` turns that outcome into caught. -/
theorem C12_terminal_absorbing_counterexample :
    (processMove (initGame 1 3 gridRow) 'R').2.gameOver = true ∧
    (processMove (initGame 1 3 gridRow) 'R').2.playerWon = true ∧
    (processMove (processMove (initGame 1 3 gridRow) 'R').2 'R').2.playerWon = false := by
  decide

/-- C12 (amended). `processMove` never turns `gameOver` from true to false, a rejected
move leaves the outcome as it was, and the loop of `playGame` applies no move at all once
`gameOver` is true, so inside the game loop a terminal state is never left. -/
theorem C12_terminal_states_in_game_loop (g : Game) (move : Char) :
    (g.gameOver = true → (processMove g move).2.gameOver = true) ∧
    ((processMove g move).1 = false → (processMove g move).2 = g) ∧
    (g.gameOver = true → ∀ moves, playGame moves g = g) := by
  refine ⟨processMove_gameOver g move, ?_, playGame_terminal g⟩
  intro hf
  rcases hm : moveTarget g.playerPos move with _ | t
  · rw [(processMove_reject g move).1 hm]
  · by_cases hw : g.isWalkable t.1 t.2 = true
    · rw [(processMove_accept g move t hm hw).1] at hf
      exact Bool.noConfusion hf
    · have hw0 : g.isWalkable t.1 t.2 = false := by simpa using hw
      rw [(processMove_reject g move).2 t hm hw0]

/-- C12 (amended) on the grid `A.M`: after the move `R` the player has escaped; a further
`processMove` keeps `gameOver` true, and the game loop leaves that state untouched. -/
theorem C12_terminal_states_in_game_loop_witness :
    (processMove (processMove (initGame 1 3 gridRow) 'R').2 'R').2.gameOver = true ∧
    playGame ['R', 'L'] (processMove (initGame 1 3 gridRow) 'R').2 =
      (processMove (initGame 1 3 gridRow) 'R').2 :=
  ⟨(C12_terminal_states_in_game_loop (processMove (initGame 1 3 gridRow) 'R').2 'R').1
      (by decide),
    (C12_terminal_states_in_game_loop (processMove (initGame 1 3 gridRow) 'R').2 'R').2.2
      (by decide) ['R', 'L']⟩

theorem findEscapePath_eq_any (g1 : Game)
    (hnb : g1.isBoundary g1.playerStart.1 g1.playerStart.2 = false) (fuel : Nat) :
    findEscapePath fuel g1 =
      (gLoop (escapeSearch g1) fuel
        ⟨set2 g1.playerDistance g1.playerStart.1 g1.playerStart.2 0, g1.parent,
          [g1.playerStart]⟩).map
        (fun r => (r.2.getD (-1, -1),
          { g1 with playerDistance := r.1.dist, parent := r.1.par })) := by
  have hnb1 : Game.isBoundary { g1 with playerDistance :=
      (set2 g1.playerDistance g1.playerStart.1 g1.playerStart.2 0) }
      g1.playerStart.1 g1.playerStart.2 = false := hnb
  simp only [findEscapePath, hnb1, Bool.false_eq_true, if_false]
  rw [escapeLoop_eq]
  have hP : escapeSearch { g1 with playerDistance :=
      (set2 g1.playerDistance g1.playerStart.1 g1.playerStart.2 0) } = escapeSearch g1 := rfl
  rw [hP]

theorem set2_idem {α : Type} (a : Int → Int → α) (i j : Int) (v : α) (h : a i j = v) :
    set2 a i j v = a := by
  funext r c
  by_cases hrc : r = i ∧ c = j
  · rw [hrc.1, hrc.2, set2_same, h]
  · rw [set2_other _ _ _ _ _ _ hrc]

theorem gScan_idle (P : Search) (p : Cell) (s : SState) : ∀ (ks : List Nat),
    (∀ k ∈ ks, ¬ (P.adm (nb p k).1 (nb p k).2 (s.dist p.1 p.2 + 1) = true ∧
      s.dist p.1 p.2 + 1 < s.dist (nb p k).1 (nb p k).2)) →
    gScan P p.1 p.2 ks s = (s, none) := by
  intro ks
  induction ks with
  | nil => intro _; rfl
  | cons k ks ih =>
    intro h
    have hk := h k (List.mem_cons_self _ _)
    simp only [nb] at hk
    simp only [gScan, hk, if_false]
    exact ih (fun j hj => h j (List.mem_cons_of_mem _ hj))

theorem gScan_rerun {P : Search} {src : Cell → Prop} {e : Cell} (p : Cell) :
    ∀ (ks : List Nat) (s : SState), (∀ k ∈ ks, k < 4) → Rerun P src e s →
      s.dist p.1 p.2 < INF →
      (gScan P p.1 p.2 ks s).2 ≠ some e ∧ Rerun P src e (gScan P p.1 p.2 ks s).1 := by
  intro ks
  induction ks with
  | nil => intro s _ hs _; exact ⟨by simp [gScan], hs⟩
  | cons k ks ih =>
    intro s hks hs hp
    have hk := hks k (List.mem_cons_self _ _)
    have hks1 : ∀ j ∈ ks, j < 4 := fun j hj => hks j (List.mem_cons_of_mem _ hj)
    by_cases hc : P.adm (nb p k).1 (nb p k).2 (s.dist p.1 p.2 + 1) = true ∧
        s.dist p.1 p.2 + 1 < s.dist (nb p k).1 (nb p k).2
    · have hp0 := hs.nonneg p.1 p.2
      have hcast : (((s.dist p.1 p.2).toNat + 1 : Nat) : Int) = s.dist p.1 p.2 + 1 := by omega
      have hreach : Reach P src ((s.dist p.1 p.2).toNat + 1) (nb p k) :=
        @Reach.step P src _ _ k hk (hs.sound p.1 p.2 hp) (by rw [hcast]; exact hc.1)
      have hne : nb p k ≠ e := by
        intro he
        have := hs.least _ (he ▸ hreach)
        rw [← he] at this
        omega
      have hnp : ¬ (p.1 = (nb p k).1 ∧ p.2 = (nb p k).2) := by
        rintro ⟨h1, h2⟩
        rw [← h1, ← h2] at hc
        omega
      have hs1 : Rerun P src e
          ⟨set2 s.dist (nb p k).1 (nb p k).2 (s.dist p.1 p.2 + 1),
            set2 s.par (nb p k).1 (nb p k).2 (dir.getD k (Char.ofNat 0)), s.q ++ [nb p k]⟩ := by
        have hle := hs.le_inf (nb p k).1 (nb p k).2
        refine ⟨?_, ?_, ?_, ?_, ?_⟩
        · intro r c
          show 0 ≤ set2 s.dist _ _ _ r c
          by_cases h : r = (nb p k).1 ∧ c = (nb p k).2
          · rw [h.1, h.2, set2_same]; omega
          · rw [set2_other _ _ _ _ _ _ h]; exact hs.nonneg r c
        · intro r c
          show set2 s.dist _ _ _ r c ≤ INF
          by_cases h : r = (nb p k).1 ∧ c = (nb p k).2
          · rw [h.1, h.2, set2_same]; omega
          · rw [set2_other _ _ _ _ _ _ h]; exact hs.le_inf r c
        · intro r c
          show set2 s.dist _ _ _ r c < INF → Reach P src (set2 s.dist _ _ _ r c).toNat (r, c)
          by_cases h : r = (nb p k).1 ∧ c = (nb p k).2
          · rw [h.1, h.2, set2_same]
            intro _
            have ht : (s.dist p.1 p.2 + 1).toNat = (s.dist p.1 p.2).toNat + 1 := by omega
            rw [ht]; exact hreach
          · rw [set2_other _ _ _ _ _ _ h]; exact hs.sound r c
        · intro x hx
          show set2 s.dist _ _ _ x.1 x.2 < INF
          rw [List.mem_append, List.mem_singleton] at hx
          by_cases h : x.1 = (nb p k).1 ∧ x.2 = (nb p k).2
          · rw [h.1, h.2, set2_same]
            omega
          · rw [set2_other _ _ _ _ _ _ h]
            rcases hx with hx | hx
            · exact hs.qfin x hx
            · exact absurd (by rw [hx]; exact ⟨rfl, rfl⟩) h
        · intro t ht
          show set2 s.dist _ _ _ e.1 e.2 ≤ _
          rw [set2_other]
          · exact hs.least t ht
          · rintro ⟨h1, h2⟩
            exact hne (Prod.ext h1.symm h2.symm)
      have hp1 : set2 s.dist (nb p k).1 (nb p k).2 (s.dist p.1 p.2 + 1) p.1 p.2 < INF := by
        rw [set2_other _ _ _ _ _ _ hnp]; exact hp
      have hc1 := hc
      simp only [nb] at hc1
      by_cases hst : P.stop (nb p k).1 (nb p k).2 = true
      · have hst1 := hst
        simp only [nb] at hst1
        have hg : gScan P p.1 p.2 (k :: ks) s =
            (⟨set2 s.dist (nb p k).1 (nb p k).2 (s.dist p.1 p.2 + 1),
              set2 s.par (nb p k).1 (nb p k).2 (dir.getD k (Char.ofNat 0)), s.q ++ [nb p k]⟩,
              some (nb p k)) := by
          simp only [gScan, nb, hc1, hst1, and_self, if_true]
        rw [hg]
        exact ⟨fun h => hne (Option.some.inj h), hs1⟩
      · have hst0 : P.stop (nb p k).1 (nb p k).2 = false := by simpa using hst
        have hst1 := hst0
        simp only [nb] at hst1
        have hg : gScan P p.1 p.2 (k :: ks) s = gScan P p.1 p.2 ks
            ⟨set2 s.dist (nb p k).1 (nb p k).2 (s.dist p.1 p.2 + 1),
              set2 s.par (nb p k).1 (nb p k).2 (dir.getD k (Char.ofNat 0)), s.q ++ [nb p k]⟩ := by
          simp only [gScan, nb, hc1, hst1, and_self, if_true, Bool.false_eq_true, if_false]
        rw [hg]
        exact ih _ hks1 hs1 hp1
    · have hc1 := hc
      simp only [nb] at hc1
      have hg : gScan P p.1 p.2 (k :: ks) s = gScan P p.1 p.2 ks s := by
        simp only [gScan, nb, hc1, if_false]
      rw [hg]
      exact ih s hks1 hs hp

theorem gLoop_rerun {P : Search} {src : Cell → Prop} {e : Cell} :
    ∀ (fuel : Nat) (s : SState), Rerun P src e s →
      ∀ r, gLoop P fuel s = some r → r.2 ≠ some e := by
  intro fuel
  induction fuel with
  | zero =>
    intro s _ r h
    obtain ⟨d, par, q⟩ := s
    cases q with
    | nil =>
      simp only [gLoop, Option.some.injEq] at h
      rw [← h]; simp
    | cons p rest => simp [gLoop] at h
  | succ fuel ih =>
    intro s hs r h
    obtain ⟨d, par, q⟩ := s
    cases q with
    | nil =>
      simp only [gLoop, Option.some.injEq] at h
      rw [← h]; simp
    | cons p rest =>
      have hs0 : Rerun P src e ⟨d, par, rest⟩ :=
        ⟨hs.nonneg, hs.le_inf, hs.sound, fun x hx => hs.qfin x (List.mem_cons_of_mem _ hx),
          hs.least⟩
      obtain ⟨h1, h2⟩ := gScan_rerun (e := e) p [0, 1, 2, 3] ⟨d, par, rest⟩
        (by intro k hk; simp at hk; omega) hs0 (hs.qfin p (List.mem_cons_self _ _))
      simp only [gLoop] at h
      rcases hsc : gScan P p.1 p.2 [0, 1, 2, 3] ⟨d, par, rest⟩ with ⟨s1, _ | e1⟩
      · rw [hsc] at h h2
        simp only at h
        exact ih s1 h2 r h
      · rw [hsc] at h h1
        simp only [Option.some.injEq] at h
        rw [← h]
        exact h1

theorem recon_congr (g g1 : Game) (hp : g.parent = g1.parent)
    (hs : g.playerStart = g1.playerStart) : ∀ (fuel : Nat) (r c : Int) (acc : List Char),
    reconstructLoop g fuel r c acc = reconstructLoop g1 fuel r c acc := by
  intro fuel
  induction fuel with
  | zero =>
    intro r c acc
    rw [reconstructLoop.eq_def, reconstructLoop.eq_def, hs]
  | succ fuel ih =>
    intro r c acc
    rw [reconstructLoop, reconstructLoop, hs, hp]
    simp only [ih]

theorem reconstructPath_congr (g g1 : Game) (hp : g.parent = g1.parent)
    (hs : g.playerStart = g1.playerStart) (fuel : Nat) (e : Cell) :
    reconstructPath fuel g e = reconstructPath fuel g1 e := by
  simp only [reconstructPath]
  rw [recon_congr g g1 hp hs]

/-- C13 (as stated) fails: on the open 3x3 grid with a monster in the lower right corner
the first call returns `(0,1)` with path `U`; run again on the state it left behind,
`findEscapePath` returns `(1,0)` and `reconstructPath` gives `L`. -/
theorem C13_solver_idempotence_counterexample :
    ∃ g1 g2 g4, computeMonsterDistances 20 (initGame 3 3 gridOpen3) = some g1 ∧
      findEscapePath 20 g1 = some ((0, 1), g2) ∧ reconstructPath 20 g2 (0, 1) = some ['U'] ∧
      findEscapePath 20 g2 = some ((1, 0), g4) ∧ reconstructPath 20 g4 (1, 0) = some ['L'] :=
  ⟨_, _, _, rfl, rfl, by decide!, rfl, by decide!⟩

/-- C13 (amended). A second `findEscapePath` on the state the first call left behind
returns the same cell (and `reconstructPath` the same path) when the player start is a
boundary cell or the first call returned `(-1,-1)`; when the first call returned an escape
cell from a start that is not on the boundary, the second call never returns that cell
again, because the player distances of the first call are still in the table. -/
theorem C13_second_run_of_solver (n m : Nat) (stream : List Char) (fuel1 fuel2 : Nat)
    (g1 g2 : Game) (e : Cell)
    (h1 : computeMonsterDistances fuel1 (initGame n m stream) = some g1)
    (h2 : findEscapePath fuel2 g1 = some (e, g2)) :
    (g1.isBoundary g1.playerStart.1 g1.playerStart.2 = true ∨ e = (-1, -1) →
      ∀ fuel, 1 ≤ fuel → ∃ g4, findEscapePath fuel g2 = some (e, g4) ∧
        ∀ fuel3, reconstructPath fuel3 g4 e = reconstructPath fuel3 g2 e) ∧
    (g1.isBoundary g1.playerStart.1 g1.playerStart.2 = false → e ≠ (-1, -1) →
      ∀ fuel e2 g4, findEscapePath fuel g2 = some (e2, g4) → e2 ≠ e) := by
  have hi := initGame_init n m stream
  generalize initGame n m stream = g0 at hi h1
  obtain ⟨d1, parM, rfl, -, -⟩ := monster_post hi fuel1 g1 h1
  obtain ⟨pd, par, rfl, hb, hcase⟩ := escape_full (n := n) (m := m)
    { g0 with monsterDistance := d1 } hi.rows hi.cols hi.pd hi.par fuel2 e g2 h2
  have hs0 : pd g0.playerStart.1 g0.playerStart.2 = 0 := hb.src0 _ _ rfl
  have hidem : set2 pd g0.playerStart.1 g0.playerStart.2 0 = pd := set2_idem _ _ _ _ hs0
  constructor
  · intro hor fuel hfuel
    by_cases hnb : g0.isBoundary g0.playerStart.1 g0.playerStart.2 = true
    · have he : e = g0.playerStart := by
        rcases hcase with ⟨-, hf, -⟩ | ⟨-, -, -, hes, -⟩
        · have hf1 : g0.isBoundary g0.playerStart.1 g0.playerStart.2 = false := hf
          rw [hnb] at hf1
          exact Bool.noConfusion hf1
        · exact hes hnb
      subst he
      refine ⟨_, findEscapePath_boundary
        { g0 with monsterDistance := d1, playerDistance := pd, parent := par } fuel hnb, ?_⟩
      intro fuel3
      apply reconstructPath_congr
      · rfl
      · rfl
    · have hnb0 : g0.isBoundary g0.playerStart.1 g0.playerStart.2 = false := by simpa using hnb
      have he : e = (-1, -1) := by
        rcases hor with h | h
        · exact absurd h hnb
        · exact h
      have hcl : ∀ i j, pd i j < INF →
          Closed (escapeSearch { g0 with monsterDistance := d1 }) pd (i, j) := by
        rcases hcase with ⟨-, -, -, hcl⟩ | ⟨hne, -⟩
        · exact hcl
        · exact absurd he hne
      obtain ⟨f, rfl⟩ : ∃ f, fuel = f + 1 := ⟨fuel - 1, by omega⟩
      have hidle := gScan_idle (escapeSearch { g0 with monsterDistance := d1 }) g0.playerStart
        ⟨pd, par, []⟩ [0, 1, 2, 3] (by
          intro k hk
          have hk4 : k < 4 := by simp at hk; omega
          rintro ⟨ha, hlt⟩
          have := hcl g0.playerStart.1 g0.playerStart.2 (by rw [hs0, INF_eq]; omega) k hk4 ha
          have hlt1 : pd g0.playerStart.1 g0.playerStart.2 + 1 <
            pd (nb g0.playerStart k).1 (nb g0.playerStart k).2 := hlt
          have this1 : pd (nb g0.playerStart k).1 (nb g0.playerStart k).2 ≤
            pd g0.playerStart.1 g0.playerStart.2 + 1 := this
          omega)
      have hloop : gLoop (escapeSearch { g0 with monsterDistance := d1 }) (f + 1)
          ⟨pd, par, [g0.playerStart]⟩ = some (⟨pd, par, []⟩, none) := by
        simp only [gLoop, hidle]
        cases f <;> rfl
      have hfe := findEscapePath_eq_any
        { g0 with monsterDistance := d1, playerDistance := pd, parent := par } hnb0 (f + 1)
      have hP : escapeSearch
          { g0 with monsterDistance := d1, playerDistance := pd, parent := par } =
          escapeSearch { g0 with monsterDistance := d1 } := rfl
      rw [hP] at hfe
      dsimp only at hfe
      rw [hidem, hloop] at hfe
      refine ⟨_, by rw [hfe, he]; rfl, ?_⟩
      intro fuel3
      apply reconstructPath_congr
      · rfl
      · rfl
  · intro hnb0 hne fuel e2 g4 h4
    have hnb1 : g0.isBoundary g0.playerStart.1 g0.playerStart.2 = false := hnb0
    obtain ⟨hfin, hbe, hmin⟩ : pd e.1 e.2 < INF ∧ g0.isBoundary e.1 e.2 = true ∧
        ∀ t c, Reach (escapeSearch { g0 with monsterDistance := d1 })
          (fun c => c = g0.playerStart) t c → g0.isBoundary c.1 c.2 = true → pd e.1 e.2 ≤ t := by
      rcases hcase with ⟨he, -⟩ | ⟨-, c1, c2, -, c4⟩
      · exact absurd he hne
      · exact ⟨c1, c2, c4 hnb1⟩
    have hrr : Rerun (escapeSearch { g0 with monsterDistance := d1 })
        (fun c => c = g0.playerStart) e ⟨pd, par, [g0.playerStart]⟩ := by
      refine ⟨hb.nonneg, hb.le_inf, hb.sound, ?_, fun t ht => hmin t e ht hbe⟩
      intro x hx
      rw [List.mem_singleton] at hx
      subst hx
      show pd g0.playerStart.1 g0.playerStart.2 < INF
      rw [hs0, INF_eq]; omega
    have hfe := findEscapePath_eq_any
      { g0 with monsterDistance := d1, playerDistance := pd, parent := par } hnb1 fuel
    have hP : escapeSearch
        { g0 with monsterDistance := d1, playerDistance := pd, parent := par } =
        escapeSearch { g0 with monsterDistance := d1 } := rfl
    rw [hP] at hfe
    dsimp only at hfe
    rw [hidem] at hfe
    rw [hfe] at h4
    rcases hl : gLoop (escapeSearch { g0 with monsterDistance := d1 }) fuel
      ⟨pd, par, [g0.playerStart]⟩ with _ | r
    · rw [hl] at h4; simp at h4
    · rw [hl] at h4
      simp only [Option.map_some', Option.some.injEq, Prod.mk.injEq] at h4
      have hr := gLoop_rerun fuel _ hrr r hl
      intro he2
      rw [← h4.1] at he2
      cases hr2 : r.2 with
      | none =>
        rw [hr2] at he2
        exact hne he2.symm
      | some x =>
        rw [hr2] at he2 hr
        exact hr (congrArg some he2)

/-- C13 (amended) at Scenario A: the first call finds no escape, and so does a second call
on the state it left behind. -/
theorem C13_second_run_of_solver_witness :
    ∃ g1 g2, computeMonsterDistances 5 (initGame 3 3 gridEnclosed) = some g1 ∧
      findEscapePath 5 g1 = some ((-1, -1), g2) ∧
      ∃ g4, findEscapePath 3 g2 = some ((-1, -1), g4) ∧
        ∀ fuel3, reconstructPath fuel3 g4 (-1, -1) = reconstructPath fuel3 g2 (-1, -1) :=
  ⟨_, _, rfl, rfl,
    (C13_second_run_of_solver 3 3 gridEnclosed 5 5 _ _ (-1, -1) rfl rfl).1 (Or.inr rfl) 3
      (by decide)⟩

theorem readCell_extra {S : List Char} {seen : Cell → Prop} (i j : Int)
    (s : Game × List Char) (hi : ReadExtra S seen s) (hns : ¬ seen (i, j)) :
    ReadExtra S (fun x => seen x ∨ x = (i, j)) (readCell i j s) := by
  obtain ⟨g, st⟩ := s
  have hch : st.headD (g.originalGrid i j) = Char.ofNat 0 ∨ st.headD (g.originalGrid i j) ∈ S := by
    cases st with
    | nil => exact hi.grid i j
    | cons a rest => right; exact hi.sub a (List.mem_cons_self _ _)
  have hsub : ∀ x ∈ st.tail, x ∈ S := fun x hx => hi.sub x (List.mem_of_mem_tail hx)
  have hgrid : ∀ r c, set2 g.originalGrid i j (st.headD (g.originalGrid i j)) r c = Char.ofNat 0 ∨
      set2 g.originalGrid i j (st.headD (g.originalGrid i j)) r c ∈ S := by
    intro r c
    by_cases h : r = i ∧ c = j
    · rw [h.1, h.2, set2_same]; exact hch
    · rw [set2_other _ _ _ _ _ _ h]; exact hi.grid r c
  by_cases hA : st.headD (g.originalGrid i j) = 'A'
  · have hres : readCell i j (g, st) =
        ({ g with originalGrid := set2 g.originalGrid i j (st.headD (g.originalGrid i j)),
                  playerStart := (i, j), playerPos := (i, j) }, st.tail) := by
      simp only [readCell, hA, if_true]
    rw [hres]
    refine ⟨hsub, hgrid, rfl, Or.inr ?_, hi.count0, hi.over, hi.won, hi.nodup,
      fun x hx => Or.inl (hi.monsSeen x hx)⟩
    rcases hch with h | h
    · rw [hA] at h; exact absurd h (by decide)
    · rw [hA] at h; exact h
  · by_cases hM : st.headD (g.originalGrid i j) = 'M'
    · have hres : readCell i j (g, st) =
          ({ g with originalGrid := set2 g.originalGrid i j (st.headD (g.originalGrid i j)),
                    originalMonsterPositions := g.originalMonsterPositions ++ [(i, j)],
                    monsterDistance := set2 g.monsterDistance i j 0 }, st.tail) := by
        simp only [readCell, hA, hM, if_true, if_false]
        simp
      rw [hres]
      refine ⟨hsub, hgrid, hi.pos, hi.startA, hi.count0, hi.over, hi.won, ?_, ?_⟩
      · show (g.originalMonsterPositions ++ [(i, j)]).Nodup
        rw [List.nodup_append]
        refine ⟨hi.nodup, List.nodup_singleton _, ?_⟩
        intro a ha hb
        rw [List.mem_singleton] at hb
        rw [hb] at ha
        exact hns (hi.monsSeen _ ha)
      · intro x hx
        have hx1 : x ∈ g.originalMonsterPositions ++ [(i, j)] := hx
        rw [List.mem_append, List.mem_singleton] at hx1
        rcases hx1 with h | h
        · exact Or.inl (hi.monsSeen x h)
        · exact Or.inr h
    · have hres : readCell i j (g, st) =
          ({ g with originalGrid := set2 g.originalGrid i j (st.headD (g.originalGrid i j)) },
            st.tail) := by
        simp only [readCell, hA, hM, if_false]
      rw [hres]
      exact ⟨hsub, hgrid, hi.pos, hi.startA, hi.count0, hi.over, hi.won, hi.nodup,
        fun x hx => Or.inl (hi.monsSeen x hx)⟩

theorem readRow_extra {S : List Char} (i : Int) : ∀ (js : List Nat) (s : Game × List Char)
    (seen : Cell → Prop), ReadExtra S seen s → (∀ j ∈ js, ¬ seen (i, (j : Int))) → js.Nodup →
    ReadExtra S (fun x => seen x ∨ ∃ j ∈ js, x = (i, (j : Int)))
      (js.foldl (fun (s : Game × List Char) (j : Nat) => readCell i (j : Int) s) s) := by
  intro js
  induction js with
  | nil =>
    intro s seen hi _ _
    have e : (fun x => seen x ∨ ∃ j ∈ ([] : List Nat), x = (i, (j : Int))) = seen := by
      funext x; simp
    rw [e]; exact hi
  | cons j js ih =>
    intro s seen hi hns hnd
    rw [List.nodup_cons] at hnd
    have h1 := readCell_extra i (j : Int) s hi (hns j (List.mem_cons_self _ _))
    have h2 := ih (readCell i j s) _ h1 (by
      intro j1 hj1
      rintro (h | h)
      · exact hns j1 (List.mem_cons_of_mem _ hj1) h
      · rw [Prod.mk.injEq] at h
        have : j1 = j := by exact_mod_cast h.2
        rw [this] at hj1
        exact hnd.1 hj1) hnd.2
    rw [List.foldl_cons]
    have e : (fun x => (seen x ∨ x = (i, (j : Int))) ∨ ∃ j1 ∈ js, x = (i, (j1 : Int))) =
        (fun x => seen x ∨ ∃ j1 ∈ j :: js, x = (i, (j1 : Int))) := by
      funext x
      simp only [List.mem_cons, exists_eq_or_imp, or_assoc]
    rw [← e]; exact h2

theorem readRows_extra {S : List Char} (cols : Nat) : ∀ (is : List Nat) (s : Game × List Char)
    (seen : Cell → Prop), ReadExtra S seen s →
    (∀ i ∈ is, ∀ j, ¬ seen ((i : Int), j)) → is.Nodup →
    ReadExtra S
      (fun x => seen x ∨ ∃ i ∈ is, ∃ j ∈ List.range cols, x = ((i : Int), (j : Int)))
      (is.foldl (fun (s : Game × List Char) (i : Nat) => (List.range cols).foldl
        (fun (s : Game × List Char) (j : Nat) => readCell (i : Int) (j : Int) s) s) s) := by
  intro is
  induction is with
  | nil =>
    intro s seen hi _ _
    have e : (fun x => seen x ∨ ∃ i ∈ ([] : List Nat), ∃ j ∈ List.range cols,
        x = ((i : Int), (j : Int))) = seen := by
      funext x; simp
    rw [e]; exact hi
  | cons i is ih =>
    intro s seen hi hns hnd
    rw [List.nodup_cons] at hnd
    have h1 := readRow_extra (S := S) (i : Int) (List.range cols) s seen hi
      (fun j _ => hns i (List.mem_cons_self _ _) j) (List.nodup_range cols)
    have h2 := ih _ _ h1 (by
      intro i1 hi1 j
      rintro (h | ⟨j1, _, h⟩)
      · exact hns i1 (List.mem_cons_of_mem _ hi1) j h
      · rw [Prod.mk.injEq] at h
        have : i1 = i := by exact_mod_cast h.1
        rw [this] at hi1
        exact hnd.1 hi1) hnd.2
    rw [List.foldl_cons]
    have e : (fun x => (seen x ∨ ∃ j ∈ List.range cols, x = ((i : Int), (j : Int))) ∨
        ∃ i1 ∈ is, ∃ j ∈ List.range cols, x = ((i1 : Int), (j : Int))) =
        (fun x => seen x ∨ ∃ i1 ∈ i :: is, ∃ j ∈ List.range cols,
          x = ((i1 : Int), (j : Int))) := by
      funext x
      simp only [List.mem_cons, exists_eq_or_imp, or_assoc]
    rw [← e]; exact h2

theorem initGame_extra (n m : Nat) (stream : List Char) :
    InitExtra stream (initGame n m stream) := by
  have h0 : ReadExtra stream (fun _ => False) (MonsterEscapeGame n m, stream) := by
    refine ⟨fun x hx => hx, fun r c => Or.inl rfl, rfl, Or.inl rfl, rfl, rfl, rfl, ?_, ?_⟩
    · exact List.nodup_nil
    · intro x hx
      simp [MonsterEscapeGame] at hx
  have h1 := readRows_extra (S := stream) m (List.range n) (MonsterEscapeGame n m, stream) _ h0
    (fun _ _ _ h => h) (List.nodup_range n)
  have e : initGame n m stream =
      { ((List.range n).foldl (fun (s : Game × List Char) (i : Nat) => (List.range m).foldl
          (fun (s : Game × List Char) (j : Nat) => readCell (i : Int) (j : Int) s) s)
          (MonsterEscapeGame n m, stream)).1 with
        currentGrid := ((List.range n).foldl
          (fun (s : Game × List Char) (i : Nat) => (List.range m).foldl
          (fun (s : Game × List Char) (j : Nat) => readCell (i : Int) (j : Int) s) s)
          (MonsterEscapeGame n m, stream)).1.originalGrid
        currentMonsterPositions := ((List.range n).foldl
          (fun (s : Game × List Char) (i : Nat) => (List.range m).foldl
          (fun (s : Game × List Char) (j : Nat) => readCell (i : Int) (j : Int) s) s)
          (MonsterEscapeGame n m, stream)).1.originalMonsterPositions } := by
    simp [initGame, readInput, MonsterEscapeGame]
  rw [e]
  exact ⟨h1.grid, h1.pos, h1.startA, h1.count0, h1.over, h1.won, h1.nodup, rfl⟩

theorem column_solution (fuel : Nat) :
    (computeOptimalSolution fuel (initGame 5 1 gridColumn)).map
      (fun r => (r.1, r.2.escapePoint, r.2.optimalPath, r.2.optimalPathLength)) =
      some (true, ((1 : Int), (0 : Int)), [], 0) := by
  cases fuel <;> rfl

/-- C14 (counterexample): on the 5x1 column grid `.A...` no run of `computeOptimalSolution`
succeeds with a path of length 1, nor with the single move `U`, nor with escape cell
`(0,0)`. -/
theorem C14_column_grid_counterexample :
    ¬ ∃ (fuel : Nat) (g3 : Game),
      computeOptimalSolution fuel (initGame 5 1 gridColumn) = some (true, g3) ∧
      (g3.optimalPathLength = 1 ∨ g3.optimalPath = ['U'] ∨ g3.escapePoint = (0, 0)) := by
  rintro ⟨fuel, g3, h, hc⟩
  have hs := column_solution fuel
  rw [h] at hs
  simp only [Option.map_some', Option.some.injEq, Prod.mk.injEq] at hs
  obtain ⟨_, he, hp, hl⟩ := hs
  rcases hc with h1 | h1 | h1
  · rw [hl] at h1; exact absurd h1 (by decide)
  · rw [hp] at h1; exact absurd h1 (by decide)
  · rw [he] at h1; exact absurd h1 (by decide)

/-- C14 (amended): on the 5x1 column grid `.A...` the player starts at `(1,0)`, every cell
of the single column is a boundary cell, and `computeOptimalSolution` succeeds for every
fuel with the empty path of length 0 and escape cell `(1,0)`, the start itself. -/
theorem C14_column_grid_immediate_escape :
    (initGame 5 1 gridColumn).playerStart = (1, 0) ∧
    (initGame 5 1 gridColumn).originalMonsterPositions = [] ∧
    (∀ r : Int, 0 ≤ r → r < 5 → (initGame 5 1 gridColumn).isBoundary r 0 = true) ∧
    ∀ fuel : Nat, (computeOptimalSolution fuel (initGame 5 1 gridColumn)).map
      (fun r => (r.1, r.2.escapePoint, r.2.optimalPath, r.2.optimalPathLength)) =
      some (true, ((1 : Int), (0 : Int)), [], 0) := by
  refine ⟨rfl, rfl, ?_, column_solution⟩
  intro r h0 h5
  have hr : (initGame 5 1 gridColumn).rows = 5 := rfl
  have hc : (initGame 5 1 gridColumn).cols = 1 := rfl
  simp only [Game.isBoundary, Game.isValid, hr, hc]
  simp [h0, h5]

/-- C15 (counterexample): `readInput` does not fail on a stream without `'A'` or with two
`'A'` symbols: on the 1x2 stream `..` it yields a running game whose player start is the
default `(0,0)`, and on the 1x2 stream `AA` a running game whose player start is the last
`'A'` read, `(0,1)`. -/
theorem C15_malformed_grid_counterexample :
    (gridNoPlayer.length = 1 * 2 ∧ gridNoPlayer.count 'A' = 0 ∧
      (initGame 1 2 gridNoPlayer).playerStart = (0, 0) ∧
      (initGame 1 2 gridNoPlayer).playerPos = (0, 0) ∧
      (initGame 1 2 gridNoPlayer).gameOver = false) ∧
    (gridTwoPlayers.length = 1 * 2 ∧ gridTwoPlayers.count 'A' = 2 ∧
      (initGame 1 2 gridTwoPlayers).playerStart = (0, 1) ∧
      (initGame 1 2 gridTwoPlayers).playerPos = (0, 1) ∧
      (initGame 1 2 gridTwoPlayers).gameOver = false) := by
  refine ⟨⟨rfl, rfl, rfl, rfl, rfl⟩, ⟨rfl, rfl, rfl, rfl, rfl⟩⟩

/-- C15 (amended): `readInput` performs no validation and always yields a game state: for
every symbol stream the game is running with no move made and the player standing on the
player start; with no `'A'` in the stream the start is the default `(0,0)`, and as soon as
some cell holds `'A'` (one or several) the start is an in-grid cell holding `'A'`. -/
theorem C15_read_input_accepts_every_stream (n m : Nat) (stream : List Char) :
    (initGame n m stream).playerPos = (initGame n m stream).playerStart ∧
    (initGame n m stream).gameOver = false ∧
    (initGame n m stream).playerWon = false ∧
    (initGame n m stream).moveCount = 0 ∧
    ('A' ∉ stream → (initGame n m stream).playerStart = (0, 0)) ∧
    ((∃ r c, (initGame n m stream).originalGrid r c = 'A') →
      (initGame n m stream).isValid (initGame n m stream).playerStart.1
        (initGame n m stream).playerStart.2 = true ∧
      (initGame n m stream).originalGrid (initGame n m stream).playerStart.1
        (initGame n m stream).playerStart.2 = 'A') := by
  have hx := initGame_extra n m stream
  have hi := initGame_init n m stream
  refine ⟨hx.pos, hx.over, hx.won, hx.count0, ?_, ?_⟩
  · intro hA
    rcases hx.startA with h | h
    · exact h
    · exact absurd h hA
  · rintro ⟨r, c, h⟩
    exact hi.hasA r c h

theorem reads_step (g : Game) (fuel : Nat) (r c : Int) (k : Nat) (hk : k < 4)
    (hne : (r, c) ≠ g.playerStart) (hpar : g.parent r c = dir.getD k (Char.ofNat 0)) :
    reconstructReads g (fuel + 1) r c =
      (r, c) :: reconstructReads g fuel (r - row_directions.getD k 0)
        (c - col_directions.getD k 0) := by
  have hk4 : k = 0 ∨ k = 1 ∨ k = 2 ∨ k = 3 := by omega
  rcases hk4 with e | e | e | e <;> subst e
  · have hp : g.parent r c = 'U' := hpar
    rw [reconstructReads]
    simp [hne, hp, row_directions, col_directions]
  · have hp : g.parent r c = 'D' := hpar
    rw [reconstructReads]
    simp [hne, hp, row_directions, col_directions]
  · have hp : g.parent r c = 'R' := hpar
    rw [reconstructReads]
    simp [hne, hp, row_directions, col_directions]
  · have hp : g.parent r c = 'L' := hpar
    rw [reconstructReads]
    simp [hne, hp, row_directions, col_directions]

theorem dir_mem (k : Nat) (hk : k < 4) : dir.getD k (Char.ofNat 0) ∈ ['U', 'D', 'L', 'R'] := by
  have hk4 : k = 0 ∨ k = 1 ∨ k = 2 ∨ k = 3 := by omega
  rcases hk4 with e | e | e | e <;> subst e <;> decide

/-- The backward walk from a cell at distance `k` makes exactly `k` reads when the fuel
allows it, runs out of fuel below `k`, and reads only reached non-start cells. -/
theorem recon_reads (g : Game) (P : Search) (n m : Nat) (d : Int → Int → Int)
    (hb : Base P (fun c => c = g.playerStart) n m d g.parent) :
    ∀ (k fuel : Nat) (r c : Int), d r c = k → (k : Int) < INF →
      (∀ acc, fuel < k → reconstructLoop g fuel r c acc = none) ∧
      (k ≤ fuel → (reconstructReads g fuel r c).length = k) ∧
      ∀ x ∈ reconstructReads g fuel r c, x ≠ g.playerStart ∧ d x.1 x.2 < INF ∧
        P.adm x.1 x.2 (d x.1 x.2) = true ∧ g.parent x.1 x.2 ∈ ['U', 'D', 'L', 'R'] := by
  intro k
  induction k with
  | zero =>
    intro fuel r c hd _
    have hr := hb.sound r c (by rw [hd, INF_eq]; simp)
    rw [hd] at hr
    have hr0 : Reach P (fun c => c = g.playerStart) 0 (r, c) := hr
    have hs : (r, c) = g.playerStart := @reach_zero P (fun c => c = g.playerStart) _ hr0
    have e : reconstructReads g fuel r c = [] := by
      rw [reconstructReads.eq_def]
      simp [hs]
    rw [e]
    refine ⟨fun _ h => absurd h (by omega), fun _ => rfl, ?_⟩
    intro x hx
    exact absurd hx (List.not_mem_nil _)
  | succ k ih =>
    intro fuel r c hd hlt
    have hfin : d r c < INF := by rw [hd]; exact hlt
    have hne : (r, c) ≠ g.playerStart := by
      intro h
      have := hb.src0 r c h
      rw [hd] at this
      push_cast at this
      omega
    obtain ⟨j, hj, hpar, hpred, hadm⟩ := hb.par_ok r c hfin hne
    have hdp : d (r - row_directions.getD j 0) (c - col_directions.getD j 0) = (k : Int) := by
      rw [hd] at hpred
      push_cast at hpred
      omega
    cases fuel with
    | zero =>
      have e : reconstructReads g 0 r c = [] := by
        rw [reconstructReads.eq_def]
        simp [hne]
      rw [e]
      refine ⟨?_, fun h => absurd h (by omega), ?_⟩
      · intro acc _
        rw [reconstructLoop.eq_def]
        simp [hne]
      · intro x hx
        exact absurd hx (List.not_mem_nil _)
    | succ fuel1 =>
      obtain ⟨h1, h2, h3⟩ := ih fuel1 _ _ hdp (by push_cast at hlt; omega)
      rw [reads_step g fuel1 r c j hj hne hpar]
      refine ⟨?_, ?_, ?_⟩
      · intro acc hf
        rw [(recon_step g fuel1 r c acc j hj hne hpar).1]
        exact h1 _ (by omega)
      · intro hf
        rw [List.length_cons, h2 (by omega)]
      · intro x hx
        rw [List.mem_cons] at hx
        rcases hx with hx | hx
        · subst hx
          refine ⟨hne, hfin, hadm, ?_⟩
          show g.parent r c ∈ ['U', 'D', 'L', 'R']
          rw [hpar]
          exact dir_mem j hj
        · exact h3 x hx

theorem reads_congr (g g1 : Game) (hs : g1.playerStart = g.playerStart)
    (hp : g1.parent = g.parent) : ∀ (fuel : Nat) (r c : Int),
    reconstructReads g1 fuel r c = reconstructReads g fuel r c := by
  intro fuel
  induction fuel with
  | zero =>
    intro r c
    rw [reconstructReads.eq_def, reconstructReads.eq_def g]
    simp [hs]
  | succ fuel ih =>
    intro r c
    rw [reconstructReads.eq_def, reconstructReads.eq_def g]
    simp only [hs, hp, ih]

/-- C16. On the game left by `readInput` and `computeMonsterDistances`, when
`findEscapePath` returns a cell `e` other than `(-1,-1)`, the backward walk of
`reconstructPath(e)` (run, as in `computeOptimalSolution`, after `escapePoint` is set)
terminates at the player start after exactly `playerDistance[e]` steps: with that much fuel
or more it returns a path of that length whose replay from the start ends at `e` and it
makes exactly that many reads of `parent`, with less fuel it has not finished; every cell it
reads lies inside the grid and is not the start, and every parent entry it reads is one of
`U`, `D`, `L`, `R`. -/
theorem C16_reconstruction_terminates_at_start (n m : Nat) (stream : List Char)
    (fuel1 fuel2 : Nat) (g1 g2 : Game) (e : Cell)
    (h1 : computeMonsterDistances fuel1 (initGame n m stream) = some g1)
    (h2 : findEscapePath fuel2 g1 = some (e, g2)) (he : e ≠ (-1, -1)) :
    ∃ k : Nat, g2.playerDistance e.1 e.2 = (k : Int) ∧
      (∀ fuel, k ≤ fuel → ∃ path, reconstructPath fuel { g2 with escapePoint := e } e = some path ∧
        path.length = k ∧ walk g2.playerStart path = e) ∧
      (∀ fuel, fuel < k → reconstructPath fuel { g2 with escapePoint := e } e = none) ∧
      (∀ fuel, k ≤ fuel →
        (reconstructReads { g2 with escapePoint := e } fuel e.1 e.2).length = k) ∧
      ∀ fuel, ∀ x ∈ reconstructReads { g2 with escapePoint := e } fuel e.1 e.2,
        g2.isValid x.1 x.2 = true ∧ x ≠ g2.playerStart ∧
        g2.parent x.1 x.2 ∈ ['U', 'D', 'L', 'R'] ∧ g2.parent x.1 x.2 ≠ Char.ofNat 0 := by
  have hi := initGame_init n m stream
  generalize initGame n m stream = g0 at hi h1
  obtain ⟨d1, parM, rfl, -, -⟩ := monster_post hi fuel1 g1 h1
  obtain ⟨pd, par, rfl, hb, hcase⟩ := escape_full (n := n) (m := m)
    { g0 with monsterDistance := d1 } hi.rows hi.cols hi.pd hi.par fuel2 e g2 h2
  have hfin : pd e.1 e.2 < INF := by
    rcases hcase with ⟨h, -⟩ | ⟨-, h, -⟩
    · exact absurd h he
    · exact h
  have h0 := hb.nonneg e.1 e.2
  have hk : pd e.1 e.2 = ((pd e.1 e.2).toNat : Int) := by omega
  obtain ⟨ds, hterm, -, hdl, hwalk, -⟩ := recon_result
    { g0 with monsterDistance := d1, playerDistance := pd, parent := par } _ n m pd hb e hfin
  have hrd := recon_reads
    { g0 with monsterDistance := d1, playerDistance := pd, parent := par } _ n m pd hb
    (pd e.1 e.2).toNat
  have hgood := good_escapeSearch { g0 with monsterDistance := d1 } n m hi.rows hi.cols
  have hcp : ∀ fuel, reconstructPath fuel { ({ g0 with monsterDistance := d1, playerDistance := pd, parent := par } : Game) with escapePoint := e } e = reconstructPath fuel { g0 with monsterDistance := d1, playerDistance := pd, parent := par } e := by
    intro fuel
    apply reconstructPath_congr
    · rfl
    · rfl
  have hcr : ∀ fuel, reconstructReads { ({ g0 with monsterDistance := d1, playerDistance := pd, parent := par } : Game) with escapePoint := e } fuel e.1 e.2 = reconstructReads { g0 with monsterDistance := d1, playerDistance := pd, parent := par } fuel e.1 e.2 := by
    intro fuel
    apply reads_congr
    · rfl
    · rfl
  refine ⟨(pd e.1 e.2).toNat, hk, ?_, ?_, ?_, ?_⟩
  · intro fuel hf
    refine ⟨ds, ?_, ?_, hwalk⟩
    · exact (hcp fuel).trans (hterm fuel hf)
    · have : (ds.length : Int) = pd e.1 e.2 := hdl
      omega
  · intro fuel hf
    refine (hcp fuel).trans ?_
    simp only [reconstructPath, (hrd fuel e.1 e.2 hk (by omega)).1 [] hf, Option.map_none']
  · intro fuel hf
    refine (congrArg List.length (hcr fuel)).trans ?_
    exact (hrd fuel e.1 e.2 hk (by omega)).2.1 hf
  · intro fuel x hx
    have hx : x ∈ reconstructReads { g0 with monsterDistance := d1, playerDistance := pd, parent := par } fuel e.1 e.2 := (hcr fuel) ▸ hx
    obtain ⟨a1, a2, a3, a4⟩ := (hrd fuel e.1 e.2 hk (by omega)).2.2 x hx
    have hv := hgood.valid _ _ _ a3
    refine ⟨?_, a1, a4, ?_⟩
    · rw [isValid_iff]
      exact ⟨hv.1, by rw [hi.rows]; exact hv.2.1, hv.2.2.1, by rw [hi.cols]; exact hv.2.2.2⟩
    · intro h0
      have a5 : par x.1 x.2 ∈ ['U', 'D', 'L', 'R'] := a4
      have h00 : par x.1 x.2 = Char.ofNat 0 := h0
      rw [h00] at a5
      exact absurd a5 (by decide)

/-- C16 at the open 3x3 grid with a monster in the lower right corner: the escape cell
`(0,1)` is found, and the backward walk from it ends after `playerDistance[0][1]` steps
with every read inside the grid. -/
theorem C16_reconstruction_terminates_at_start_witness :
    ∃ g1 g2, computeMonsterDistances 20 (initGame 3 3 gridOpen3) = some g1 ∧
      findEscapePath 20 g1 = some ((0, 1), g2) ∧
      ∃ k : Nat, g2.playerDistance 0 1 = (k : Int) ∧
        (∀ fuel, k ≤ fuel → ∃ path,
          reconstructPath fuel { g2 with escapePoint := (0, 1) } (0, 1) = some path ∧
          path.length = k ∧ walk g2.playerStart path = (0, 1)) ∧
        (∀ fuel, fuel < k →
          reconstructPath fuel { g2 with escapePoint := (0, 1) } (0, 1) = none) ∧
        (∀ fuel, k ≤ fuel →
          (reconstructReads { g2 with escapePoint := (0, 1) } fuel 0 1).length = k) ∧
        ∀ fuel, ∀ x ∈ reconstructReads { g2 with escapePoint := (0, 1) } fuel 0 1,
          g2.isValid x.1 x.2 = true ∧ x ≠ g2.playerStart ∧
          g2.parent x.1 x.2 ∈ ['U', 'D', 'L', 'R'] ∧ g2.parent x.1 x.2 ≠ Char.ofNat 0 :=
  ⟨_, _, rfl, rfl,
    C16_reconstruction_terminates_at_start 3 3 gridOpen3 20 20 _ _ (0, 1) rfl rfl (by decide)⟩

theorem nodup_le_finCount (rows cols : Nat) (d : Int → Int → Int) (l : List Cell)
    (hnd : l.Nodup)
    (h : ∀ x ∈ l, 0 ≤ x.1 ∧ x.1 < rows ∧ 0 ≤ x.2 ∧ x.2 < cols ∧ d x.1 x.2 < INF) :
    l.length ≤ finCount rows cols d := by
  unfold finCount
  have hinj : ∀ x ∈ l, ∀ y ∈ l,
      (fun x : Cell => (x.1.toNat, x.2.toNat)) x = (fun x : Cell => (x.1.toNat, x.2.toNat)) y →
      x = y := by
    intro x hx y hy hxy
    simp only [Prod.mk.injEq] at hxy
    obtain ⟨a1, a2, a3, a4, _⟩ := h x hx
    obtain ⟨b1, b2, b3, b4, _⟩ := h y hy
    apply Prod.ext <;> omega
  have hnd2 : (l.map (fun x : Cell => (x.1.toNat, x.2.toNat))).Nodup :=
    List.Nodup.map_on hinj hnd
  rw [← List.length_map l (fun x : Cell => (x.1.toNat, x.2.toNat)),
    ← List.toFinset_card_of_nodup hnd2]
  apply Finset.card_le_card
  intro y hy
  rw [List.mem_toFinset, List.mem_map] at hy
  obtain ⟨x, hx, rfl⟩ := hy
  obtain ⟨a1, a2, a3, a4, a5⟩ := h x hx
  rw [Finset.mem_filter, Finset.mem_product, Finset.mem_range, Finset.mem_range]
  refine ⟨⟨by omega, by omega⟩, ?_⟩
  dsimp only
  rw [Int.toNat_of_nonneg a1, Int.toNat_of_nonneg a3]
  exact a5

/-- The pushes of one `for k` loop: the queue only grows at its end, by cells that had
distance `INF` before and have a finite one after, and no finite distance is overwritten. -/
theorem gScan_push {P : Search} {src : Cell → Prop} {rows cols : Nat} (hP : Good P rows cols)
    (p : Cell) : ∀ (ks : List Nat) (s : SState) (done : Nat → Prop), (∀ k ∈ ks, k < 4) →
    Mid P src rows cols s p done → ∀ s1 o, gScan P p.1 p.2 ks s = (s1, o) →
    ∃ l : List Cell, s1.q = s.q ++ l ∧ l.Nodup ∧
      (∀ x ∈ l, s.dist x.1 x.2 = INF ∧ s1.dist x.1 x.2 < INF ∧
        0 ≤ x.1 ∧ x.1 < rows ∧ 0 ≤ x.2 ∧ x.2 < cols) ∧
      (∀ r c, s.dist r c < INF → s1.dist r c = s.dist r c) := by
  intro ks
  induction ks with
  | nil =>
    intro s done _ hm s1 o h
    simp only [gScan, Prod.mk.injEq] at h
    obtain ⟨rfl, _⟩ := h
    exact ⟨[], by simp, List.nodup_nil, by simp, fun _ _ _ => rfl⟩
  | cons k ks ih =>
    intro s done hks hm s1 o h
    have hk : k < 4 := hks k (List.mem_cons_self _ _)
    have hks1 : ∀ j ∈ ks, j < 4 := fun j hj => hks j (List.mem_cons_of_mem _ hj)
    by_cases hc : P.adm (nb p k).1 (nb p k).2 (s.dist p.1 p.2 + 1) = true ∧
        s.dist p.1 p.2 + 1 < s.dist (nb p k).1 (nb p k).2
    · have hninf := mid_target_inf hm _ _ hc.2
      have hv := hP.valid _ _ _ hc.1
      have hnew : s.dist p.1 p.2 + 1 < INF := by
        have := hc.2
        rw [hninf] at this
        exact this
      have hkeep0 : ∀ r c, s.dist r c < INF →
          set2 s.dist (nb p k).1 (nb p k).2 (s.dist p.1 p.2 + 1) r c = s.dist r c := by
        intro r c hfin
        apply set2_other
        rintro ⟨e1, e2⟩
        rw [e1, e2, hninf] at hfin
        exact lt_irrefl _ hfin
      by_cases hs : P.stop (nb p k).1 (nb p k).2 = true
      · have hg : gScan P p.1 p.2 (k :: ks) s =
            (⟨set2 s.dist (nb p k).1 (nb p k).2 (s.dist p.1 p.2 + 1),
              set2 s.par (nb p k).1 (nb p k).2 (dir.getD k (Char.ofNat 0)), s.q ++ [nb p k]⟩,
              some (nb p k)) := by
          have hc1 := hc
          have hs1 := hs
          simp only [nb] at hc1 hs1
          simp only [gScan, nb, hc1, hs1, and_self, if_true]
        rw [hg] at h
        simp only [Prod.mk.injEq] at h
        obtain ⟨rfl, _⟩ := h
        refine ⟨[nb p k], rfl, List.nodup_singleton _, ?_, hkeep0⟩
        intro x hx
        rw [List.mem_singleton] at hx
        subst hx
        refine ⟨hninf, ?_, hv⟩
        dsimp only
        rw [set2_same]
        exact hnew
      · have hs0 : P.stop (nb p k).1 (nb p k).2 = false := by simpa using hs
        have hg : gScan P p.1 p.2 (k :: ks) s = gScan P p.1 p.2 ks
            ⟨set2 s.dist (nb p k).1 (nb p k).2 (s.dist p.1 p.2 + 1),
              set2 s.par (nb p k).1 (nb p k).2 (dir.getD k (Char.ofNat 0)), s.q ++ [nb p k]⟩ := by
          have hc1 := hc
          have hs1 := hs0
          simp only [nb] at hc1 hs1
          simp only [gScan, nb, hc1, hs1, and_self, if_true, Bool.false_eq_true, if_false]
        rw [hg] at h
        have hm1 := relax_mid hP hm k hk hc.1 hc.2 hs0
        obtain ⟨l, hq, hnd, hl, hkeep⟩ := ih _ _ hks1 hm1 s1 o h
        dsimp only at hq hl hkeep
        have hnbfin : set2 s.dist (nb p k).1 (nb p k).2 (s.dist p.1 p.2 + 1)
            (nb p k).1 (nb p k).2 < INF := by
          rw [set2_same]; exact hnew
        refine ⟨nb p k :: l, ?_, ?_, ?_, ?_⟩
        · rw [hq]; simp
        · rw [List.nodup_cons]
          refine ⟨?_, hnd⟩
          intro hmem
          have := (hl _ hmem).1
          rw [this] at hnbfin
          exact lt_irrefl _ hnbfin
        · intro x hx
          rw [List.mem_cons] at hx
          rcases hx with hx | hx
          · subst hx
            refine ⟨hninf, ?_, hv⟩
            rw [hkeep _ _ hnbfin]
            exact hnbfin
          · obtain ⟨b1, b2, b3⟩ := hl x hx
            refine ⟨?_, b2, b3⟩
            by_cases hx2 : x.1 = (nb p k).1 ∧ x.2 = (nb p k).2
            · rw [hx2.1, hx2.2]; exact hninf
            · rw [set2_other _ _ _ _ _ _ hx2] at b1; exact b1
        · intro r c hfin
          have e1 := hkeep0 r c hfin
          rw [hkeep r c (by rw [e1]; exact hfin), e1]
    · have hg : gScan P p.1 p.2 (k :: ks) s = gScan P p.1 p.2 ks s := by
        have hc1 := hc
        simp only [nb] at hc1
        simp only [gScan, nb, hc1, if_false]
      rw [hg] at h
      exact ih _ _ hks1 (skip_mid hm k hc) s1 o h

/-- One turn of the `while` loop: from the invariant at the head of the loop to the one at
the next head, with the pushes of the turn. -/
theorem head_step {P : Search} {src : Cell → Prop} {rows cols : Nat} (hP : Good P rows cols)
    (d : Int → Int → Int) (par : Int → Int → Char) (p : Cell) (rest : List Cell)
    (hh : Head P src rows cols ⟨d, par, p :: rest⟩) (s1 : SState) (o : Option Cell)
    (hsc : gScan P p.1 p.2 [0, 1, 2, 3] ⟨d, par, rest⟩ = (s1, o)) :
    (o = none → Head P src rows cols s1 ∧
      s1.q.length + finCount rows cols d ≤ rest.length + finCount rows cols s1.dist) ∧
    ∃ l : List Cell, s1.q = rest ++ l ∧ l.Nodup ∧
      (∀ x ∈ l, d x.1 x.2 = INF ∧ s1.dist x.1 x.2 < INF ∧
        0 ≤ x.1 ∧ x.1 < rows ∧ 0 ≤ x.2 ∧ x.2 < cols) ∧
      (∀ r c, d r c < INF → s1.dist r c = d r c) := by
  have hsorted := hh.sorted
  simp only [List.pairwise_cons] at hsorted
  have hm : Mid P src rows cols ⟨d, par, rest⟩ p (fun _ => False) := by
    refine ⟨hh.base, hh.nostop, hh.qfin p (List.mem_cons_self _ _), hsorted.2, hsorted.1,
      fun x hx => hh.qfin x (List.mem_cons_of_mem _ hx),
      fun r c hfin => hh.lvl r c hfin p (List.mem_cons_self _ _), ?_, ?_⟩
    · intro r c hfin
      rcases hh.closed r c hfin with h | h
      · rw [List.mem_cons] at h
        rcases h with h | h
        · right; left; exact h
        · left; exact h
      · right; right; exact h
    · intro k hk; exact absurd hk id
  have h4 : ∀ k ∈ [0, 1, 2, 3], k < 4 := by intro k hk; simp at hk; omega
  refine ⟨?_, gScan_push hP p [0, 1, 2, 3] ⟨d, par, rest⟩ (fun _ => False) h4 hm s1 o hsc⟩
  intro ho
  subst ho
  obtain ⟨i1, -⟩ := gScan_spec hP p [0, 1, 2, 3] ⟨d, par, rest⟩ (fun _ => False) h4 hm
  obtain ⟨j1, j2⟩ := i1 s1 hsc
  refine ⟨⟨j1.base, j1.nostop, j1.sorted, j1.qfin, ?_, ?_⟩, j2⟩
  · intro r c hfin x hx
    have := j1.lvl r c hfin
    have := j1.qge x hx
    omega
  · intro r c hfin
    rcases j1.closed r c hfin with h | h | h
    · left; exact h
    · right
      rw [h]
      intro k hk ha
      exact j1.prog k (Or.inr (by simp; omega)) hk ha
    · right; exact h

/-- The logged loop returns what `gLoop` returns, and its final log satisfies `LogInv`;
when the loop runs to the end the queue is empty. -/
theorem gLoopLog_spec {P : Search} {src : Cell → Prop} {rows cols : Nat}
    (hP : Good P rows cols) :
    ∀ (fuel : Nat) (s : SState) (l : List Cell × Nat), Head P src rows cols s →
      LogInv rows cols s l →
      s.q.length + (rows * cols - finCount rows cols s.dist) ≤ fuel →
      ∃ s1 o l1, gLoopLog P fuel s l = some (s1, o, l1) ∧ gLoop P fuel s = some (s1, o) ∧
        LogInv rows cols s1 l1 ∧ (o = none → s1.q = []) := by
  intro fuel
  induction fuel with
  | zero =>
    intro s l hh hl hf
    obtain ⟨d, par, q⟩ := s
    cases q with
    | nil => exact ⟨_, _, _, rfl, rfl, hl, fun _ => rfl⟩
    | cons p rest => simp at hf
  | succ fuel ih =>
    intro s l hh hl hf
    obtain ⟨d, par, q⟩ := s
    cases q with
    | nil => exact ⟨_, _, _, rfl, rfl, hl, fun _ => rfl⟩
    | cons p rest =>
      rcases hsc : gScan P p.1 p.2 [0, 1, 2, 3] ⟨d, par, rest⟩ with ⟨s1, o⟩
      obtain ⟨hhead, push, hq, hnd, hpush, hkeep⟩ := head_step hP d par p rest hh s1 o hsc
      have hdrop : s1.q.drop rest.length = push := by
        rw [hq, List.drop_left]
      have hl1 : LogInv rows cols s1 (l.1 ++ push, l.2 + 1) := by
        have hlen := hl.len
        simp only [List.length_cons] at hlen
        refine ⟨?_, ?_, ?_⟩
        · show (l.1 ++ push).Nodup
          rw [List.nodup_append]
          refine ⟨hl.nodup, hnd, ?_⟩
          intro a ha hb
          have h1 := (hl.fin a ha).2.2.2.2
          have h2 := (hpush a hb).1
          dsimp only at h1
          rw [h2] at h1
          exact lt_irrefl _ h1
        · intro x hx
          have hx1 : x ∈ l.1 ++ push := hx
          rw [List.mem_append] at hx1
          rcases hx1 with h | h
          · obtain ⟨a1, a2, a3, a4, a5⟩ := hl.fin x h
            dsimp only at a5
            exact ⟨a1, a2, a3, a4, by rw [hkeep _ _ a5]; exact a5⟩
          · obtain ⟨-, b2, b3, b4, b5, b6⟩ := hpush x h
            exact ⟨b3, b4, b5, b6, b2⟩
        · show l.2 + 1 + s1.q.length = (l.1 ++ push).length
          rw [hq, List.length_append, List.length_append]
          omega
      cases o with
      | none =>
        obtain ⟨hh1, j2⟩ := hhead rfl
        have hF := finCount_le rows cols s1.dist
        have hF0 := finCount_le rows cols d
        simp only [List.length_cons] at hf
        obtain ⟨s2, o2, l2, r1, r2, r3, r4⟩ := ih s1 (l.1 ++ push, l.2 + 1) hh1 hl1 (by omega)
        refine ⟨s2, o2, l2, ?_, ?_, r3, r4⟩
        · simp only [gLoopLog, hsc, hdrop]
          exact r1
        · simp only [gLoop, hsc]
          exact r2
      | some e =>
        refine ⟨s1, some e, (l.1 ++ push, l.2 + 1), ?_, ?_, hl1, fun h => Option.noConfusion h⟩
        · simp only [gLoopLog, hsc, hdrop]
        · simp only [gLoop, hsc]

theorem monsterLoopLog_eq : ∀ (fuel : Nat) (g : Game) (q : List Cell) (par : Int → Int → Char)
    (l : List Cell × Nat),
    monsterLoopLog fuel g q l =
      (gLoopLog (monsterSearch g) fuel ⟨g.monsterDistance, par, q⟩ l).map
        (fun r => ({ g with monsterDistance := r.1.dist }, r.2.2)) := by
  intro fuel
  induction fuel with
  | zero =>
    intro g q par l
    cases q with
    | nil => rfl
    | cons p rest => rfl
  | succ fuel ih =>
    intro g q par l
    cases q with
    | nil => rfl
    | cons p rest =>
      obtain ⟨h1, h2⟩ := monsterScan_eq p.1 p.2 [0, 1, 2, 3] g rest par
      simp only [monsterLoopLog, gLoopLog]
      rw [h2]
      rcases hsc : gScan (monsterSearch g) p.1 p.2 [0, 1, 2, 3] ⟨g.monsterDistance, par, rest⟩
        with ⟨s1, _ | e⟩
      · simp only
        exact ih { g with monsterDistance := s1.dist } s1.q s1.par _
      · rw [hsc] at h1
        simp at h1

theorem escapeLoopLog_eq : ∀ (fuel : Nat) (g : Game) (q : List Cell) (l : List Cell × Nat),
    escapeLoopLog fuel g q l =
      (gLoopLog (escapeSearch g) fuel ⟨g.playerDistance, g.parent, q⟩ l).map
        (fun r => (r.2.1.getD (-1, -1),
          { g with playerDistance := r.1.dist, parent := r.1.par }, r.2.2)) := by
  intro fuel
  induction fuel with
  | zero =>
    intro g q l
    cases q with
    | nil => rfl
    | cons p rest => rfl
  | succ fuel ih =>
    intro g q l
    cases q with
    | nil => rfl
    | cons p rest =>
      have h2 := escapeScan_eq p.1 p.2 [0, 1, 2, 3] g rest
      simp only [escapeLoopLog, gLoopLog]
      rw [h2]
      rcases hsc : gScan (escapeSearch g) p.1 p.2 [0, 1, 2, 3] ⟨g.playerDistance, g.parent, rest⟩
        with ⟨s1, _ | e⟩
      · simp only
        exact ih { g with playerDistance := s1.dist, parent := s1.par } s1.q _
      · simp

theorem findEscapePathLog_eq (g1 : Game)
    (hpd : g1.playerDistance = fun _ _ => INF) (hpar : g1.parent = fun _ _ => Char.ofNat 0)
    (hnb : g1.isBoundary g1.playerStart.1 g1.playerStart.2 = false) (fuel : Nat) :
    findEscapePathLog fuel g1 =
      (gLoopLog (escapeSearch g1) fuel
        ⟨set2 (fun _ _ => INF) g1.playerStart.1 g1.playerStart.2 0, fun _ _ => Char.ofNat 0,
          [g1.playerStart]⟩ ([g1.playerStart], 0)).map
        (fun r => (r.2.1.getD (-1, -1),
          { g1 with playerDistance := r.1.dist, parent := r.1.par }, r.2.2)) := by
  have hnb1 : Game.isBoundary { g1 with playerDistance :=
      (set2 g1.playerDistance g1.playerStart.1 g1.playerStart.2 0) }
      g1.playerStart.1 g1.playerStart.2 = false := hnb
  simp only [findEscapePathLog, hnb1, Bool.false_eq_true, if_false]
  rw [escapeLoopLog_eq]
  have hP : escapeSearch { g1 with playerDistance :=
      (set2 g1.playerDistance g1.playerStart.1 g1.playerStart.2 0) } = escapeSearch g1 := rfl
  rw [hP]
  dsimp only
  rw [hpd, hpar]

/-- The monster search with its log, on a freshly read game. -/
theorem monster_log {n m : Nat} {g : Game} (hi : Init n m g)
    (hnd : g.originalMonsterPositions.Nodup) (fuel : Nat) (hf : n * m ≤ fuel) :
    ∃ g1 pushed pops, computeMonsterDistancesLog fuel g = some (g1, pushed, pops) ∧
      computeMonsterDistances fuel g = some g1 ∧ pushed.Nodup ∧ pops = pushed.length ∧
      pops ≤ n * m := by
  have hP := good_monsterSearch g n m hi.rows hi.cols
  have hfin : ∀ x ∈ g.originalMonsterPositions, 0 ≤ x.1 ∧ x.1 < (n : Int) ∧ 0 ≤ x.2 ∧
      x.2 < (m : Int) ∧ g.monsterDistance x.1 x.2 < INF := by
    intro x hx
    have hv := (hi.mons x hx).1
    rw [isValid_iff, hi.rows, hi.cols] at hv
    have h0 := hi.md0 x.1 x.2 hx
    refine ⟨hv.1, hv.2.1, hv.2.2.1, hv.2.2.2, ?_⟩
    rw [h0, INF_eq]; omega
  have hl : LogInv n m ⟨g.monsterDistance, fun _ _ => Char.ofNat 0, g.originalMonsterPositions⟩
      (g.originalMonsterPositions, 0) := ⟨hnd, hfin, by simp⟩
  have hc := nodup_le_finCount n m g.monsterDistance _ hnd hfin
  have hF0 := finCount_le n m g.monsterDistance
  obtain ⟨s1, o, l1, r1, r2, r3, r4⟩ := gLoopLog_spec hP fuel _ _
    (head_monster hi (fun _ _ => Char.ofNat 0)) hl (by dsimp only; omega)
  have ho : o = none := by
    have h1 := monsterLoop_eq fuel g g.originalMonsterPositions (fun _ _ => Char.ofNat 0)
    cases o with
    | none => rfl
    | some e =>
      exfalso
      have hpost := gLoop_post hP fuel _ _ (head_monster hi (fun _ _ => Char.ofNat 0)) r2
      have hs := hpost.2.1
      simp [monsterSearch] at hs
  subst ho
  have hq := r4 rfl
  have hlen := r3.len
  rw [hq] at hlen
  have hc1 := nodup_le_finCount n m s1.dist _ r3.nodup r3.fin
  have hF := finCount_le n m s1.dist
  refine ⟨{ g with monsterDistance := s1.dist }, l1.1, l1.2, ?_, ?_, r3.nodup, ?_, ?_⟩
  · unfold computeMonsterDistancesLog
    rw [monsterLoopLog_eq fuel g _ (fun _ _ => Char.ofNat 0), r1]
    rfl
  · unfold computeMonsterDistances
    rw [monsterLoop_eq fuel g _ (fun _ _ => Char.ofNat 0), r2]
    rfl
  · simpa using hlen
  · simp only [List.length_nil, Nat.add_zero] at hlen
    omega

/-- The player search with its log, on a game whose player tables are still unset. -/
theorem escape_log {n m : Nat} (g1 : Game) (hr : g1.rows = n) (hc : g1.cols = m)
    (hpd : g1.playerDistance = fun _ _ => INF) (hpar : g1.parent = fun _ _ => Char.ofNat 0)
    (hstart : g1.isValid g1.playerStart.1 g1.playerStart.2 = true)
    (fuel : Nat) (hf : n * m ≤ fuel) :
    ∃ e g2 pushed pops, findEscapePathLog fuel g1 = some (e, g2, pushed, pops) ∧
      findEscapePath fuel g1 = some (e, g2) ∧ pushed.Nodup ∧ pops ≤ pushed.length ∧
      pushed.length ≤ n * m := by
  have hv := hstart
  rw [isValid_iff, hr, hc] at hv
  have hnm : 1 ≤ n * m := by
    have h1 : 0 < n := by omega
    have h2 : 0 < m := by omega
    exact Nat.mul_pos h1 h2
  by_cases hnb : g1.isBoundary g1.playerStart.1 g1.playerStart.2 = true
  · have hnb1 : Game.isBoundary { g1 with playerDistance :=
        (set2 g1.playerDistance g1.playerStart.1 g1.playerStart.2 0) }
        g1.playerStart.1 g1.playerStart.2 = true := hnb
    refine ⟨g1.playerStart, { g1 with playerDistance :=
        (set2 g1.playerDistance g1.playerStart.1 g1.playerStart.2 0) }, [g1.playerStart], 0,
      ?_, findEscapePath_boundary g1 fuel hnb, List.nodup_singleton _, Nat.zero_le _, ?_⟩
    · simp only [findEscapePathLog, hnb1, if_true]
    · simpa using hnm
  · have hnb0 : g1.isBoundary g1.playerStart.1 g1.playerStart.2 = false := by simpa using hnb
    have hP := good_escapeSearch g1 n m hr hc
    have hfin : ∀ x ∈ [g1.playerStart], 0 ≤ x.1 ∧ x.1 < (n : Int) ∧ 0 ≤ x.2 ∧ x.2 < (m : Int) ∧
        set2 (fun _ _ => INF) g1.playerStart.1 g1.playerStart.2 0 x.1 x.2 < INF := by
      intro x hx
      rw [List.mem_singleton] at hx
      subst hx
      refine ⟨hv.1, hv.2.1, hv.2.2.1, hv.2.2.2, ?_⟩
      rw [set2_same, INF_eq]; omega
    have hl : LogInv n m ⟨set2 (fun _ _ => INF) g1.playerStart.1 g1.playerStart.2 0,
        fun _ _ => Char.ofNat 0, [g1.playerStart]⟩ ([g1.playerStart], 0) :=
      ⟨List.nodup_singleton _, hfin, by simp⟩
    have hc0 := nodup_le_finCount n m _ _ (List.nodup_singleton g1.playerStart) hfin
    simp only [List.length_singleton] at hc0
    obtain ⟨s1, o, l1, r1, r2, r3, -⟩ := gLoopLog_spec hP fuel _ _ ((head_escape g1).1 hnb0) hl
      (by simp only [List.length_singleton]; omega)
    have hlen := r3.len
    have hc1 := nodup_le_finCount n m s1.dist _ r3.nodup r3.fin
    have hF := finCount_le n m s1.dist
    refine ⟨o.getD (-1, -1), { g1 with playerDistance := s1.dist, parent := s1.par },
      l1.1, l1.2, ?_, ?_, r3.nodup, by omega, by omega⟩
    · rw [findEscapePathLog_eq g1 hpd hpar hnb0, r1]
      rfl
    · rw [findEscapePath_eq g1 hpd hpar hnb0, r2]
      rfl

/-- C17. Both searches are bounded. In the logged runs of `computeMonsterDistances` and of
`findEscapePath` (the log lists the pushed cells in push order, including the pushes made
before the loop, and counts the dequeued cells; every write of a distance inside the loops
comes with a push) no cell is pushed twice and at most `rows*cols` cells are dequeued, and
with fuel `rows*cols` both loops return what the unlogged functions return. The monster
search dequeues every pushed cell. For `findEscapePath` the grid must have a cell: the
source indexes `playerDistance` at the player start before the loop. -/
theorem C17_searches_bounded (n m : Nat) (stream : List Char) :
    (∀ fuel, n * m ≤ fuel → ∃ g1 pushed pops,
      computeMonsterDistancesLog fuel (initGame n m stream) = some (g1, pushed, pops) ∧
      computeMonsterDistances fuel (initGame n m stream) = some g1 ∧
      pushed.Nodup ∧ pops = pushed.length ∧ pops ≤ n * m) ∧
    (0 < n → 0 < m → ∀ fuel1 g1,
      computeMonsterDistances fuel1 (initGame n m stream) = some g1 →
      ∀ fuel, n * m ≤ fuel → ∃ e g2 pushed pops,
        findEscapePathLog fuel g1 = some (e, g2, pushed, pops) ∧
        findEscapePath fuel g1 = some (e, g2) ∧
        pushed.Nodup ∧ pops ≤ pushed.length ∧ pushed.length ≤ n * m) := by
  have hi := initGame_init n m stream
  have hx := initGame_extra n m stream
  refine ⟨fun fuel hf => monster_log hi hx.nodup fuel hf, ?_⟩
  intro hn hm fuel1 g1 h1 fuel hf
  have hnd := hx.nodup
  generalize initGame n m stream = g0 at hi h1 hnd
  obtain ⟨d1, parM, rfl, -, -⟩ := monster_post hi fuel1 g1 h1
  refine escape_log { g0 with monsterDistance := d1 } hi.rows hi.cols hi.pd hi.par ?_ fuel hf
  show g0.isValid g0.playerStart.1 g0.playerStart.2 = true
  rcases hi.start with h | h
  · rw [h, isValid_iff, hi.rows, hi.cols]
    refine ⟨le_refl _, ?_, le_refl _, ?_⟩
    · show (0 : Int) < (n : Int)
      exact_mod_cast hn
    · show (0 : Int) < (m : Int)
      exact_mod_cast hm
  · exact h.1

/-- C17 at the open 3x3 grid with a monster in the lower right corner: the monster search
pushes all nine cells once and dequeues them, the player search returns `(0,1)` after one
dequeue and two pushes. -/
theorem C17_searches_bounded_witness :
    (∃ g1, computeMonsterDistancesLog 9 (initGame 3 3 gridOpen3) =
        some (g1, [(2, 2), (1, 2), (2, 1), (0, 2), (1, 1), (2, 0), (0, 1), (1, 0), (0, 0)], 9)) ∧
    (∃ g1 g2, computeMonsterDistances 9 (initGame 3 3 gridOpen3) = some g1 ∧
      findEscapePathLog 9 g1 = some ((0, 1), g2, [(1, 1), (0, 1)], 1)) ∧
    (0 < 3 → 0 < 3 → ∀ fuel1 g1,
      computeMonsterDistances fuel1 (initGame 3 3 gridOpen3) = some g1 →
      ∀ fuel, 3 * 3 ≤ fuel → ∃ e g2 pushed pops,
        findEscapePathLog fuel g1 = some (e, g2, pushed, pops) ∧
        findEscapePath fuel g1 = some (e, g2) ∧
        pushed.Nodup ∧ pops ≤ pushed.length ∧ pushed.length ≤ 3 * 3) :=
  ⟨⟨_, rfl⟩, ⟨_, _, rfl, rfl⟩, (C17_searches_bounded 3 3 gridOpen3).2⟩

theorem shortcut_solution :
    (computeOptimalSolution 12 (initGame 4 3 gridShortcut)).map
      (fun r => (r.1, r.2.optimalPath, r.2.optimalPathLength, r.2.escapePoint)) =
      some (true, ['D', 'D'], 2, ((3 : Int), (1 : Int))) ∧
    (computeOptimalSolution 12 (initGame 4 3 gridShortcut)).map
      (fun r => (r.2.playerPos, r.2.moveCount, r.2.gameOver)) =
      some (((1 : Int), (1 : Int)), 0, false) := by
  decide!

theorem shortcut_move :
    (computeOptimalSolution 12 (initGame 4 3 gridShortcut)).map
      (fun r => ((processMove r.2 'U').1,
        (processMove r.2 'U').2.playerPos, (processMove r.2 'U').2.currentMonsterPositions)) =
      some (true, ((0 : Int), (1 : Int)), [((0 : Int), (0 : Int))]) ∧
    (computeOptimalSolution 12 (initGame 4 3 gridShortcut)).map
      (fun r => ((processMove r.2 'U').2.gameOver, (processMove r.2 'U').2.playerWon,
        (processMove r.2 'U').2.moveCount, (processMove r.2 'U').2.optimalPathLength)) =
      some (true, true, 1, 2) := by
  decide!

/-- C18 fails on the 4x3 grid `M..` / `.A#` / `...` / `...`: `computeOptimalSolution`
succeeds with the path `DD` and `optimalPathLength = 2` (the cell above the start has
monster distance 1, not more than the player's 1), yet the single move `U` is accepted and
wins the live game, because the monster at `(0,0)` may not step onto the player: the game
ends with `playerWon` and `moveCount = 1`, below the reported optimum. -/
theorem C18_win_below_reported_optimum :
    ∃ g3, computeOptimalSolution 12 (initGame 4 3 gridShortcut) = some (true, g3) ∧
      g3.optimalPath = ['D', 'D'] ∧ g3.optimalPathLength = 2 ∧ g3.escapePoint = (3, 1) ∧
      g3.playerPos = (1, 1) ∧ g3.moveCount = 0 ∧ g3.gameOver = false ∧
      (processMove g3 'U').1 = true ∧
      (processMove g3 'U').2.playerPos = (0, 1) ∧
      (processMove g3 'U').2.currentMonsterPositions = [(0, 0)] ∧
      (processMove g3 'U').2.gameOver = true ∧ (processMove g3 'U').2.playerWon = true ∧
      (processMove g3 'U').2.moveCount = 1 ∧
      (processMove g3 'U').2.moveCount < (processMove g3 'U').2.optimalPathLength := by
  have h := shortcut_solution
  have hm := shortcut_move
  rcases hc : computeOptimalSolution 12 (initGame 4 3 gridShortcut) with _ | ⟨b, g3⟩
  · rw [hc] at h
    exact absurd h (by simp)
  · rw [hc] at h hm
    simp only [Option.map_some', Option.some.injEq, Prod.mk.injEq] at h hm
    obtain ⟨⟨h1, h2, h3, h4⟩, h5, h6, h7⟩ := h
    obtain ⟨⟨h8, h9, h10⟩, h11, h12, h13, h14⟩ := hm
    subst h1
    refine ⟨g3, rfl, h2, h3, h4, h5, h6, h7, h8, h9, h10, h11, h12, h13, ?_⟩
    rw [h13, h14]; decide

theorem isWalkable_same {g G : Game} (h : SameGrid g G) (r c : Int) :
    g.isWalkable r c = G.isWalkable r c := by
  simp only [Game.isWalkable, Game.isValid, h.1, h.2.1, h.2.2]

theorem isBoundary_same {g G : Game} (h : SameGrid g G) (r c : Int) :
    g.isBoundary r c = G.isBoundary r c := by
  simp only [Game.isBoundary, Game.isValid, h.1, h.2.1]

theorem moveTarget_step (p : Cell) (mv : Char) (hmv : mv ∈ ['U', 'D', 'L', 'R']) :
    moveTarget p mv = some (stepDir p mv) := by
  simp only [List.mem_cons, List.mem_singleton, List.not_mem_nil, or_false] at hmv
  rcases hmv with h | h | h | h <;> subst h <;> simp [moveTarget, stepDir]

theorem not_quit (mv : Char) (hmv : mv ∈ ['U', 'D', 'L', 'R']) : ¬ (mv = 'Q' ∨ mv = 'q') := by
  simp only [List.mem_cons, List.mem_singleton, List.not_mem_nil, or_false] at hmv
  rcases hmv with h | h | h | h <;> subst h <;> decide

/-- One accepted move along a route that stays ahead of the monster distances: the move is
accepted, no monster stands on the player afterwards, and every monster still stands on a
cell whose monster distance is at most the number of moves made. -/
theorem route_step (G g : Game) (d1 : Int → Int → Int) (hle : ∀ i j, d1 i j ≤ INF)
    (hcl : ∀ i j, d1 i j < INF → Closed (monsterSearch G) d1 (i, j))
    (hs : SameGrid g G) (t0 : Nat)
    (hmon : ∀ mon ∈ g.currentMonsterPositions, d1 mon.1 mon.2 ≤ (t0 : Int))
    (mv : Char) (hmv : mv ∈ ['U', 'D', 'L', 'R'])
    (hw : G.isWalkable (stepDir g.playerPos mv).1 (stepDir g.playerPos mv).2 = true)
    (hsafe : ((t0 + 1 : Nat) : Int) < d1 (stepDir g.playerPos mv).1 (stepDir g.playerPos mv).2) :
    (processMove g mv).1 = true ∧
    (processMove g mv).2.playerPos = stepDir g.playerPos mv ∧
    (processMove g mv).2.moveCount = g.moveCount + 1 ∧
    SameGrid (processMove g mv).2 G ∧
    (∀ mon ∈ (processMove g mv).2.currentMonsterPositions,
      d1 mon.1 mon.2 ≤ ((t0 + 1 : Nat) : Int)) ∧
    (processMove g mv).2.playerPos ∉ (processMove g mv).2.currentMonsterPositions ∧
    (G.isBoundary (stepDir g.playerPos mv).1 (stepDir g.playerPos mv).2 = true →
      (processMove g mv).2.gameOver = true ∧ (processMove g mv).2.playerWon = true) ∧
    (G.isBoundary (stepDir g.playerPos mv).1 (stepDir g.playerPos mv).2 = false →
      (processMove g mv).2.gameOver = g.gameOver ∧
      (processMove g mv).2.playerWon = g.playerWon) := by
  have ht := moveTarget_step g.playerPos mv hmv
  have hwg : g.isWalkable (stepDir g.playerPos mv).1 (stepDir g.playerPos mv).2 = true := by
    rw [isWalkable_same hs]; exact hw
  obtain ⟨a1, a2, a3, a4, -, a6, a7, a8, a9, a10, -⟩ :=
    processMove_accept g mv (stepDir g.playerPos mv) ht hwg
  have hinf := hle (stepDir g.playerPos mv).1 (stepDir g.playerPos mv).2
  have hbound : ∀ mon ∈ (processMove g mv).2.currentMonsterPositions,
      d1 mon.1 mon.2 ≤ ((t0 + 1 : Nat) : Int) := by
    intro mon hmem
    rw [a4, List.mem_map] at hmem
    obtain ⟨old, hold, rfl⟩ := hmem
    have ho := hmon old hold
    rcases pursuitRule_cases
      { g with playerPos := stepDir g.playerPos mv, moveCount := g.moveCount + 1 } old
      with h | ⟨k, hk, h, hwk, -⟩
    · rw [h]
      push_cast
      omega
    · rw [h]
      have hwk1 : g.isWalkable (nb old k).1 (nb old k).2 = true := hwk
      rw [isWalkable_same hs] at hwk1
      have hc : d1 (nb old k).1 (nb old k).2 ≤ d1 old.1 old.2 + 1 :=
        hcl old.1 old.2 (by push_cast at hsafe; omega) k hk hwk1
      push_cast
      omega
  have hnot : (processMove g mv).2.playerPos ∉ (processMove g mv).2.currentMonsterPositions := by
    intro hmem
    have := hbound _ hmem
    rw [a2] at this
    omega
  have hnot2 : stepDir g.playerPos mv ∉ (processMove g mv).2.currentMonsterPositions := by
    rw [← a2]; exact hnot
  refine ⟨a1, a2, a3, ⟨a8.trans hs.1, a9.trans hs.2.1, a10.trans hs.2.2⟩, hbound, hnot, ?_, ?_⟩
  · intro hb
    exact a6 hnot2 (by rw [isBoundary_same hs]; exact hb)
  · intro hb
    exact a7 hnot2 (by rw [isBoundary_same hs]; exact hb)

/-- Playing a whole route that stays ahead of the monster distances and whose only boundary
cell is its end: every move is accepted while the game is running, the player is never on a
monster cell, and the last move wins. -/
theorem route_play (G : Game) (d1 : Int → Int → Int) (hle : ∀ i j, d1 i j ≤ INF)
    (hcl : ∀ i j, d1 i j < INF → Closed (monsterSearch G) d1 (i, j)) :
    ∀ (rest : List Char) (g : Game) (t0 : Nat), SameGrid g G → g.moveCount = (t0 : Int) →
      (rest ≠ [] → g.gameOver = false) →
      (∀ mon ∈ g.currentMonsterPositions, d1 mon.1 mon.2 ≤ (t0 : Int)) →
      (∀ ch ∈ rest, ch ∈ ['U', 'D', 'L', 'R']) →
      (∀ i, 1 ≤ i → i ≤ rest.length →
        G.isWalkable (walk g.playerPos (rest.take i)).1 (walk g.playerPos (rest.take i)).2 = true ∧
        ((t0 + i : Nat) : Int) <
          d1 (walk g.playerPos (rest.take i)).1 (walk g.playerPos (rest.take i)).2) →
      (∀ i, 1 ≤ i → i < rest.length →
        G.isBoundary (walk g.playerPos (rest.take i)).1
          (walk g.playerPos (rest.take i)).2 = false) →
      G.isBoundary (walk g.playerPos rest).1 (walk g.playerPos rest).2 = true →
      (∀ t, t < rest.length →
        (playMoves g (rest.take t)).gameOver = false ∧
        (processMove (playMoves g (rest.take t)) (rest.getD t 'U')).1 = true) ∧
      (∀ t, 1 ≤ t → t ≤ rest.length →
        (playMoves g (rest.take t)).playerPos = walk g.playerPos (rest.take t) ∧
        (playMoves g (rest.take t)).moveCount = ((t0 + t : Nat) : Int) ∧
        (playMoves g (rest.take t)).playerPos ∉
          (playMoves g (rest.take t)).currentMonsterPositions ∧
        (∀ mon ∈ (playMoves g (rest.take t)).currentMonsterPositions,
          d1 mon.1 mon.2 ≤ ((t0 + t : Nat) : Int)) ∧
        (t = rest.length → (playMoves g (rest.take t)).gameOver = true ∧
          (playMoves g (rest.take t)).playerWon = true)) ∧
      playGame rest g = playMoves g rest := by
  intro rest
  induction rest with
  | nil =>
    intro g t0 _ _ _ _ _ _ _ _
    refine ⟨fun t ht => absurd ht (by simp), fun t h1 h2 => ?_, rfl⟩
    simp only [List.length_nil] at h2
    omega
  | cons mv rest ih =>
    intro g t0 hs hcount hover hmon hch hcells hnb hend
    have hmv := hch mv (List.mem_cons_self _ _)
    have hg0 : g.gameOver = false := hover (List.cons_ne_nil _ _)
    have hc1 := hcells 1 (le_refl _) (by simp)
    have hw1 : walk g.playerPos ((mv :: rest).take 1) = stepDir g.playerPos mv := by
      simp [walk]
    rw [hw1] at hc1
    obtain ⟨s1, s2, s3, s4, s5, s6, s7, s8⟩ :=
      route_step G g d1 hle hcl hs t0 hmon mv hmv hc1.1 hc1.2
    have hwalk : ∀ l : List Char,
        walk g.playerPos (mv :: l) = walk (processMove g mv).2.playerPos l := by
      intro l
      rw [s2]
      simp [walk]
    have hplay : ∀ l : List Char,
        playMoves g (mv :: l) = playMoves (processMove g mv).2 l := fun _ => rfl
    have hover1 : rest ≠ [] → (processMove g mv).2.gameOver = false := by
      intro hne
      have hlen : 1 < (mv :: rest).length := by
        cases rest with
        | nil => exact absurd rfl hne
        | cons a l => simp
      have hb := hnb 1 (le_refl _) hlen
      rw [hw1] at hb
      rw [(s8 hb).1]
      exact hg0
    obtain ⟨i1, i2, i3⟩ := ih (processMove g mv).2 (t0 + 1) s4
      (by rw [s3, hcount]; push_cast; ring) hover1 s5
      (fun ch h => hch ch (List.mem_cons_of_mem _ h))
      (by
        intro i h1 h2
        have := hcells (i + 1) (by omega) (by simp only [List.length_cons]; omega)
        rw [List.take_succ_cons, hwalk] at this
        have e : t0 + (i + 1) = t0 + 1 + i := by omega
        rw [e] at this
        exact this)
      (by
        intro i h1 h2
        have := hnb (i + 1) (by omega) (by simp only [List.length_cons]; omega)
        rw [List.take_succ_cons, hwalk] at this
        exact this)
      (by rw [← hwalk]; exact hend)
    refine ⟨?_, ?_, ?_⟩
    · intro t ht
      cases t with
      | zero => exact ⟨hg0, s1⟩
      | succ t1 =>
        simp only [List.length_cons] at ht
        rw [List.take_succ_cons, hplay, List.getD_cons_succ]
        exact i1 t1 (by omega)
    · intro t h1 h2
      obtain ⟨t1, rfl⟩ : ∃ t1, t = t1 + 1 := ⟨t - 1, by omega⟩
      simp only [List.length_cons] at h2
      rw [List.take_succ_cons, hplay, hwalk]
      by_cases h0 : t1 = 0
      · subst h0
        simp only [List.take_zero]
        refine ⟨rfl, ?_, s6, s5, ?_⟩
        · show (processMove g mv).2.moveCount = ((t0 + (0 + 1) : Nat) : Int)
          rw [s3, hcount]
          push_cast
          ring
        · intro hl
          have hnil : rest = [] := by
            cases rest with
            | nil => rfl
            | cons a l => simp at hl
          subst hnil
          have hb : G.isBoundary (stepDir g.playerPos mv).1 (stepDir g.playerPos mv).2 = true := by
            have := hend
            simp only [walk, List.foldl_cons, List.foldl_nil] at this
            exact this
          exact s7 hb
      · obtain ⟨j1, j2, j3, j4, j5⟩ := i2 t1 (by omega) (by omega)
        have e : t0 + 1 + t1 = t0 + (t1 + 1) := by omega
        rw [e] at j2 j4
        refine ⟨j1, j2, j3, j4, ?_⟩
        intro hl
        exact j5 (by simp only [List.length_cons] at hl; omega)
    · rw [hplay, ← i3]
      rw [playGame]
      simp only [hg0, Bool.false_eq_true, if_false, not_quit mv hmv]

/-- The characters `reconstructLoop` appends are parent entries of reached cells, hence
among `U`, `D`, `L`, `R`. -/
theorem recon_chars (g : Game) (P : Search) (n m : Nat) (d : Int → Int → Int)
    (hb : Base P (fun c => c = g.playerStart) n m d g.parent) :
    ∀ (k fuel : Nat) (r c : Int) (acc p : List Char), d r c = k → (k : Int) < INF →
      reconstructLoop g fuel r c acc = some p →
      ∀ ch ∈ p, ch ∈ acc ∨ ch ∈ ['U', 'D', 'L', 'R'] := by
  intro k
  induction k with
  | zero =>
    intro fuel r c acc p hd _ h
    have hr := hb.sound r c (by rw [hd, INF_eq]; simp)
    rw [hd] at hr
    have hr0 : Reach P (fun c => c = g.playerStart) 0 (r, c) := hr
    have hs : (r, c) = g.playerStart := @reach_zero P (fun c => c = g.playerStart) _ hr0
    rw [reconstructLoop.eq_def] at h
    simp only [hs, if_true, Option.some.injEq] at h
    subst h
    exact fun ch h => Or.inl h
  | succ k ih =>
    intro fuel r c acc p hd hlt h
    have hfin : d r c < INF := by rw [hd]; exact hlt
    have hne : (r, c) ≠ g.playerStart := by
      intro h
      have := hb.src0 r c h
      rw [hd] at this
      push_cast at this
      omega
    obtain ⟨j, hj, hpar, hpred, _⟩ := hb.par_ok r c hfin hne
    have hdp : d (r - row_directions.getD j 0) (c - col_directions.getD j 0) = (k : Int) := by
      rw [hd] at hpred
      push_cast at hpred
      omega
    cases fuel with
    | zero =>
      rw [reconstructLoop.eq_def] at h
      simp [hne] at h
    | succ fuel1 =>
      rw [(recon_step g fuel1 r c acc j hj hne hpar).1] at h
      intro ch hch
      rcases ih fuel1 _ _ _ p hdp (by push_cast at hlt; omega) h ch hch with h1 | h1
      · rw [List.mem_append, List.mem_singleton] at h1
        rcases h1 with h2 | h2
        · exact Or.inl h2
        · right
          rw [h2]
          exact dir_mem j hj
      · exact Or.inr h1

/-- C19. When `computeOptimalSolution` succeeds with a non-empty `optimalPath`, feeding the
characters of `optimalPath` one by one to `processMove` from the state the solver leaves
behind wins the live game: before each move the game is running and the move is accepted;
after `t ≥ 1` moves the player is not caught, stands on the `t`-th cell of the route and
`moveCount = t`; after any number `t` of moves every monster stands on a cell whose
`monsterDistance` is at most `t`; after the last move `gameOver` and `playerWon` are true,
`moveCount = optimalPathLength` and the player is on `escapePoint`; the loop of `playGame`
run on the route ends in that state. No hypothesis on the number of `'A'` cells is needed. -/
theorem C19_computed_route_wins (n m : Nat) (stream : List Char) (fuel : Nat) (g3 : Game)
    (h : computeOptimalSolution fuel (initGame n m stream) = some (true, g3))
    (hne : g3.optimalPath ≠ []) :
    (∀ t, t < g3.optimalPath.length →
      (playMoves g3 (g3.optimalPath.take t)).gameOver = false ∧
      (processMove (playMoves g3 (g3.optimalPath.take t)) (g3.optimalPath.getD t 'U')).1 = true) ∧
    (∀ t, 1 ≤ t → t ≤ g3.optimalPath.length →
      isCaughtByMonster (playMoves g3 (g3.optimalPath.take t)) = false ∧
      (playMoves g3 (g3.optimalPath.take t)).playerPos =
        walk g3.playerStart (g3.optimalPath.take t) ∧
      (playMoves g3 (g3.optimalPath.take t)).moveCount = (t : Int)) ∧
    (∀ t, t ≤ g3.optimalPath.length →
      ∀ mon ∈ (playMoves g3 (g3.optimalPath.take t)).currentMonsterPositions,
        g3.monsterDistance mon.1 mon.2 ≤ (t : Int)) ∧
    (playMoves g3 g3.optimalPath).gameOver = true ∧
    (playMoves g3 g3.optimalPath).playerWon = true ∧
    (playMoves g3 g3.optimalPath).moveCount = g3.optimalPathLength ∧
    (playMoves g3 g3.optimalPath).playerPos = g3.escapePoint ∧
    playGame g3.optimalPath g3 = playMoves g3 g3.optimalPath := by
  have hi := initGame_init n m stream
  have hx := initGame_extra n m stream
  generalize initGame n m stream = g0 at hi hx h
  obtain ⟨d1, pd, parM, par, e, path, len, rfl, -, -, hbM, hclM, hb, hcase⟩ :=
    solution_shape g0 hi fuel true g3 h
  rcases hcase with ⟨-, hbf, -⟩ | ⟨he, -, hlen, hrec, hfin, hbe, hstartb, hmin⟩
  · exact Bool.noConfusion hbf
  have hne1 : path ≠ [] := hne
  obtain ⟨ds, hterm, huniq, hdl, hwalk, hcells⟩ := recon_result
    { g0 with monsterDistance := d1, playerDistance := pd, parent := par } _ n m pd hb e hfin
  have hrec1 : reconstructPath fuel
      { g0 with monsterDistance := d1, playerDistance := pd, parent := par } e = some path := by
    rw [← hrec]
    apply reconstructPath_congr
    · rfl
    · rfl
  have hp : path = ds := huniq fuel path hrec1
  subst hp
  have hpos : 0 < path.length := List.length_pos.2 hne1
  have hstart : g0.isBoundary g0.playerStart.1 g0.playerStart.2 = false := by
    by_contra hb1
    have hb2 : g0.isBoundary g0.playerStart.1 g0.playerStart.2 = true := by simpa using hb1
    have he1 := hstartb hb2
    have h0 := hb.src0 g0.playerStart.1 g0.playerStart.2 rfl
    rw [he1, h0] at hdl
    have : path.length = 0 := by exact_mod_cast hdl
    omega
  have hchars : ∀ ch ∈ path, ch ∈ ['U', 'D', 'L', 'R'] := by
    intro ch hch
    have h0 := hb.nonneg e.1 e.2
    have hk : pd e.1 e.2 = ((pd e.1 e.2).toNat : Int) := by omega
    simp only [reconstructPath, Option.map_eq_some'] at hrec1
    obtain ⟨p1, hp1, hp2⟩ := hrec1
    have := recon_chars { g0 with monsterDistance := d1, playerDistance := pd, parent := par }
      _ n m pd hb (pd e.1 e.2).toNat fuel e.1 e.2 [] p1 hk (by omega) hp1 ch
      (by rw [← hp2] at hch; exact List.mem_reverse.1 hch)
    rcases this with h1 | h1
    · exact absurd h1 (List.not_mem_nil _)
    · exact h1
  have hpp : g0.playerPos = g0.playerStart := hx.pos
  have hmon0 : ∀ mon ∈ g0.currentMonsterPositions, d1 mon.1 mon.2 ≤ ((0 : Nat) : Int) := by
    intro mon hmem
    rw [hx.current] at hmem
    have := hbM.src0 mon.1 mon.2 hmem
    rw [this]
    simp
  obtain ⟨r1, r2, r3⟩ := route_play g0 d1 hbM.le_inf hclM path
    { g0 with monsterDistance := d1, playerDistance := pd, parent := par, escapePoint := e,
              optimalPath := path, optimalPathLength := len } 0
    ⟨rfl, rfl, rfl⟩ (by simpa using hx.count0) (fun _ => hx.over) hmon0 hchars
    (by
      intro i h1 h2
      show g0.isWalkable (walk g0.playerPos (path.take i)).1 (walk g0.playerPos (path.take i)).2 =
        true ∧ ((0 + i : Nat) : Int) <
          d1 (walk g0.playerPos (path.take i)).1 (walk g0.playerPos (path.take i)).2
      rw [hpp, Nat.zero_add]
      have hcx := hcells i h2
      exact route_safe { g0 with monsterDistance := d1 } n m pd par hb _ i h1 hcx (by omega))
    (by
      intro i h1 h2
      show g0.isBoundary (walk g0.playerPos (path.take i)).1
        (walk g0.playerPos (path.take i)).2 = false
      rw [hpp]
      by_contra hb1
      have hb2 : g0.isBoundary (walk g0.playerStart (path.take i)).1
          (walk g0.playerStart (path.take i)).2 = true := by simpa using hb1
      have hcx := hcells i (by omega)
      have hr := hb.sound _ _ (by rw [hcx]; omega)
      rw [hcx] at hr
      have := hmin hstart _ _ hr hb2
      simp only [Int.toNat_ofNat] at this
      omega)
    (by
      show g0.isBoundary (walk g0.playerPos path).1 (walk g0.playerPos path).2 = true
      rw [hpp, hwalk]; exact hbe)
  have hfull : path.take path.length = path := List.take_length path
  have hlast := r2 path.length hpos (le_refl _)
  rw [hfull] at hlast
  obtain ⟨l1, l2, -, -, l5⟩ := hlast
  refine ⟨r1, ?_, ?_, (l5 rfl).1, (l5 rfl).2, ?_, ?_, r3⟩
  · intro t h1 h2
    obtain ⟨j1, j2, j3, -, -⟩ := r2 t h1 h2
    refine ⟨?_, ?_, ?_⟩
    · rw [Bool.eq_false_iff]
      intro hc
      exact j3 ((isCaught_iff _).1 hc)
    · rw [j1]
      show walk g0.playerPos (path.take t) = walk g0.playerStart (path.take t)
      rw [hpp]
    · rw [j2, Nat.zero_add]
  · intro t h2 mon hmem
    show d1 mon.1 mon.2 ≤ (t : Int)
    by_cases h0 : t = 0
    · subst h0
      exact hmon0 mon hmem
    · obtain ⟨-, -, -, j4, -⟩ := r2 t (by omega) h2
      have := j4 mon hmem
      rw [Nat.zero_add] at this
      exact this
  · rw [l2, Nat.zero_add]
    show (path.length : Int) = len
    exact hlen.symm
  · rw [l1]
    show walk g0.playerPos path = e
    rw [hpp]; exact hwalk

/-- C19 at the open 3x3 grid with a monster in the lower right corner: the route `U` is
accepted and wins in one move. -/
theorem C19_computed_route_wins_witness :
    ∃ g3, computeOptimalSolution 20 (initGame 3 3 gridOpen3) = some (true, g3) ∧
      g3.optimalPath ≠ [] ∧
      (playMoves g3 g3.optimalPath).gameOver = true ∧
      (playMoves g3 g3.optimalPath).playerWon = true ∧
      (playMoves g3 g3.optimalPath).moveCount = g3.optimalPathLength ∧
      (playMoves g3 g3.optimalPath).playerPos = g3.escapePoint ∧
      playGame g3.optimalPath g3 = playMoves g3 g3.optimalPath := by
  have hm : (computeOptimalSolution 20 (initGame 3 3 gridOpen3)).map
      (fun r => (r.1, r.2.optimalPath)) = some (true, ['U']) := by decide!
  rcases hc : computeOptimalSolution 20 (initGame 3 3 gridOpen3) with _ | ⟨b, g3⟩
  · rw [hc] at hm
    exact absurd hm (by simp)
  · rw [hc] at hm
    simp only [Option.map_some', Option.some.injEq, Prod.mk.injEq] at hm
    obtain ⟨rfl, hp⟩ := hm
    exact ⟨g3, rfl, by rw [hp]; simp,
      (C19_computed_route_wins 3 3 gridOpen3 20 g3 hc (by rw [hp]; simp)).2.2.2⟩

theorem positions_step (g : Game) (mv : Char) (h : PositionsOk g) :
    PositionsOk (processMove g mv).2 := by
  rcases ht : moveTarget g.playerPos mv with _ | t
  · rw [(processMove_reject g mv).1 ht]
    exact h
  · by_cases hw : g.isWalkable t.1 t.2 = true
    · obtain ⟨-, a2, -, a4, -, -, -, a8, a9, a10, a11⟩ := processMove_accept g mv t ht hw
      have hs : SameGrid (processMove g mv).2 g := ⟨a8, a9, a10⟩
      refine ⟨?_, ?_, ?_⟩
      · rw [isWalkable_same hs, a2]
        exact hw
      · intro mon hmem
        rw [a4, List.mem_map] at hmem
        obtain ⟨old, hold, rfl⟩ := hmem
        rw [isWalkable_same hs]
        rcases pursuitRule_cases { g with playerPos := t, moveCount := g.moveCount + 1 } old
          with e | ⟨k, -, e, hwk, -⟩
        · rw [e]
          exact h.2.1 old hold
        · rw [e]
          exact hwk
      · rw [a4, a11, List.length_map]
        exact h.2.2
    · have hw0 : g.isWalkable t.1 t.2 = false := by simpa using hw
      rw [(processMove_reject g mv).2 t ht hw0]
      exact h

theorem positions_play : ∀ (moves : List Char) (g : Game), PositionsOk g →
    PositionsOk (playMoves g moves) := by
  intro moves
  induction moves with
  | nil => intro g h; exact h
  | cons mv rest ih =>
    intro g h
    exact ih _ (positions_step g mv h)

theorem positions_init (n m : Nat) (stream : List Char)
    (hA : ∃ r c, (initGame n m stream).originalGrid r c = 'A') :
    PositionsOk (initGame n m stream) := by
  have hi := initGame_init n m stream
  have hx := initGame_extra n m stream
  obtain ⟨r, c, hrc⟩ := hA
  obtain ⟨hv, hAs⟩ := hi.hasA r c hrc
  refine ⟨?_, ?_, ?_⟩
  · rw [hx.pos]
    simp only [Game.isWalkable, hv, hAs, Bool.true_and]
    decide
  · intro mon hmem
    rw [hx.current] at hmem
    obtain ⟨h1, h2⟩ := hi.mons mon hmem
    exact isWalkable_of_M _ _ _ h1 h2
  · rw [hx.current]

/-- C20. Position invariant. For a grid read by `readInput` that holds an `'A'` (this
covers grids with `rows, cols ≥ 1` and exactly one `'A'`), in every state reached by any
sequence of `processMove` calls, accepted or rejected, from the state after `readInput`, and
likewise from the state `computeOptimalSolution` leaves behind, `playerPos` is a walkable
in-grid cell, every entry of `currentMonsterPositions` is a walkable in-grid cell, and
`currentMonsterPositions` is as long as `originalMonsterPositions`. -/
theorem C20_position_invariant (n m : Nat) (stream : List Char)
    (hA : ∃ r c, (initGame n m stream).originalGrid r c = 'A') (moves : List Char) :
    PositionsOk (playMoves (initGame n m stream) moves) ∧
    ∀ fuel b g3, computeOptimalSolution fuel (initGame n m stream) = some (b, g3) →
      PositionsOk (playMoves g3 moves) := by
  have h0 := positions_init n m stream hA
  refine ⟨positions_play moves _ h0, ?_⟩
  intro fuel b g3 h
  have hi := initGame_init n m stream
  generalize initGame n m stream = g0 at hi h h0
  obtain ⟨d1, pd, parM, par, e, path, len, rfl, -⟩ := solution_shape g0 hi fuel b g3 h
  exact positions_play moves _ h0

/-- C20 at the open 3x3 grid with a monster in the lower right corner, for the moves
`L`, `x` (rejected), `D`. -/
theorem C20_position_invariant_witness :
    (∃ r c, (initGame 3 3 gridOpen3).originalGrid r c = 'A') ∧
    PositionsOk (playMoves (initGame 3 3 gridOpen3) ['L', 'x', 'D']) ∧
    (playMoves (initGame 3 3 gridOpen3) ['L', 'x', 'D']).playerPos = (2, 0) ∧
    (playMoves (initGame 3 3 gridOpen3) ['L', 'x', 'D']).currentMonsterPositions = [(2, 2)] :=
  ⟨⟨1, 1, rfl⟩,
    (C20_position_invariant 3 3 gridOpen3 ⟨1, 1, rfl⟩ ['L', 'x', 'D']).1, by decide!, by decide!⟩

end MonsterGame
